import Mathlib

/-!
Cronograma: progress and achievement state engine.

A shallow embedding of the progress tracker of `assets/js/progress.js` and of
the progress module of `assets/js/main.js`.

Conventions of the embedding.

* JavaScript numbers that the code only ever uses as counters are integers
  here (`ℕ` for counts read off the page, `ℤ` for fields that are loaded from
  storage).  The percentages `completed / 16 * 100` and `completed / 4 * 100`
  are computed in `ℚ`: every intermediate value is a dyadic rational that a
  double represents exactly (`actualProgress_exact` proves it for the first
  expression).  The quotients of `updatePredictions` and `getDaysSinceStart`
  are not exact in doubles and are rounded with `toDouble`.
* `document.querySelectorAll('.week-checkbox:checked').length` is the
  argument `completed` of the functions on `appState`; the functions on a
  page read it off the week checkboxes of the page.
* `new Date().toDateString()` is the number of the current calendar day
  (local time); `toDateString` is injective on calendar days and
  `new Date(s).toDateString()` gives back `s` for such a string, so a day is
  an integer and "yesterday" is `today - 1`.  A timestamp (`toISOString`) is
  its number of milliseconds.
* The functions of `progress.js` outside the class `ProgressTracker` read
  their state from `this`, and the script is not in strict mode.  A function
  that uses `this` only directly (`checkDailyStreak`, `getDaysSinceStart`,
  `calculateTotalPoints`, the total of `updateTotalPoints`) is given for a
  tracker as `this`.  A function that calls others (`updateAchievements`,
  `updateStatistics`, `updateAllDisplays`, `resetProgress`) takes its
  receiver explicitly and ends in a `Run`: a plain call `f()` inside it runs
  `f` with `window` as `this`, and a call `this.f()` throws a `TypeError`
  where the receiver has no function `f`.
* Rendering and sound are left out.  The functions on a tracker or on
  `appState` alone also leave out the storage writes, which do not feed back
  into the fields they change; the functions on a page carry `localStorage`.
  The achievement pop-ups are recorded in the ghost field `shown`.
-/

namespace Cronograma

/-- JavaScript `Math.round`: the integer closest to `x`, a tie going to the
larger one. -/
def Math_round (x : ℚ) : ℤ := ⌊x + 1 / 2⌋

/-- JavaScript `Math.floor`. -/
def Math_floor (x : ℚ) : ℤ := ⌊x⌋

/-- JavaScript `Math.ceil`. -/
def Math_ceil (x : ℚ) : ℤ := ⌈x⌉

/-- The integer nearest to `y`, a tie going to the even one. -/
def roundHalfEven (y : ℚ) : ℤ :=
  if y - ⌊y⌋ < 1 / 2 then ⌊y⌋
  else if 1 / 2 < y - ⌊y⌋ then ⌊y⌋ + 1
  else if ⌊y⌋ % 2 = 0 then ⌊y⌋
  else ⌊y⌋ + 1

/-- The double nearest to the exact value `x`: a 53 bit significand, round to
nearest, ties to even.  The exponent range is not limited; the quantities of
the program are far from overflow and underflow. -/
def toDouble (x : ℚ) : ℚ :=
  if x = 0 then 0
  else (roundHalfEven (x / 2 ^ (Int.log 2 |x| - 52)) : ℚ) * 2 ^ (Int.log 2 |x| - 52)

/-- JavaScript `a / b` on doubles, for `b ≠ 0`. -/
def Double.div (a b : ℚ) : ℚ := toDouble (a / b)

/-- JavaScript `a * b` on doubles. -/
def Double.mul (a b : ℚ) : ℚ := toDouble (a * b)

/-- The number that `x.toFixed(1)` writes, for `x ≥ 0`: `n / 10` for the
integer `n` with `n / 10` closest to `x`, the larger `n` on a tie. -/
def toFixed1 (x : ℚ) : ℚ := (⌊x * 10 + 1 / 2⌋ : ℚ) / 10

/-! ## JSON texts and values

A model of the built-in `JSON.parse` and `JSON.stringify` (ECMA-404 grammar).
A number is kept as an exact decimal `mantissa * 10 ^ exponent` (JavaScript
rounds it to a double; the one place where the program tests a number,
`JSON.truthy`, asks whether that double is 0), an object as its members in
insertion order, and a `\u` escape of a surrogate, which has no counterpart
in `String`, reads as `Char.ofNat` of its code. -/

/-- A JavaScript value that `JSON.parse` can return, and `array`, an array
after a property assignment: its `length` and its own enumerable properties,
the elements under their indices in ascending order first, then the named
properties in the order of their creation. -/
inductive JSON where
  | null
  | bool (b : Bool)
  | num (mantissa exponent : ℤ)
  | str (s : String)
  | arr (elems : List JSON)
  | obj (members : List (String × JSON))
  | array (length : ℕ) (members : List (String × JSON))
deriving Repr

mutual
/-- Decision procedure for the equality of two JSON values. -/
def JSON.decEq : (a b : JSON) → Decidable (a = b)
  | .null, .null => isTrue rfl
  | .bool a, .bool b =>
    if h : a = b then isTrue (by rw [h]) else isFalse (by intro h'; cases h'; exact h rfl)
  | .num a c, .num b d =>
    if h : a = b ∧ c = d then isTrue (by rw [h.1, h.2])
    else isFalse (by intro h'; cases h'; exact h ⟨rfl, rfl⟩)
  | .str a, .str b =>
    if h : a = b then isTrue (by rw [h]) else isFalse (by intro h'; cases h'; exact h rfl)
  | .arr a, .arr b =>
    match JSON.decEqList a b with
    | isTrue h => isTrue (by rw [h])
    | isFalse h => isFalse (by intro h'; cases h'; exact h rfl)
  | .obj a, .obj b =>
    match JSON.decEqMembers a b with
    | isTrue h => isTrue (by rw [h])
    | isFalse h => isFalse (by intro h'; cases h'; exact h rfl)
  | .array n a, .array m b =>
    if hn : n = m then
      match JSON.decEqMembers a b with
      | isTrue h => isTrue (by rw [hn, h])
      | isFalse h => isFalse (by intro h'; cases h'; exact h rfl)
    else isFalse (by intro h'; cases h'; exact hn rfl)
  | .null, .bool _ | .null, .num _ _ | .null, .str _ | .null, .arr _ | .null, .obj _
  | .bool _, .null | .bool _, .num _ _ | .bool _, .str _ | .bool _, .arr _ | .bool _, .obj _
  | .num _ _, .null | .num _ _, .bool _ | .num _ _, .str _ | .num _ _, .arr _
  | .num _ _, .obj _
  | .str _, .null | .str _, .bool _ | .str _, .num _ _ | .str _, .arr _ | .str _, .obj _
  | .arr _, .null | .arr _, .bool _ | .arr _, .num _ _ | .arr _, .str _ | .arr _, .obj _
  | .obj _, .null | .obj _, .bool _ | .obj _, .num _ _ | .obj _, .str _ | .obj _, .arr _
  | .array _ _, .null | .array _ _, .bool _ | .array _ _, .num _ _ | .array _ _, .str _
  | .array _ _, .arr _ | .array _ _, .obj _
  | .null, .array _ _ | .bool _, .array _ _ | .num _ _, .array _ _ | .str _, .array _ _
  | .arr _, .array _ _ | .obj _, .array _ _ =>
    isFalse (by intro h; cases h)
/-- Decision procedure for the equality of two lists of JSON values. -/
def JSON.decEqList : (a b : List JSON) → Decidable (a = b)
  | [], [] => isTrue rfl
  | [], _ :: _ | _ :: _, [] => isFalse (by intro h; cases h)
  | x :: xs, y :: ys =>
    match JSON.decEq x y, JSON.decEqList xs ys with
    | isTrue h₁, isTrue h₂ => isTrue (by rw [h₁, h₂])
    | isFalse h, _ => isFalse (by intro h'; cases h'; exact h rfl)
    | _, isFalse h => isFalse (by intro h'; cases h'; exact h rfl)
/-- Decision procedure for the equality of two member lists. -/
def JSON.decEqMembers : (a b : List (String × JSON)) → Decidable (a = b)
  | [], [] => isTrue rfl
  | [], _ :: _ | _ :: _, [] => isFalse (by intro h; cases h)
  | (k, x) :: xs, (l, y) :: ys =>
    if hk : k = l then
      match JSON.decEq x y, JSON.decEqMembers xs ys with
      | isTrue h₁, isTrue h₂ => isTrue (by rw [hk, h₁, h₂])
      | isFalse h, _ => isFalse (by intro h'; cases h'; exact h rfl)
      | _, isFalse h => isFalse (by intro h'; cases h'; exact h rfl)
    else isFalse (by intro h'; cases h'; exact hk rfl)
end

instance : DecidableEq JSON := JSON.decEq

namespace JSON

/-- JSON white space: space, tab, line feed, carriage return. -/
def isWs (c : Char) : Bool :=
  c = ' ' || c = '\t' || c = '\n' || c = '\r'

/-- Drop leading white space. -/
def skipWs : List Char → List Char
  | [] => []
  | c :: cs => if isWs c then skipWs cs else c :: cs

/-- The value of a hexadecimal digit. -/
def hexVal (c : Char) : Option ℕ :=
  if '0' ≤ c ∧ c ≤ '9' then some (c.toNat - '0'.toNat)
  else if 'a' ≤ c ∧ c ≤ 'f' then some (c.toNat - 'a'.toNat + 10)
  else if 'A' ≤ c ∧ c ≤ 'F' then some (c.toNat - 'A'.toNat + 10)
  else none

/-- The code written by the four hexadecimal digits of a `\u` escape. -/
def hex4 (a b c d : Char) : Option ℕ :=
  match hexVal a, hexVal b, hexVal c, hexVal d with
  | some x, some y, some z, some w => some (((x * 16 + y) * 16 + z) * 16 + w)
  | _, _, _, _ => none

/-- The character of a one-letter escape `\x`. -/
def simpleEscape (c : Char) : Option Char :=
  if c = '"' then some '"'
  else if c = '\\' then some '\\'
  else if c = '/' then some '/'
  else if c = 'b' then some (Char.ofNat 8)
  else if c = 'f' then some (Char.ofNat 12)
  else if c = 'n' then some '\n'
  else if c = 'r' then some '\r'
  else if c = 't' then some '\t'
  else none

/-- The characters of a string token after its opening quote, up to the
closing quote, and the text after it. -/
def parseStringBody : List Char → Option (List Char × List Char)
  | [] => none
  | c :: rest =>
    if c = '"' then some ([], rest)
    else if c = '\\' then
      match rest with
      | [] => none
      | e :: rest₁ =>
        if e = 'u' then
          match rest₁ with
          | h₁ :: h₂ :: h₃ :: h₄ :: rest₂ =>
            match hex4 h₁ h₂ h₃ h₄ with
            | some n =>
              match parseStringBody rest₂ with
              | some (cs, r) => some (Char.ofNat n :: cs, r)
              | none => none
            | none => none
          | _ => none
        else
          match simpleEscape e with
          | some x =>
            match parseStringBody rest₁ with
            | some (cs, r) => some (x :: cs, r)
            | none => none
          | none => none
    else if c.toNat < 32 then none
    else
      match parseStringBody rest with
      | some (cs, r) => some (c :: cs, r)
      | none => none

/-- The number written by a list of decimal digits. -/
def digitsVal (ds : List Char) : ℕ :=
  ds.foldl (fun n d => n * 10 + (d.toNat - '0'.toNat)) 0

/-- The integer part of a number token: `0`, or a digit from 1 to 9 followed
by digits. -/
def parseInt : List Char → Option (List Char × List Char)
  | [] => none
  | c :: rest =>
    if c = '0' then some (['0'], rest)
    else if '1' ≤ c ∧ c ≤ '9' then
      some (c :: (rest.span Char.isDigit).1, (rest.span Char.isDigit).2)
    else none

/-- The optional fraction of a number token: a point and at least one digit. -/
def parseFrac : List Char → Option (List Char × List Char)
  | '.' :: rest =>
    if (rest.span Char.isDigit).1 = [] then none
    else some ((rest.span Char.isDigit).1, (rest.span Char.isDigit).2)
  | cs => some ([], cs)

/-- The digits of an exponent, after its sign: at least one digit. -/
def parseExpDigits (negative : Bool) (cs : List Char) : Option (ℤ × List Char) :=
  if (cs.span Char.isDigit).1 = [] then none
  else
    some (if negative then -(digitsVal (cs.span Char.isDigit).1 : ℤ)
        else (digitsVal (cs.span Char.isDigit).1 : ℤ),
      (cs.span Char.isDigit).2)

/-- The optional exponent of a number token. -/
def parseExp : List Char → Option (ℤ × List Char)
  | [] => some (0, [])
  | c :: rest =>
    if c = 'e' ∨ c = 'E' then
      match rest with
      | '+' :: rest₁ => parseExpDigits false rest₁
      | '-' :: rest₁ => parseExpDigits true rest₁
      | _ => parseExpDigits false rest
    else some (0, c :: rest)

/-- A number token without its sign. -/
def parseUnsigned (cs : List Char) : Option ((ℤ × ℤ) × List Char) :=
  match parseInt cs with
  | none => none
  | some (intDigits, rest) =>
    match parseFrac rest with
    | none => none
    | some (fracDigits, rest₁) =>
      match parseExp rest₁ with
      | none => none
      | some (e, rest₂) =>
        some (((digitsVal (intDigits ++ fracDigits) : ℤ), e - fracDigits.length), rest₂)

/-- A number token. -/
def parseNumber : List Char → Option (JSON × List Char)
  | '-' :: rest =>
    match parseUnsigned rest with
    | some ((m, e), r) => some (num (-m) e, r)
    | none => none
  | cs =>
    match parseUnsigned cs with
    | some ((m, e), r) => some (num m e, r)
    | none => none

/-- The elements of an array after the first white space, read with the
value reader `value`, up to the closing bracket. -/
def parseElements (value : List Char → Option (JSON × List Char)) :
    ℕ → List Char → Option (List JSON × List Char)
  | 0, _ => none
  | fuel + 1, cs =>
    match value cs with
    | none => none
    | some (v, rest) =>
      match skipWs rest with
      | ',' :: rest₁ =>
        match parseElements value fuel rest₁ with
        | some (vs, r) => some (v :: vs, r)
        | none => none
      | ']' :: rest₁ => some ([v], rest₁)
      | _ => none

/-- The members of an object, read with the value reader `value`, up to the
closing brace. -/
def parseMembers (value : List Char → Option (JSON × List Char)) :
    ℕ → List Char → Option (List (String × JSON) × List Char)
  | 0, _ => none
  | fuel + 1, cs =>
    match skipWs cs with
    | '"' :: rest =>
      match parseStringBody rest with
      | none => none
      | some (key, rest₁) =>
        match skipWs rest₁ with
        | ':' :: rest₂ =>
          match value rest₂ with
          | none => none
          | some (v, rest₃) =>
            match skipWs rest₃ with
            | ',' :: rest₄ =>
              match parseMembers value fuel rest₄ with
              | some (ms, r) => some ((String.mk key, v) :: ms, r)
              | none => none
            | '}' :: rest₄ => some ([(String.mk key, v)], rest₄)
            | _ => none
        | _ => none
    | _ => none

/-- Define property `key` of an object: replace the value of an existing
member, add a member at the end otherwise. -/
def setMember (members : List (String × JSON)) (key : String) (v : JSON) :
    List (String × JSON) :=
  if members.any (fun m => m.1 = key) then
    members.map fun m => if m.1 = key then (key, v) else m
  else members ++ [(key, v)]

/-- The object built from the members of an object text, a later member
replacing an earlier one with the same key. -/
def mkObject (members : List (String × JSON)) : JSON :=
  obj (members.foldl (fun acc m => setMember acc m.1 m.2) [])

/-- A JSON value with white space before it, and the text after the value. -/
def parseValue : ℕ → List Char → Option (JSON × List Char)
  | 0, _ => none
  | fuel + 1, cs =>
    match skipWs cs with
    | 'n' :: 'u' :: 'l' :: 'l' :: rest => some (null, rest)
    | 't' :: 'r' :: 'u' :: 'e' :: rest => some (bool true, rest)
    | 'f' :: 'a' :: 'l' :: 's' :: 'e' :: rest => some (bool false, rest)
    | '"' :: rest =>
      match parseStringBody rest with
      | some (s, r) => some (str (String.mk s), r)
      | none => none
    | '[' :: rest =>
      match skipWs rest with
      | ']' :: rest₁ => some (arr [], rest₁)
      | rest₁ =>
        match parseElements (parseValue fuel) fuel rest₁ with
        | some (vs, r) => some (arr vs, r)
        | none => none
    | '{' :: rest =>
      match skipWs rest with
      | '}' :: rest₁ => some (obj [], rest₁)
      | rest₁ =>
        match parseMembers (parseValue fuel) fuel rest₁ with
        | some (ms, r) => some (mkObject ms, r)
        | none => none
    | rest => parseNumber rest

/-- Function `JSON.parse(text)`: the value, or `none` where JavaScript throws
a `SyntaxError`.  The fuel bounds the nesting and the number of members of
a list; every level and every member takes a character, so the length of the
text is enough. -/
def parse (text : String) : Option JSON :=
  match parseValue (text.toList.length + 1) text.toList with
  | some (v, rest) => if skipWs rest = [] then some v else none
  | none => none

/-- The digit of a value below 16, in lower case. -/
def hexDigit (n : ℕ) : Char :=
  if n < 10 then Char.ofNat ('0'.toNat + n) else Char.ofNat ('a'.toNat + (n - 10))

/-- The text `JSON.stringify` writes for a character of a string. -/
def escapeChar (c : Char) : List Char :=
  if c = '"' then ['\\', '"']
  else if c = '\\' then ['\\', '\\']
  else if c = Char.ofNat 8 then ['\\', 'b']
  else if c = Char.ofNat 12 then ['\\', 'f']
  else if c = '\n' then ['\\', 'n']
  else if c = '\r' then ['\\', 'r']
  else if c = '\t' then ['\\', 't']
  else if c.toNat < 32 then
    ['\\', 'u', '0', '0', hexDigit (c.toNat / 16), hexDigit (c.toNat % 16)]
  else [c]

/-- The characters of a string, escaped. -/
def escape : List Char → List Char
  | [] => []
  | c :: cs => escapeChar c ++ escape cs

/-- The string token of a string. -/
def quote (s : String) : List Char :=
  '"' :: escape s.toList ++ ['"']

/-- The text of a number: the decimal numeral of an integer, mantissa and
exponent otherwise (JavaScript writes another numeral of the same value). -/
def numeral (m e : ℤ) : List Char :=
  if 0 ≤ e then (toString (m * 10 ^ e.toNat)).toList
  else (toString m).toList ++ 'e' :: (toString e).toList

/-- The index that a property key denotes in an array: the key is the decimal
numeral, without a leading zero, of a number below `2 ^ 32 - 1`. -/
def arrayIndex (key : String) : Option ℕ :=
  match key.toList with
  | [] => none
  | c :: cs =>
    if (c :: cs).all (fun d => decide ('0' ≤ d ∧ d ≤ '9')) ∧ (c ≠ '0' ∨ cs = []) ∧
        digitsVal (c :: cs) < 2 ^ 32 - 1 then
      some (digitsVal (c :: cs))
    else none

/-- The text of `count` holes of an array from index `next` on: `null` for
each, after a comma unless it is the element 0. -/
def nullElements (next count : ℕ) : List Char :=
  ((List.range count).map fun k =>
    (if 0 < next + k then [','] else []) ++ ['n', 'u', 'l', 'l']).flatten

mutual
/-- The characters of `JSON.stringify(value)`. -/
def stringifyChars : JSON → List Char
  | null => ['n', 'u', 'l', 'l']
  | bool true => ['t', 'r', 'u', 'e']
  | bool false => ['f', 'a', 'l', 's', 'e']
  | num m e => numeral m e
  | str s => quote s
  | arr xs => '[' :: stringifyElements xs ++ [']']
  | obj ms => '{' :: stringifyMembers ms ++ ['}']
  | array length ms => '[' :: stringifySparse 0 length ms ++ [']']
/-- The elements of an array, separated by commas. -/
def stringifyElements : List JSON → List Char
  | [] => []
  | [x] => stringifyChars x
  | x :: y :: xs => stringifyChars x ++ ',' :: stringifyElements (y :: xs)
/-- The members of an object, separated by commas. -/
def stringifyMembers : List (String × JSON) → List Char
  | [] => []
  | [(k, v)] => quote k ++ ':' :: stringifyChars v
  | (k, v) :: m :: ms =>
    quote k ++ ':' :: stringifyChars v ++ ',' :: stringifyMembers (m :: ms)
/-- The elements from index `next` on of an array of the given length with
the given own properties, separated by commas: the value under an index,
`null` for a hole; the named properties are not written. -/
def stringifySparse : ℕ → ℕ → List (String × JSON) → List Char
  | next, length, [] => nullElements next (length - next)
  | next, length, (k, v) :: ms =>
    match arrayIndex k with
    | some i =>
      nullElements next (i - next) ++ (if 0 < i then [','] else []) ++ stringifyChars v ++
        stringifySparse (i + 1) length ms
    | none => stringifySparse next length ms
end

/-- Function `JSON.stringify(value)`. -/
def stringify (v : JSON) : String :=
  String.mk (stringifyChars v)

end JSON

/-- The object that holds a map from strings to booleans, such as a progress
map from week ids to completion flags. -/
def JSON.ofFlags (m : List (String × Bool)) : JSON :=
  JSON.obj (m.map fun kv => (kv.1, JSON.bool kv.2))

/-- The exceptions of JavaScript that end a run of the program. -/
inductive Abort where
  | SyntaxError
  | TypeError
deriving DecidableEq, Repr

/-- The week checkboxes of the page (`.week-checkbox`), in document order:
id and `checked`.  Ids of other elements are not tracked. -/
abbrev Checkboxes := List (String × Bool)

/-- The value of `document.querySelectorAll('.week-checkbox:checked').length`. -/
def completedCount (checkboxes : Checkboxes) : ℕ :=
  (checkboxes.filter fun cb => cb.2).length

/-- The `checked` of `document.getElementById(id)`, `none` without such an
element; no element is found for the empty id, which is the `id` of an
element without one. -/
def getElementById (checkboxes : Checkboxes) (id : String) : Option Bool :=
  if id = "" then none
  else
    match checkboxes.find? (fun cb => cb.1 = id) with
    | some cb => some cb.2
    | none => none

/-- Assign `checked` of `document.getElementById(id)`, when there is such an
element. -/
def setChecked : Checkboxes → String → Bool → Checkboxes
  | [], _, _ => []
  | cb :: rest, id, value =>
    if cb.1 = id then (cb.1, value) :: rest else cb :: setChecked rest id value

/-- Function `Object.keys(value)`, `none` where it throws. -/
def JSON.keys : JSON → Option (List String)
  | JSON.null => none
  | JSON.obj members => some (members.map fun m => m.1)
  | JSON.arr elems => some ((List.range elems.length).map fun i => toString i)
  | JSON.array _ members => some (members.map fun m => m.1)
  | JSON.str s => some ((List.range s.length).map fun i => toString i)
  | _ => some []

/-- Function `Object.values(value)`, `none` where it throws. -/
def JSON.values : JSON → Option (List JSON)
  | JSON.null => none
  | JSON.obj members => some (members.map fun m => m.2)
  | JSON.arr elems => some elems
  | JSON.array _ members => some (members.map fun m => m.2)
  | JSON.str s => some (s.toList.map fun c => JSON.str (String.mk [c]))
  | _ => some []

/-- The value of `value[key]`, `none` for `undefined`, for a key that is an
own property or that no prototype defines, as are the keys the program
reads: `progress` and the keys that `Object.keys` lists. -/
def JSON.get : JSON → String → Option JSON
  | JSON.obj members, key =>
    match members.find? (fun m => m.1 = key) with
    | some m => some m.2
    | none => none
  | JSON.array _ members, key =>
    match members.find? (fun m => m.1 = key) with
    | some m => some m.2
    | none => none
  | JSON.arr elems, key =>
    match key.toNat? with
    | some i => if toString i = key then elems.get? i else none
    | none => none
  | JSON.str s, key =>
    match key.toNat? with
    | some i =>
      if toString i = key then
        match s.toList.get? i with
        | some c => some (JSON.str (String.mk [c]))
        | none => none
      else none
    | none => none
  | _, _ => none

/-- The boolean a value is converted to, as in `checkbox.checked = value`.
A number is falsy when its double is 0: the decimal `m * 10 ^ e` that
`JSON.parse` read is rounded to the nearest double, which is 0 for `m = 0`
and for a magnitude of at most `2 ^ (-1075)`, half the smallest double above
0. -/
def JSON.truthy : Option JSON → Bool
  | none => false
  | some JSON.null => false
  | some (JSON.bool b) => b
  | some (JSON.num m e) =>
    decide (m ≠ 0) && (decide (0 ≤ e) || decide (10 ^ e.natAbs < m.natAbs * 2 ^ 1075))
  | some (JSON.str s) => decide (s ≠ "")
  | some _ => true

/-- The assignment `object[key] = v` on the members of an object or on the
own properties of an array: the property is defined as by `setMember`,
except that for the key `__proto__` without an own property of that name the
inherited setter runs, which ignores a value that is no object. -/
def JSON.assign (members : List (String × JSON)) (key : String) (v : JSON) :
    List (String × JSON) :=
  if key = "__proto__" ∧ ¬ members.any (fun m => m.1 = key) then members
  else JSON.setMember members key v

/-- The own properties of the array `JSON.parse` returned: the elements under
their indices. -/
def JSON.indexed (elems : List JSON) : List (String × JSON) :=
  elems.enum.map fun ie => (toString ie.1, ie.2)

/-- Define the element `i` of an array, `key` being the numeral of `i`:
replace the value under the index, or add the property at its place among
the indices, which come in ascending order before the names. -/
def JSON.insertIndex (i : ℕ) (key : String) (v : JSON) :
    List (String × JSON) → List (String × JSON)
  | [] => [(key, v)]
  | m :: rest =>
    match JSON.arrayIndex m.1 with
    | some j =>
      if j = i then (m.1, v) :: rest
      else if i < j then (key, v) :: m :: rest
      else m :: JSON.insertIndex i key v rest
    | none => (key, v) :: m :: rest

/-- The assignment `array[key] = checked` of a boolean on an array with the
given length and own properties.  The key `length` sets the length to
`Number(checked)`, 1 or 0, and deletes the elements from that index on; an
index defines that element and lifts the length above it; another key
defines a named property. -/
def JSON.assignArray (length : ℕ) (members : List (String × JSON)) (key : String)
    (checked : Bool) : JSON :=
  if key = "length" then
    let newLength := if checked then 1 else 0
    JSON.array newLength
      (members.filter fun m =>
        match JSON.arrayIndex m.1 with
        | some i => decide (i < newLength)
        | none => true)
  else
    match JSON.arrayIndex key with
    | some i =>
      JSON.array (max length (i + 1)) (JSON.insertIndex i key (JSON.bool checked) members)
    | none => JSON.array length (JSON.assign members key (JSON.bool checked))

/-- The assignment `value[key] = checked` of a boolean in a non-strict
script: a `TypeError` on `null`, a property defined on an object or an array,
nothing on a number, boolean or string. -/
def JSON.set : JSON → String → Bool → Except Abort JSON
  | JSON.null, _, _ => Except.error Abort.TypeError
  | JSON.obj members, key, checked =>
    Except.ok (JSON.obj (JSON.assign members key (JSON.bool checked)))
  | JSON.arr elems, key, checked =>
    Except.ok (JSON.assignArray elems.length (JSON.indexed elems) key checked)
  | JSON.array length members, key, checked =>
    Except.ok (JSON.assignArray length members key checked)
  | other, _, _ => Except.ok other

/-- The entries of `localStorage`: key and text. -/
structure Storage where
  items : List (String × String)
deriving DecidableEq, Repr

/-- Function `localStorage.getItem(key)`. -/
def Storage.getItem (storage : Storage) (key : String) : Option String :=
  match storage.items.find? (fun kv => kv.1 = key) with
  | some kv => some kv.2
  | none => none

/-- Function `localStorage.setItem(key, value)`, when it succeeds. -/
def Storage.setItem (storage : Storage) (key value : String) : Storage :=
  if storage.items.any (fun kv => kv.1 = key) then
    { items := storage.items.map fun kv => if kv.1 = key then (key, value) else kv }
  else { items := storage.items ++ [(key, value)] }

/-! ## `assets/js/progress.js` -/

namespace Progress

/-- Constant `PROGRESS_CONFIG.TOTAL_WEEKS`. -/
def PROGRESS_CONFIG.TOTAL_WEEKS : ℕ := 16

/-- Constant `PROGRESS_CONFIG.HOURS_PER_WEEK`. -/
def PROGRESS_CONFIG.HOURS_PER_WEEK : ℕ := 4

/-- Constant `PROGRESS_CONFIG.MILESTONES.BEGINNER`. -/
def PROGRESS_CONFIG.MILESTONES.BEGINNER : ℤ := 0

/-- Constant `PROGRESS_CONFIG.MILESTONES.INTERMEDIATE`. -/
def PROGRESS_CONFIG.MILESTONES.INTERMEDIATE : ℤ := 25

/-- Constant `PROGRESS_CONFIG.MILESTONES.ADVANCED`. -/
def PROGRESS_CONFIG.MILESTONES.ADVANCED : ℤ := 50

/-- Constant `PROGRESS_CONFIG.MILESTONES.EXPERT`. -/
def PROGRESS_CONFIG.MILESTONES.EXPERT : ℤ := 75

/-- Constant `PROGRESS_CONFIG.MILESTONES.MASTER`. -/
def PROGRESS_CONFIG.MILESTONES.MASTER : ℤ := 100

/-- The `statistics` object of the tracker.  `lastActive` is a calendar day,
`startDate` a timestamp in milliseconds; `none` is `null`. -/
structure Statistics where
  totalTime : ℕ
  sessionsCompleted : ℕ
  currentStreak : ℤ
  longestStreak : ℤ
  lastActive : Option ℤ
  startDate : Option ℤ
deriving DecidableEq, Repr

/-- The fields of a `ProgressTracker` instance.  `progress` is whatever value
`JSON.parse` returned for the stored text, an object from week ids to
booleans when the tracker wrote it. -/
structure ProgressTracker where
  progress : JSON
  achievements : List String
  statistics : Statistics
deriving DecidableEq, Repr

/-- The tracker the constructor builds, before `init`. -/
def ProgressTracker.new : ProgressTracker :=
  { progress := JSON.obj []
    achievements := []
    statistics :=
      { totalTime := 0
        sessionsCompleted := 0
        currentStreak := 0
        longestStreak := 0
        lastActive := none
        startDate := none } }

/-- Function `getProgressLevel(percentage).name`. -/
def getProgressLevel (percentage : ℤ) : String :=
  if percentage ≥ PROGRESS_CONFIG.MILESTONES.MASTER then "Maestro Cuántico"
  else if percentage ≥ PROGRESS_CONFIG.MILESTONES.EXPERT then "Experto"
  else if percentage ≥ PROGRESS_CONFIG.MILESTONES.ADVANCED then "Avanzado"
  else if percentage ≥ PROGRESS_CONFIG.MILESTONES.INTERMEDIATE then "Intermedio"
  else "Principiante"

/-- Function `getPlayerLevel(points)`. -/
def getPlayerLevel (points : ℕ) : String :=
  if points ≥ 500 then "Nivel Diamante"
  else if points ≥ 300 then "Nivel Platino"
  else if points ≥ 200 then "Nivel Oro"
  else if points ≥ 100 then "Nivel Plata"
  else if points ≥ 50 then "Nivel Bronce"
  else "Nivel Inicial"

/-- The local `percentage` of `updateStatistics`:
`Math.round((completed / total) * 100)`. -/
def updateStatistics.percentage (completed : ℕ) : ℤ :=
  Math_round (((completed : ℚ) / (PROGRESS_CONFIG.TOTAL_WEEKS : ℚ)) * 100)

/-- What `updateStatistics` writes to the page (the completion estimate, a
formatted date, is left out). -/
structure StatisticsDisplay where
  totalProgress : ℤ
  weeksCompleted : ℕ × ℕ
  hoursStudied : ℕ
  currentStreak : ℤ
  progressLevel : String
deriving DecidableEq, Repr

/-- The values `updateStatistics` shows: `totalProgress` (followed by `%`),
`weeksCompleted` (`completed/total`), `hoursStudied` (followed by `h`),
`currentStreak` and the name of the progress level. -/
def updateStatistics.display (completed : ℕ) (t : ProgressTracker) : StatisticsDisplay :=
  let total := PROGRESS_CONFIG.TOTAL_WEEKS
  let percentage := updateStatistics.percentage completed
  { totalProgress := percentage
    weeksCompleted := (completed, total)
    hoursStudied := completed * PROGRESS_CONFIG.HOURS_PER_WEEK
    currentStreak := t.statistics.currentStreak
    progressLevel := getProgressLevel percentage }

/-- The two assignments of `updateStatistics` under "Save statistics". -/
def updateStatistics.saved (completed : ℕ) (statistics : Statistics) : Statistics :=
  { statistics with
    sessionsCompleted := completed
    totalTime := completed * PROGRESS_CONFIG.HOURS_PER_WEEK }

/-- The local `percentage` of `generateProgressReport`:
`Math.round((completed / PROGRESS_CONFIG.TOTAL_WEEKS) * 100)`. -/
def generateProgressReport.percentage (completed : ℕ) : ℤ :=
  Math_round (((completed : ℚ) / (PROGRESS_CONFIG.TOTAL_WEEKS : ℚ)) * 100)

/-- An entry of `ACHIEVEMENTS`; `type` is `none` where the entry has no
`type` property. -/
structure Achievement where
  id : String
  name : String
  description : String
  threshold : ℕ
  points : ℕ
  type : Option String
deriving DecidableEq, Repr

/-- The catalog `ACHIEVEMENTS`, in declaration order. -/
def ACHIEVEMENTS : List Achievement :=
  [ { id := "first_step", name := "🎯 Primer Paso",
      description := "Completa tu primera semana",
      threshold := 1, points := 10, type := none },
    { id := "month_1", name := "⚡ Fundamentos Sólidos",
      description := "Completa el Mes 1",
      threshold := 4, points := 25, type := none },
    { id := "halfway", name := "🌟 Medio Camino",
      description := "Completa 50% del programa",
      threshold := 8, points := 50, type := none },
    { id := "month_3", name := "🔥 Optimizador Experto",
      description := "Completa el Mes 3",
      threshold := 12, points := 75, type := none },
    { id := "almost_there", name := "🏁 Casi en la Meta",
      description := "Completa 90% del programa",
      threshold := 15, points := 90, type := none },
    { id := "complete", name := "🏆 Maestro Cuántico",
      description := "Completa todo el programa",
      threshold := 16, points := 100, type := none },
    { id := "streak_7", name := "🔥 Racha Semanal",
      description := "Mantén una racha de 7 días",
      threshold := 7, points := 20, type := some "streak" },
    { id := "streak_30", name := "⚡ Racha Mensual",
      description := "Mantén una racha de 30 días",
      threshold := 30, points := 50, type := some "streak" },
    { id := "perfectionist", name := "✨ Perfeccionista",
      description := "Completa un mes sin saltarte ningún día",
      threshold := 4, points := 30, type := some "special" } ]

/-- The reducer shared, letter for letter, by `updateTotalPoints` and
`calculateTotalPoints`: `total + (achievement ? achievement.points : 0)` with
`achievement = ACHIEVEMENTS.find(a => a.id === achievementId)`. -/
def pointsReducer (total : ℕ) (achievementId : String) : ℕ :=
  match ACHIEVEMENTS.find? (fun a => a.id = achievementId) with
  | some achievement => total + achievement.points
  | none => total + 0

/-- The points the specification counts for an unlocked id: those of the
catalog entries that carry the id, nothing for an id the catalog lacks. -/
def pointsOf (id : String) : ℕ :=
  ((ACHIEVEMENTS.filter fun a => a.id = id).map fun a => a.points).sum

/-- The local `totalPoints` of `updateTotalPoints`. -/
def updateTotalPoints.totalPoints (t : ProgressTracker) : ℕ :=
  t.achievements.foldl pointsReducer 0

/-- What `updateTotalPoints` shows: `totalPoints` and `playerLevel`. -/
def updateTotalPoints (t : ProgressTracker) : ℕ × String :=
  let totalPoints := updateTotalPoints.totalPoints t
  (totalPoints, getPlayerLevel totalPoints)

/-- Function `calculateTotalPoints()`. -/
def calculateTotalPoints (t : ProgressTracker) : ℕ :=
  t.achievements.foldl pointsReducer 0

/-- Function `checkDailyStreak`, run on calendar day `today`. -/
def checkDailyStreak (today : ℤ) (t : ProgressTracker) : ProgressTracker :=
  let lastActive := t.statistics.lastActive
  let s₁ : Statistics :=
    match lastActive with
    | some lastDate =>
      let yesterdayString := today - 1
      if lastDate = yesterdayString then
        { t.statistics with currentStreak := t.statistics.currentStreak + 1 }
      else if lastDate ≠ today then
        { t.statistics with currentStreak := 0 }
      else t.statistics
    | none => { t.statistics with currentStreak := 1 }
  let s₂ : Statistics :=
    if s₁.currentStreak > s₁.longestStreak then
      { s₁ with longestStreak := s₁.currentStreak }
    else s₁
  { t with statistics := { s₂ with lastActive := some today } }

/-- Function `calculateMonthProgress`: for each of the four months the count of
its weeks whose element `week<n>` is checked, as `(completed / 4) * 100`
(exact in doubles). -/
def calculateMonthProgress (checkboxes : Checkboxes) : List ℚ :=
  (List.range' 1 4).map fun month =>
    let startWeek := (month - 1) * 4 + 1
    let endWeek := month * 4
    let completed := ((List.range' startWeek (endWeek + 1 - startWeek)).filter fun week =>
      getElementById checkboxes ("week" ++ toString week) = some true).length
    ((completed : ℚ) / 4) * 100

/-- The three entries of `localStorage` the tracker uses, under the keys
`quantumProgressData`, `quantumAchievements` and `quantumStatistics`.  The
progress entry is the stored text.  The other two entries are kept as the
values their texts denote: what `saveData` wrote is what `JSON.parse` gives
back, and no claim concerns other texts under these two keys. -/
structure TrackerStorage where
  quantumProgressData : Option String
  quantumAchievements : Option (List String)
  quantumStatistics : Option Statistics
deriving DecidableEq, Repr

/-- The progress page: the tracker, the week checkboxes and the storage. -/
structure Page where
  tracker : ProgressTracker
  checkboxes : Checkboxes
  localStorage : TrackerStorage
deriving DecidableEq, Repr

/-- Function `saveStatistics` (`setItem` taken to succeed). -/
def saveStatistics (p : Page) : Page :=
  { p with localStorage := { p.localStorage with quantumStatistics := some p.tracker.statistics } }

/-- Function `saveData` (`setItem` taken to succeed). -/
def saveData (p : Page) : Page :=
  saveStatistics
    { p with
      localStorage :=
        { p.localStorage with
          quantumProgressData := some (JSON.stringify p.tracker.progress)
          quantumAchievements := some p.tracker.achievements } }

/-- The first step of `loadData`: `if (savedProgress) this.progress =
JSON.parse(savedProgress)`, outside any `try`. -/
def loadData.progress (p : Page) : Except Abort JSON :=
  match p.localStorage.quantumProgressData with
  | some savedProgress =>
    if savedProgress ≠ "" then
      match JSON.parse savedProgress with
      | some value => Except.ok value
      | none => Except.error Abort.SyntaxError
    else Except.ok p.tracker.progress
  | none => Except.ok p.tracker.progress

/-- Function `loadData`, run at time `now`. -/
def loadData (now : ℤ) (p : Page) : Except Abort Page :=
  match loadData.progress p with
  | Except.error e => Except.error e
  | Except.ok progress =>
    let achievements :=
      match p.localStorage.quantumAchievements with
      | some savedAchievements => savedAchievements
      | none => p.tracker.achievements
    let statistics :=
      match p.localStorage.quantumStatistics with
      | some savedStats => savedStats
      | none => p.tracker.statistics
    let p₁ : Page :=
      { p with
        tracker :=
          { p.tracker with
            progress := progress
            achievements := achievements
            statistics := statistics } }
    if p₁.tracker.statistics.startDate = none then
      Except.ok (saveStatistics
        { p₁ with
          tracker :=
            { p₁.tracker with
              statistics := { p₁.tracker.statistics with startDate := some now } } })
    else Except.ok p₁

/-- The object a function of `progress.js` finds as `this`: a
`ProgressTracker` instance, as the methods of the class do; `window`, as a
function called as a plain function `f()` does; or the object
`window.ProgressAPI`, as `resetProgress` called as
`window.ProgressAPI.resetProgress()` does. -/
inductive Receiver where
  | tracker
  | window
  | api
deriving DecidableEq, Repr

/-- The properties `progress`, `achievements` and `statistics` of `window` or
of `ProgressAPI`; `none` is `undefined`, which they are until `resetProgress`
assigns them on that object. -/
structure Properties where
  progress : Option JSON
  achievements : Option (List String)
  statistics : Option Statistics
deriving DecidableEq, Repr

/-- What the functions of `progress.js` work on: the page with a tracker, the
properties of `window` and of `ProgressAPI`, whether the page has the element
`achievementsContainer`, the ids passed to `showAchievementNotification`
(oldest first) and the calls of `showNotification(message, type)`. -/
structure World where
  page : Page
  window : Properties
  api : Properties
  achievementsContainer : Bool
  shown : List String
  notifications : List (String × String)
deriving DecidableEq, Repr

/-- How a call ends: the state it leaves, and the exception when it throws. -/
structure Run where
  world : World
  thrown : Option Abort
deriving DecidableEq, Repr

/-- A call that returns. -/
def Run.returned (w : World) : Run :=
  { world := w, thrown := none }

/-- A call that throws a `TypeError`. -/
def Run.typeError (w : World) : Run :=
  { world := w, thrown := some Abort.TypeError }

/-- The statements after a call: they run when the call returned. -/
def Run.andThen (r : Run) (next : World → Run) : Run :=
  match r.thrown with
  | none => next r.world
  | some _ => r

/-- Expression `this.achievements`. -/
def World.achievements (w : World) : Receiver → Option (List String)
  | Receiver.tracker => some w.page.tracker.achievements
  | Receiver.window => w.window.achievements
  | Receiver.api => w.api.achievements

/-- Expression `this.statistics`. -/
def World.statistics (w : World) : Receiver → Option Statistics
  | Receiver.tracker => some w.page.tracker.statistics
  | Receiver.window => w.window.statistics
  | Receiver.api => w.api.statistics

/-- Expression `this.progress`. -/
def World.progress (w : World) : Receiver → Option JSON
  | Receiver.tracker => some w.page.tracker.progress
  | Receiver.window => w.window.progress
  | Receiver.api => w.api.progress

/-- Assignment `this.achievements = value`. -/
def World.setAchievements (w : World) (this : Receiver) (value : List String) : World :=
  match this with
  | Receiver.tracker =>
    { w with page := { w.page with tracker := { w.page.tracker with achievements := value } } }
  | Receiver.window => { w with window := { w.window with achievements := some value } }
  | Receiver.api => { w with api := { w.api with achievements := some value } }

/-- Assignment `this.statistics = value`. -/
def World.setStatistics (w : World) (this : Receiver) (value : Statistics) : World :=
  match this with
  | Receiver.tracker =>
    { w with page := { w.page with tracker := { w.page.tracker with statistics := value } } }
  | Receiver.window => { w with window := { w.window with statistics := some value } }
  | Receiver.api => { w with api := { w.api with statistics := some value } }

/-- Assignment `this.progress = value`. -/
def World.setProgress (w : World) (this : Receiver) (value : JSON) : World :=
  match this with
  | Receiver.tracker =>
    { w with page := { w.page with tracker := { w.page.tracker with progress := value } } }
  | Receiver.window => { w with window := { w.window with progress := some value } }
  | Receiver.api => { w with api := { w.api with progress := some value } }

/-- The call `this.saveData()`: the method of the class on a tracker, and a
`TypeError` on `window` and on `ProgressAPI`, where `saveData` is no
property. -/
def callSaveData (this : Receiver) (w : World) : Run :=
  match this with
  | Receiver.tracker => Run.returned { w with page := saveData w.page }
  | _ => Run.typeError w

/-- The call `this.saveStatistics()`: the method of the class on a tracker,
and a `TypeError` on `window` and on `ProgressAPI`. -/
def callSaveStatistics (this : Receiver) (w : World) : Run :=
  match this with
  | Receiver.tracker => Run.returned { w with page := saveStatistics w.page }
  | _ => Run.typeError w

/-- The loop `list.forEach(body)`: the calls in order, up to the first that
throws. -/
def forEach {α : Type} (body : α → World → Run) : List α → World → Run
  | [], w => Run.returned w
  | a :: rest, w => (body a w).andThen (forEach body rest)

/-- Function `unlockAchievement(achievement)`: reading `this.achievements.includes`
throws where `this.achievements` is undefined; an id the list lacks is pushed,
its pop-up shown, and `this.saveData()` called. -/
def unlockAchievement (achievement : Achievement) (this : Receiver) (w : World) : Run :=
  match w.achievements this with
  | none => Run.typeError w
  | some unlocked =>
    if ¬ achievement.id ∈ unlocked then
      callSaveData this
        { w.setAchievements this (unlocked ++ [achievement.id]) with
          shown := w.shown ++ [achievement.id] }
    else Run.returned w

/-- The callback of `ACHIEVEMENTS.forEach` in `updateAchievements`, an arrow
function: its `this` is the receiver of `updateAchievements`, and its calls
`unlockAchievement(achievement)` are plain calls, with `window` as `this`. -/
def updateAchievements.body (this : Receiver) (completed : ℕ) (achievement : Achievement)
    (w : World) : Run :=
  if achievement.type = some "streak" then
    match w.statistics this with
    | none => Run.typeError w
    | some statistics =>
      if statistics.currentStreak ≥ (achievement.threshold : ℤ) then
        unlockAchievement achievement Receiver.window w
      else Run.returned w
  else if completed ≥ achievement.threshold then
    unlockAchievement achievement Receiver.window w
  else Run.returned w

/-- Function `updateAchievementDisplay`: nothing without the container; else the
loop over the catalog reads `this.achievements.includes` and then renders. -/
def updateAchievementDisplay (this : Receiver) (w : World) : Run :=
  if ¬ w.achievementsContainer then Run.returned w
  else
    match w.achievements this with
    | none => Run.typeError w
    | some _ => Run.returned w

/-- The call of `updateTotalPoints`: reading `this.achievements.reduce` throws
where `this.achievements` is undefined; else the total and the level are
shown. -/
def updateTotalPoints.run (this : Receiver) (w : World) : Run :=
  match w.achievements this with
  | none => Run.typeError w
  | some _ => Run.returned w

/-- Function `updateAchievements`: the loop over the catalog, then the plain
calls `updateAchievementDisplay()` and `updateTotalPoints()`. -/
def updateAchievements (this : Receiver) (w : World) : Run :=
  let completed := completedCount w.page.checkboxes
  (forEach (updateAchievements.body this completed) ACHIEVEMENTS w).andThen fun w₁ =>
  (updateAchievementDisplay Receiver.window w₁).andThen fun w₂ =>
  updateTotalPoints.run Receiver.window w₂

/-- Function `updateStatistics`: the values are shown up to `hoursStudied`, then
reading `this.statistics.currentStreak` throws where `this.statistics` is
undefined; else the two assignments and `this.saveStatistics()`. -/
def updateStatistics (this : Receiver) (w : World) : Run :=
  let completed := completedCount w.page.checkboxes
  match w.statistics this with
  | none => Run.typeError w
  | some statistics =>
    callSaveStatistics this (w.setStatistics this (updateStatistics.saved completed statistics))

/-- Function `updateCharts`: `this.charts` is the empty object the constructor
made on a tracker, whose `init` stops before a chart is created, so nothing
is drawn; on `window` and on `ProgressAPI` it is undefined and reading
`this.charts.monthProgress` throws. -/
def updateCharts (this : Receiver) (w : World) : Run :=
  match this with
  | Receiver.tracker => Run.returned w
  | _ => Run.typeError w

/-- Function `updatePredictions`: its plain call `getDaysSinceStart()` reads
`this.statistics.startDate` on `window`; the rest renders. -/
def updatePredictions (w : World) : Run :=
  match w.window.statistics with
  | none => Run.typeError w
  | some _ => Run.returned w

/-- Function `updateAllDisplays`: five plain calls, each with `window` as `this`
(`updateTimeline` only renders). -/
def updateAllDisplays (w : World) : Run :=
  (updateStatistics Receiver.window w).andThen fun w₁ =>
  (updateCharts Receiver.window w₁).andThen fun w₂ =>
  (updateAchievements Receiver.window w₂).andThen fun w₃ =>
  updatePredictions w₃

/-- The call `this.updateAllDisplays()`: the function is a property of `window`
only, so the call throws a `TypeError` on a tracker and on `ProgressAPI`. -/
def callUpdateAllDisplays (this : Receiver) (w : World) : Run :=
  match this with
  | Receiver.window => updateAllDisplays w
  | _ => Run.typeError w

/-- Function `resetProgress`, run at time `now`; `confirmed` is the answer to
the `confirm` dialog. -/
def resetProgress (this : Receiver) (confirmed : Bool) (now : ℤ) (w : World) : Run :=
  if ¬ confirmed then Run.returned w
  else
    let w₁ :=
      ((w.setProgress this (JSON.obj [])).setAchievements this []).setStatistics this
        { totalTime := 0
          sessionsCompleted := 0
          currentStreak := 0
          longestStreak := 0
          lastActive := none
          startDate := some now }
    let w₂ : World :=
      { w₁ with
        page := { w₁.page with checkboxes := w₁.page.checkboxes.map fun cb => (cb.1, false) } }
    (callSaveData this w₂).andThen fun w₃ =>
    (callUpdateAllDisplays this w₃).andThen fun w₄ =>
    Run.returned
      { w₄ with notifications := w₄.notifications ++ [("🔄 Progreso reiniciado", "info")] }

/-- Function `getDaysSinceStart`, run at time `now` (milliseconds). -/
def getDaysSinceStart (now : ℤ) (t : ProgressTracker) : ℤ :=
  match t.statistics.startDate with
  | none => 0
  | some start =>
    let diff : ℤ := now - start
    Math_floor (Double.div (diff : ℚ) ((1000 * 60 * 60 * 24 : ℤ) : ℚ))

/-- The local `averageWeeksPerDay` of `updatePredictions`. -/
def updatePredictions.averageWeeksPerDay (completed : ℕ) (daysSinceStart : ℤ) : ℚ :=
  if daysSinceStart > 0 then Double.div (completed : ℚ) (daysSinceStart : ℚ) else 0

/-- The local `daysToComplete` of `updatePredictions`. -/
def updatePredictions.daysToComplete (completed : ℕ) (daysSinceStart : ℤ) : ℚ :=
  let remaining : ℤ := (PROGRESS_CONFIG.TOTAL_WEEKS : ℤ) - (completed : ℤ)
  let averageWeeksPerDay := updatePredictions.averageWeeksPerDay completed daysSinceStart
  if averageWeeksPerDay > 0 then Double.div (remaining : ℚ) averageWeeksPerDay
  else ((remaining * 7 : ℤ) : ℚ)

/-- The number of days `updatePredictions` adds to the current date:
`Math.ceil(daysToComplete)`. -/
def updatePredictions.daysAdded (completed : ℕ) (daysSinceStart : ℤ) : ℤ :=
  Math_ceil (updatePredictions.daysToComplete completed daysSinceStart)

/-- The local `expectedProgress` of `updatePredictions`. -/
def updatePredictions.expectedProgress (daysSinceStart : ℤ) : ℚ :=
  Double.mul
    (Double.div (daysSinceStart : ℚ) (((PROGRESS_CONFIG.TOTAL_WEEKS : ℤ) * 7 : ℤ) : ℚ)) 100

/-- The local `actualProgress` of `updatePredictions`. -/
def updatePredictions.actualProgress (completed : ℕ) : ℚ :=
  Double.mul (Double.div (completed : ℚ) (PROGRESS_CONFIG.TOTAL_WEEKS : ℚ)) 100

/-- The double `actualProgress / expectedProgress * 100`, before `toFixed`. -/
def updatePredictions.efficiencyValue (completed : ℕ) (daysSinceStart : ℤ) : ℚ :=
  Double.mul
    (Double.div (updatePredictions.actualProgress completed)
      (updatePredictions.expectedProgress daysSinceStart)) 100

/-- The local `efficiency` of `updatePredictions`, as the number it shows:
`(actualProgress / expectedProgress * 100).toFixed(1)` when `expectedProgress
> 0`, else `0`. -/
def updatePredictions.efficiency (completed : ℕ) (daysSinceStart : ℤ) : ℚ :=
  if updatePredictions.expectedProgress daysSinceStart > 0 then
    toFixed1 (updatePredictions.efficiencyValue completed daysSinceStart)
  else 0

end Progress

/-! ## `assets/js/main.js` -/

namespace Main

/-- Constant `CONFIG.TOTAL_WEEKS`. -/
def CONFIG.TOTAL_WEEKS : ℕ := 16

/-- Constant `CONFIG.HOURS_PER_WEEK`. -/
def CONFIG.HOURS_PER_WEEK : ℕ := 4

/-- The global `appState`.  `achievements`, `streak` and `lastActivity` are
properties the initial object does not have (`none` is `undefined`); `shown`
is the ghost log of the ids passed to `showAchievementNotification`. -/
structure AppState where
  currentTab : String
  progress : JSON
  theme : String
  language : String
  lastUpdate : Option ℤ
  achievements : Option (List String)
  streak : Option ℤ
  lastActivity : Option ℤ
  shown : List String
deriving DecidableEq, Repr

/-- The initial value of `appState`. -/
def appState : AppState :=
  { currentTab := "mes1"
    progress := JSON.obj []
    theme := "dark"
    language := "es"
    lastUpdate := none
    achievements := none
    streak := none
    lastActivity := none
    shown := [] }

/-- The local `percentage` of `updateProgress`:
`Math.round((completed / CONFIG.TOTAL_WEEKS) * 100)`. -/
def updateProgress.percentage (completed : ℕ) : ℤ :=
  Math_round (((completed : ℚ) / (CONFIG.TOTAL_WEEKS : ℚ)) * 100)

/-- An entry of the local array `achievements` of `checkAchievements`. -/
structure Achievement where
  id : String
  threshold : ℕ
  name : String
  message : String
deriving DecidableEq, Repr

/-- The local array `achievements` of `checkAchievements`. -/
def checkAchievements.achievements : List Achievement :=
  [ { id := "first_week", threshold := 1, name := "🎯 Primera Semana",
      message := "¡Has completado tu primera semana!" },
    { id := "month_1", threshold := 4, name := "🎯 Primer Mes",
      message := "¡Mecánica Analítica dominada!" },
    { id := "month_2", threshold := 8, name := "🔬 Experto Cuántico",
      message := "¡Mecánica Cuántica desbloqueada!" },
    { id := "month_3", threshold := 12, name := "📊 Maestro Optimizador",
      message := "¡Optimización clásica completada!" },
    { id := "almost_done", threshold := 15, name := "🏁 Casi Listo",
      message := "¡Solo falta una semana!" },
    { id := "complete", threshold := 16, name := "🏆 Programa Completo",
      message := "¡Felicitaciones! Has completado todo el programa!" } ]

/-- The unlock list of `appState` as a list: the empty list while
`appState.achievements` is undefined. -/
def AppState.unlocked (s : AppState) : List String :=
  match s.achievements with
  | some unlocked => unlocked
  | none => []

/-- The ids one evaluation of `checkAchievements` has to add according to the
specification: the entries of its catalog, in catalog order, that are not in
`unlocked` and whose threshold is reached. -/
def newlyUnlocked (completedWeeks : ℕ) (unlocked : List String) : List String :=
  (checkAchievements.achievements.filter fun a =>
    decide (a.id ∉ unlocked) && decide (completedWeeks ≥ a.threshold)).map
    fun a => a.id

/-- Function `isAchievementUnlocked(achievementId)`:
`appState.achievements && appState.achievements.includes(achievementId)`. -/
def isAchievementUnlocked (achievementId : String) (s : AppState) : Bool :=
  match s.achievements with
  | some unlocked => decide (achievementId ∈ unlocked)
  | none => false

/-- Function `unlockAchievement(achievement)`: create the list when it is missing,
push the id, show the pop-up. -/
def unlockAchievement (achievement : Achievement) (s : AppState) : AppState :=
  let unlocked : List String :=
    match s.achievements with
    | some unlocked => unlocked
    | none => []
  { s with
    achievements := some (unlocked ++ [achievement.id])
    shown := s.shown ++ [achievement.id] }

/-- The callback of `achievements.forEach` in `checkAchievements`. -/
def checkAchievements.body (completedWeeks : ℕ) (s : AppState)
    (achievement : Achievement) : AppState :=
  if completedWeeks ≥ achievement.threshold ∧
      isAchievementUnlocked achievement.id s = false then
    unlockAchievement achievement s
  else s

/-- Function `checkAchievements(completedWeeks)`. -/
def checkAchievements (completedWeeks : ℕ) (s : AppState) : AppState :=
  checkAchievements.achievements.foldl (checkAchievements.body completedWeeks) s

/-- Constant `CONFIG.STORAGE_KEY`. -/
def CONFIG.STORAGE_KEY : String := "quantumProgress"

/-- The page of `main.js`: `appState`, the week checkboxes, `localStorage` and
the log of `showNotification(message, type)` calls, oldest first. -/
structure Page where
  appState : AppState
  checkboxes : Checkboxes
  localStorage : Storage
  notifications : List (String × String)
deriving DecidableEq, Repr

/-- What a run reads from the browser: the time (`new Date()`, milliseconds),
its calendar day, and whether `localStorage.setItem` throws (quota
exceeded). -/
structure Env where
  now : ℤ
  today : ℤ
  quotaExceeded : Bool
deriving DecidableEq, Repr

/-- Function `saveProgress`: the `try` block when `setItem` succeeds, the
`catch` block when it throws. -/
def saveProgress (env : Env) (p : Page) : Page :=
  if env.quotaExceeded then
    { p with notifications := p.notifications ++ [("Error al guardar progreso", "error")] }
  else
    { p with
      localStorage :=
        p.localStorage.setItem CONFIG.STORAGE_KEY (JSON.stringify p.appState.progress)
      appState := { p.appState with lastUpdate := some env.now }
      notifications := p.notifications ++ [("Progreso guardado", "success")] }

/-- Function `calculateStreak`, run on calendar day `today`: the state after the
call (the value returned is `streak || 0` of that state). -/
def calculateStreak (today : ℤ) (s : AppState) : AppState :=
  if s.lastActivity = none ∨ s.lastActivity ≠ some today then
    { s with
      streak := some ((match s.streak with
        | some streak => streak
        | none => 0) + 1)
      lastActivity := some today }
  else s

/-- The loop `checkboxes.forEach(cb => appState.progress[cb.id] = cb.checked)`
of `updateProgress`. -/
def updateProgress.record : Checkboxes → JSON → Except Abort JSON
  | [], progress => Except.ok progress
  | cb :: rest, progress =>
    match JSON.set progress cb.1 cb.2 with
    | Except.ok progress₁ => updateProgress.record rest progress₁
    | Except.error e => Except.error e

/-- Function `updateProgress`: record the checkboxes in `appState.progress`,
`saveProgress`, `checkAchievements(completed)`, and `updateStatistics
(completed)`, whose only effect on the state is that of `calculateStreak`. -/
def updateProgress (env : Env) (p : Page) : Except Abort Page :=
  let completed := completedCount p.checkboxes
  match updateProgress.record p.checkboxes p.appState.progress with
  | Except.error e => Except.error e
  | Except.ok progress =>
    let p₁ := saveProgress env { p with appState := { p.appState with progress := progress } }
    let s₂ := checkAchievements completed p₁.appState
    Except.ok { p₁ with appState := calculateStreak env.today s₂ }

/-- The loop of `applyProgressToUI` over `Object.keys(appState.progress)`:
the element with the id of a key, when there is one, gets that value as
`checked`. -/
def applyProgressToUI.check (progress : JSON) (ids : List String)
    (checkboxes : Checkboxes) : Checkboxes :=
  ids.foldl (fun cbs id =>
    match getElementById cbs id with
    | some _ => setChecked cbs id (JSON.truthy (JSON.get progress id))
    | none => cbs) checkboxes

/-- Function `applyProgressToUI`. -/
def applyProgressToUI (env : Env) (p : Page) : Except Abort Page :=
  match JSON.keys p.appState.progress with
  | none => Except.error Abort.TypeError
  | some ids =>
    updateProgress env
      { p with checkboxes := applyProgressToUI.check p.appState.progress ids p.checkboxes }

/-- The first part of `loadProgress`, up to the call of `applyProgressToUI`:
`if (saved)` with its `try` and `catch`. -/
def loadProgress.read (p : Page) : Page :=
  match p.localStorage.getItem CONFIG.STORAGE_KEY with
  | some saved =>
    if saved ≠ "" then
      match JSON.parse saved with
      | some value => { p with appState := { p.appState with progress := value } }
      | none => { p with appState := { p.appState with progress := JSON.obj [] } }
    else p
  | none => p

/-- Function `loadProgress`. -/
def loadProgress (env : Env) (p : Page) : Except Abort Page :=
  applyProgressToUI env (loadProgress.read p)

/-- The value `calculateStreak` returns, run on calendar day `today`:
`appState.streak || 0` after the call. -/
def calculateStreak.value (today : ℤ) (s : AppState) : ℤ :=
  match (calculateStreak today s).streak with
  | some streak => streak
  | none => 0

/-- What `calculateStatistics` returns (the completion estimate, a formatted
date, is left out). -/
structure CalculatedStatistics where
  weeksCompleted : ℕ
  totalWeeks : ℕ
  percentageComplete : ℤ
  hoursStudied : ℕ
deriving DecidableEq, Repr

/-- The local `completed` of `calculateStatistics`:
`Object.values(appState.progress).filter(v => v).length`, `none` where
`Object.values` throws. -/
def calculateStatistics.completed (s : AppState) : Option ℕ :=
  match JSON.values s.progress with
  | some values => some (values.filter fun v => JSON.truthy (some v)).length
  | none => none

/-- Function `calculateStatistics`. -/
def calculateStatistics (s : AppState) : Except Abort CalculatedStatistics :=
  match calculateStatistics.completed s with
  | none => Except.error Abort.TypeError
  | some completed =>
    Except.ok
      { weeksCompleted := completed
        totalWeeks := CONFIG.TOTAL_WEEKS
        percentageComplete :=
          Math_round (((completed : ℚ) / (CONFIG.TOTAL_WEEKS : ℚ)) * 100)
        hoursStudied := completed * CONFIG.HOURS_PER_WEEK }

/-- The start of the `try` block of `importProgress`, for the text of the file:
`data = JSON.parse(text)` and the test `data.progress`.  The result is the
value to assign, `Except.ok none` when the test fails, and the exception of
`JSON.parse` or of the property access on `null`. -/
def importProgress.field (text : String) : Except Abort (Option JSON) :=
  match JSON.parse text with
  | none => Except.error Abort.SyntaxError
  | some JSON.null => Except.error Abort.TypeError
  | some data =>
    if JSON.truthy (JSON.get data "progress") then Except.ok (JSON.get data "progress")
    else Except.ok none

/-- The handler `reader.onload` of `importProgress`, for the text of the file.
An exception inside the `try` block ends in the `catch` block, which only
reports it. -/
def importProgress (env : Env) (text : String) (p : Page) : Except Abort Page :=
  match importProgress.field text with
  | Except.error _ =>
    Except.ok
      { p with notifications := p.notifications ++ [("Error al importar el archivo", "error")] }
  | Except.ok none => Except.ok p
  | Except.ok (some progress) =>
    let p₁ : Page := { p with appState := { p.appState with progress := progress } }
    match applyProgressToUI env p₁ with
    | Except.error _ =>
      Except.ok
        { p₁ with
          notifications := p₁.notifications ++ [("Error al importar el archivo", "error")] }
    | Except.ok p₂ =>
      let p₃ := saveProgress env p₂
      Except.ok
        { p₃ with
          notifications := p₃.notifications ++ [("Progreso importado correctamente", "success")] }

/-- The user sets the week checkbox `id` to `checked`; its `change` listener
is `updateProgress`. -/
def changeCheckbox (env : Env) (id : String) (checked : Bool) (p : Page) :
    Except Abort Page :=
  updateProgress env { p with checkboxes := setChecked p.checkboxes id checked }

/-- A sequence of checkbox changes, each with what its run reads from the
browser. -/
def changeCheckboxes : List (Env × String × Bool) → Page → Except Abort Page
  | [], p => Except.ok p
  | (env, id, checked) :: rest, p =>
    match changeCheckbox env id checked p with
    | Except.ok p₁ => changeCheckboxes rest p₁
    | Except.error e => Except.error e

end Main

/-! ## Percentage -/

theorem Math_round_eq_iff (x : ℚ) (p : ℤ) :
    Math_round x = p ↔ (p : ℚ) - 1 / 2 ≤ x ∧ x < (p : ℚ) + 1 / 2 := by
  unfold Math_round
  rw [Int.floor_eq_iff]
  constructor
  · rintro ⟨h₁, h₂⟩
    exact ⟨by linarith, by linarith⟩
  · rintro ⟨h₁, h₂⟩
    exact ⟨by linarith, by linarith⟩

/-- C1: for a completed count `c ≤ 16` the percentage of `updateStatistics`,
which is also the one of `updateProgress` (main.js) and of
`generateProgressReport`, is `100 * c / 16` rounded to the nearest integer
with a half rounded up, lies in `[0, 100]`, and is 25, 50, 75, 100 at
`c = 4, 8, 12, 16`. -/
theorem percentage_round_half_up (c : ℕ) (hc : c ≤ 16) :
    Main.updateProgress.percentage c = Progress.updateStatistics.percentage c ∧
    Progress.generateProgressReport.percentage c = Progress.updateStatistics.percentage c ∧
    ((Progress.updateStatistics.percentage c : ℚ) - 1 / 2 ≤ 100 * (c : ℚ) / 16 ∧
      100 * (c : ℚ) / 16 < (Progress.updateStatistics.percentage c : ℚ) + 1 / 2) ∧
    (0 ≤ Progress.updateStatistics.percentage c ∧
      Progress.updateStatistics.percentage c ≤ 100) ∧
    Progress.updateStatistics.percentage 4 = 25 ∧
    Progress.updateStatistics.percentage 8 = 50 ∧
    Progress.updateStatistics.percentage 12 = 75 ∧
    Progress.updateStatistics.percentage 16 = 100 := by
  have key : ∀ n : ℕ, Progress.updateStatistics.percentage n
      = ⌊(100 * (n : ℚ) / 16) + 1 / 2⌋ := by
    intro n
    simp only [Progress.updateStatistics.percentage, Math_round,
      Progress.PROGRESS_CONFIG.TOTAL_WEEKS]
    congr 2
    push_cast
    ring
  refine ⟨rfl, rfl, ⟨?_, ?_⟩, ⟨?_, ?_⟩, ?_, ?_, ?_, ?_⟩
  · rw [key]
    have h := Int.floor_le ((100 * (c : ℚ) / 16) + 1 / 2)
    linarith
  · rw [key]
    have h := Int.lt_floor_add_one ((100 * (c : ℚ) / 16) + 1 / 2)
    linarith
  · rw [key]
    apply Int.floor_nonneg.mpr
    positivity
  · rw [key]
    have hc' : (c : ℚ) ≤ 16 := by exact_mod_cast hc
    have : ⌊(100 * (c : ℚ) / 16) + 1 / 2⌋ < 100 + 1 := by
      rw [Int.floor_lt]
      push_cast
      linarith
    omega
  · rw [key, Int.floor_eq_iff]; norm_num
  · rw [key, Int.floor_eq_iff]; norm_num
  · rw [key, Int.floor_eq_iff]; norm_num
  · rw [key, Int.floor_eq_iff]; norm_num

/-- Witness of C1 at `c = 3`, where `18.75` rounds to `19`. -/
theorem percentage_round_half_up_witness :
    Progress.updateStatistics.percentage 3 = 19 := by
  have h := (percentage_round_half_up 3 (by decide)).2.2.1
  rw [← Math_round_eq_iff] at h
  rw [← h]
  norm_num [Math_round, Int.floor_eq_iff]

/-! ## Achievements of `progress.js` -/

namespace Progress

theorem ACHIEVEMENTS_nodup : (ACHIEVEMENTS.map fun a => a.id).Nodup := by
  decide

end Progress

/-! ## Achievements of `main.js` -/

namespace Main

theorem isAchievementUnlocked_iff (id : String) (s : AppState) :
    isAchievementUnlocked id s = true ↔ id ∈ s.unlocked := by
  unfold isAchievementUnlocked AppState.unlocked
  cases s.achievements <;> simp

theorem checkAchievements_body_eq (completedWeeks : ℕ) (s : AppState) (a : Achievement) :
    checkAchievements.body completedWeeks s a =
      if completedWeeks ≥ a.threshold ∧ a.id ∉ s.unlocked then
        { s with
          achievements := some (s.unlocked ++ [a.id])
          shown := s.shown ++ [a.id] }
      else s := by
  have hiff := isAchievementUnlocked_iff a.id s
  unfold checkAchievements.body unlockAchievement
  by_cases hin : a.id ∈ s.unlocked
  · have : isAchievementUnlocked a.id s = true := hiff.mpr hin
    simp [hin, this]
  · have : isAchievementUnlocked a.id s = false := by
      cases hb : isAchievementUnlocked a.id s
      · rfl
      · exact absurd (hiff.mp hb) hin
    simp only [this, hin, not_false_eq_true, and_true]
    rfl

/-- One pass of the `forEach` body over a list of entries with distinct ids. -/
theorem checkAchievements_foldl (completedWeeks : ℕ) (L : List Achievement) :
    ∀ s : AppState, (L.map fun a => a.id).Nodup →
      let r := L.foldl (checkAchievements.body completedWeeks) s
      let added := (L.filter fun a => decide (a.id ∉ s.unlocked) &&
        decide (completedWeeks ≥ a.threshold)).map fun a => a.id
      r.unlocked = s.unlocked ++ added ∧ r.shown = s.shown ++ added := by
  induction L with
  | nil => intro s _; simp
  | cons a L ih =>
    intro s hnd
    rw [List.map_cons, List.nodup_cons] at hnd
    obtain ⟨ha, hnd⟩ := hnd
    simp only [List.foldl_cons]
    have hstep := checkAchievements_body_eq completedWeeks s a
    by_cases hc : completedWeeks ≥ a.threshold ∧ a.id ∉ s.unlocked
    · rw [if_pos hc] at hstep
      have h := ih (checkAchievements.body completedWeeks s a) hnd
      rw [hstep] at h ⊢
      simp only [AppState.unlocked] at h ⊢
      have hfilter : (L.filter fun b => decide (b.id ∉ s.unlocked ++ [a.id]) &&
            decide (completedWeeks ≥ b.threshold)) =
          (L.filter fun b => decide (b.id ∉ s.unlocked) &&
            decide (completedWeeks ≥ b.threshold)) := by
        apply List.filter_congr
        intro b hb
        have hne : b.id ≠ a.id := by
          intro heq
          exact ha (heq ▸ List.mem_map_of_mem (fun a => a.id) hb)
        simp [hne]
      simp only [AppState.unlocked] at hfilter
      rw [hfilter] at h
      have hhead : (List.filter (fun a => decide (a.id ∉ s.unlocked) &&
            decide (completedWeeks ≥ a.threshold)) (a :: L)) =
          a :: (List.filter (fun a => decide (a.id ∉ s.unlocked) &&
            decide (completedWeeks ≥ a.threshold)) L) := by
        rw [List.filter_cons_of_pos]
        simp [hc.1, hc.2]
      simp only [AppState.unlocked] at hhead
      rw [hhead]
      simp only [List.map_cons]
      obtain ⟨h₁, h₂⟩ := h
      refine ⟨?_, ?_⟩
      · rw [h₁]; simp
      · rw [h₂]; simp
    · rw [if_neg hc] at hstep
      have h := ih s hnd
      rw [hstep]
      have hhead : (List.filter (fun a => decide (a.id ∉ s.unlocked) &&
            decide (completedWeeks ≥ a.threshold)) (a :: L)) =
          (List.filter (fun a => decide (a.id ∉ s.unlocked) &&
            decide (completedWeeks ≥ a.threshold)) L) := by
        rw [List.filter_cons_of_neg]
        simp only [Bool.and_eq_true, decide_eq_true_eq]
        tauto
      rw [hhead]
      exact h

theorem checkAchievements_catalog_nodup : (checkAchievements.achievements.map fun a => a.id).Nodup := by
  decide

theorem checkAchievements_spec (completedWeeks : ℕ) (s : AppState) :
    (checkAchievements completedWeeks s).unlocked =
        s.unlocked ++ newlyUnlocked completedWeeks s.unlocked ∧
      (checkAchievements completedWeeks s).shown =
        s.shown ++ newlyUnlocked completedWeeks s.unlocked :=
  checkAchievements_foldl completedWeeks checkAchievements.achievements s checkAchievements_catalog_nodup

/-- A pass over entries none of which is due leaves the state as it is. -/
theorem checkAchievements_foldl_fixed (completedWeeks : ℕ) (s : AppState) (L : List Achievement)
    (h : ∀ a ∈ L, completedWeeks ≥ a.threshold → a.id ∈ s.unlocked) :
    L.foldl (checkAchievements.body completedWeeks) s = s := by
  induction L with
  | nil => rfl
  | cons a L ih =>
    have ha := h a (List.mem_cons_self a L)
    have hstep : checkAchievements.body completedWeeks s a = s := by
      rw [checkAchievements_body_eq, if_neg]
      rintro ⟨h₁, h₂⟩
      exact h₂ (ha h₁)
    rw [List.foldl_cons, hstep]
    exact ih fun b hb => h b (List.mem_cons_of_mem a hb)

theorem mem_newlyUnlocked_main_iff (completedWeeks : ℕ) (unlocked : List String) (id : String) :
    id ∈ newlyUnlocked completedWeeks unlocked ↔
      ∃ a ∈ checkAchievements.achievements, a.id = id ∧ id ∉ unlocked ∧
        completedWeeks ≥ a.threshold := by
  unfold newlyUnlocked
  simp only [List.mem_map, List.mem_filter, Bool.and_eq_true, decide_eq_true_eq]
  constructor
  · rintro ⟨a, ⟨ha, h₁, h₂⟩, rfl⟩
    exact ⟨a, ha, rfl, h₁, h₂⟩
  · rintro ⟨a, ha, rfl, h₁, h₂⟩
    exact ⟨a, ⟨ha, h₁, h₂⟩, rfl⟩

theorem checkAchievements_idem (completedWeeks : ℕ) (s : AppState) :
    checkAchievements completedWeeks (checkAchievements completedWeeks s) =
      checkAchievements completedWeeks s := by
  obtain ⟨h₁, -⟩ := checkAchievements_spec completedWeeks s
  apply checkAchievements_foldl_fixed
  intro a ha hp
  rw [h₁, List.mem_append]
  by_cases hin : a.id ∈ s.unlocked
  · exact Or.inl hin
  · exact Or.inr ((mem_newlyUnlocked_main_iff _ _ _).mpr ⟨a, ha, rfl, hin, hp⟩)

theorem checkAchievements_nodup (completedWeeks : ℕ) (s : AppState)
    (h : s.unlocked.Nodup) : (checkAchievements completedWeeks s).unlocked.Nodup := by
  rw [(checkAchievements_spec completedWeeks s).1]
  refine List.Nodup.append h ?_ ?_
  · exact ((List.filter_sublist _).map _).nodup checkAchievements_catalog_nodup
  · intro id h₁ h₂
    obtain ⟨a, -, -, hnot, -⟩ := (mem_newlyUnlocked_main_iff _ _ _).mp h₂
    exact hnot h₁

end Main

/-! ## Total points -/

namespace Progress

/-- In a list of entries with distinct ids, the points of the entry `find`
returns for an id are the points of all entries with that id. -/
theorem find_points_eq (id : String) (L : List Achievement) :
    (L.map fun a => a.id).Nodup →
      (match L.find? (fun a => a.id = id) with
        | some achievement => achievement.points
        | none => 0) =
      ((L.filter fun a => a.id = id).map fun a => a.points).sum := by
  induction L with
  | nil => intro _; rfl
  | cons a L ih =>
    intro hnd
    rw [List.map_cons, List.nodup_cons] at hnd
    obtain ⟨ha, hnd⟩ := hnd
    by_cases h : a.id = id
    · have hnone : (L.filter fun b => decide (b.id = id)) = [] := by
        rw [List.filter_eq_nil_iff]
        intro b hb
        simp only [decide_eq_true_eq]
        intro hbid
        exact ha (by rw [h, ← hbid]; exact List.mem_map_of_mem (fun a => a.id) hb)
      simp [List.find?, List.filter, h, hnone]
    · have := ih hnd
      simp only [List.find?, List.filter, h, decide_False]
      exact this

theorem pointsReducer_eq (total : ℕ) (id : String) :
    pointsReducer total id = total + pointsOf id := by
  have h := find_points_eq id ACHIEVEMENTS ACHIEVEMENTS_nodup
  unfold pointsReducer pointsOf
  rw [← h]
  cases ACHIEVEMENTS.find? (fun a => decide (a.id = id)) <;> rfl

theorem foldl_pointsReducer (ids : List String) :
    ∀ total : ℕ, ids.foldl pointsReducer total = total + (ids.map pointsOf).sum := by
  induction ids with
  | nil => intro total; simp
  | cons id ids ih =>
    intro total
    rw [List.foldl_cons, ih, pointsReducer_eq, List.map_cons, List.sum_cons, Nat.add_assoc]

end Progress

/-! ## Claims on the achievement engine -/

/-- C6: `calculateTotalPoints` and the total inside `updateTotalPoints` agree,
and both are the sum over the ids of the unlock list of the points of the
catalog entry with that id, an id without entry counting 0. -/
theorem total_points_sum (t : Progress.ProgressTracker) :
    Progress.calculateTotalPoints t = (Progress.updateTotalPoints t).1 ∧
      Progress.calculateTotalPoints t = (t.achievements.map Progress.pointsOf).sum ∧
      (∀ a ∈ Progress.ACHIEVEMENTS, Progress.pointsOf a.id = a.points) ∧
      (∀ id, (∀ a ∈ Progress.ACHIEVEMENTS, a.id ≠ id) → Progress.pointsOf id = 0) := by
  refine ⟨rfl, ?_, by decide, ?_⟩
  · unfold Progress.calculateTotalPoints
    rw [Progress.foldl_pointsReducer, Nat.zero_add]
  · intro id hid
    unfold Progress.pointsOf
    rw [List.filter_eq_nil_iff.mpr]
    · rfl
    · intro a ha
      simpa using hid a ha

/-- Witness of C6: an unlock list with an id the catalog does not have. -/
theorem total_points_sum_witness :
    Progress.calculateTotalPoints
      { Progress.ProgressTracker.new with
        achievements := ["month_1", "retired_badge", "halfway"] } = 75 := by
  rw [(total_points_sum _).2.1]
  decide

/-! ## Claims on the daily streak -/

/-- C7: when `lastActive` is two or more calendar days before today,
`checkDailyStreak` sets `currentStreak` to 0 and `lastActive` to today. -/
theorem streak_reset_after_gap (today lastDate : ℤ) (t : Progress.ProgressTracker)
    (hlast : t.statistics.lastActive = some lastDate) (hgap : lastDate + 2 ≤ today) :
    (Progress.checkDailyStreak today t).statistics.currentStreak = 0 ∧
      (Progress.checkDailyStreak today t).statistics.lastActive = some today := by
  have h₁ : ¬ lastDate = today - 1 := by omega
  have h₂ : lastDate ≠ today := by omega
  unfold Progress.checkDailyStreak
  simp only [hlast, h₁, h₂, if_false, ne_eq, not_false_eq_true, if_true]
  constructor
  · split_ifs <;> rfl
  · trivial

/-- Witness of C7: a streak of 5 last counted on day 10, evaluated on day 12. -/
theorem streak_reset_after_gap_witness :
    (Progress.checkDailyStreak 12
      { Progress.ProgressTracker.new with
        statistics :=
          { Progress.ProgressTracker.new.statistics with
            currentStreak := 5, longestStreak := 5, lastActive := some 10 } }
      ).statistics.currentStreak = 0 :=
  (streak_reset_after_gap 12 10 _ rfl (by decide)).1

/-- C8: when `lastActive` is yesterday, `checkDailyStreak` increases
`currentStreak` by exactly 1 and sets `lastActive` to today. -/
theorem streak_continues_from_yesterday (today : ℤ) (t : Progress.ProgressTracker)
    (hlast : t.statistics.lastActive = some (today - 1)) :
    (Progress.checkDailyStreak today t).statistics.currentStreak =
        t.statistics.currentStreak + 1 ∧
      (Progress.checkDailyStreak today t).statistics.lastActive = some today := by
  unfold Progress.checkDailyStreak
  simp only [hlast, if_true]
  constructor
  · split_ifs <;> rfl
  · trivial

/-- Witness of C8: a streak of 5 last counted on day 11, evaluated on day 12. -/
theorem streak_continues_from_yesterday_witness :
    (Progress.checkDailyStreak 12
      { Progress.ProgressTracker.new with
        statistics :=
          { Progress.ProgressTracker.new.statistics with
            currentStreak := 5, longestStreak := 5, lastActive := some 11 } }
      ).statistics.currentStreak = 6 :=
  (streak_continues_from_yesterday 12 _ rfl).1

/-- C9: with no `lastActive` date, `checkDailyStreak` sets `currentStreak` to 1
and `lastActive` to today, whatever `currentStreak` was. -/
theorem streak_starts_without_history (today : ℤ) (t : Progress.ProgressTracker)
    (hlast : t.statistics.lastActive = none) :
    (Progress.checkDailyStreak today t).statistics.currentStreak = 1 ∧
      (Progress.checkDailyStreak today t).statistics.lastActive = some today := by
  unfold Progress.checkDailyStreak
  simp only [hlast]
  constructor
  · split_ifs <;> rfl
  · trivial

/-- Witness of C9: a stored streak of 9 without a `lastActive` date. -/
theorem streak_starts_without_history_witness :
    (Progress.checkDailyStreak 12
      { Progress.ProgressTracker.new with
        statistics :=
          { Progress.ProgressTracker.new.statistics with currentStreak := 9 } }
      ).statistics.currentStreak = 1 :=
  (streak_starts_without_history 12 _ rfl).1

/-- C10: the streak evaluation is idempotent within a calendar day.  Running
`checkDailyStreak` twice on the same day gives the tracker of one run, and
when `lastActive` is already today a run leaves `currentStreak` and
`lastActive` as they were. -/
theorem streak_idempotent_same_day (today : ℤ) (t : Progress.ProgressTracker) :
    Progress.checkDailyStreak today (Progress.checkDailyStreak today t) =
        Progress.checkDailyStreak today t ∧
      (t.statistics.lastActive = some today →
        (Progress.checkDailyStreak today t).statistics.currentStreak =
            t.statistics.currentStreak ∧
          (Progress.checkDailyStreak today t).statistics.lastActive =
            t.statistics.lastActive) := by
  have hne : ¬ today = today - 1 := by omega
  constructor
  · unfold Progress.checkDailyStreak
    cases hl : t.statistics.lastActive with
    | none =>
      by_cases h : (1 : ℤ) > t.statistics.longestStreak <;> simp [hne, h]
    | some d =>
      by_cases hy : d = today - 1
      · by_cases h : t.statistics.currentStreak + 1 > t.statistics.longestStreak <;>
          simp [hne, hy, h]
      · by_cases ht : d = today
        · by_cases h : t.statistics.currentStreak > t.statistics.longestStreak <;>
            simp [hne, hy, ht, h, hl]
        · by_cases h : (0 : ℤ) > t.statistics.longestStreak <;>
            simp [hne, hy, ht, h]
  · intro hlast
    unfold Progress.checkDailyStreak
    simp only [hlast, hne, if_false, ne_eq, not_true_eq_false]
    constructor
    · split_ifs <;> rfl
    · trivial

/-- Witness of C10: a streak continued from yesterday is counted once, however
often the evaluation runs that day. -/
theorem streak_idempotent_same_day_witness :
    (Progress.checkDailyStreak 12 (Progress.checkDailyStreak 12
      { Progress.ProgressTracker.new with
        statistics :=
          { Progress.ProgressTracker.new.statistics with
            currentStreak := 5, longestStreak := 5, lastActive := some 11 } })
      ).statistics.currentStreak = 6 := by
  rw [(streak_idempotent_same_day 12 _).1]
  decide

/-! ## Reading back what `JSON.stringify` wrote -/

namespace JSON

theorem hex4_hexDigit : ∀ n, n < 32 →
    hex4 '0' '0' (hexDigit (n / 16)) (hexDigit (n % 16)) = some n := by
  decide

theorem parseStringBody_cons (c : Char) (rest : List Char) :
    parseStringBody (c :: rest) =
      if c = '"' then some ([], rest)
      else if c = '\\' then
        match rest with
        | [] => none
        | e :: rest₁ =>
          if e = 'u' then
            match rest₁ with
            | h₁ :: h₂ :: h₃ :: h₄ :: rest₂ =>
              match hex4 h₁ h₂ h₃ h₄ with
              | some n =>
                match parseStringBody rest₂ with
                | some (cs, r) => some (Char.ofNat n :: cs, r)
                | none => none
              | none => none
            | _ => none
          else
            match simpleEscape e with
            | some x =>
              match parseStringBody rest₁ with
              | some (cs, r) => some (x :: cs, r)
              | none => none
            | none => none
      else if c.toNat < 32 then none
      else
        match parseStringBody rest with
        | some (cs, r) => some (c :: cs, r)
        | none => none := by
  rw [parseStringBody.eq_def]

theorem parseStringBody_escape (cs rest : List Char) :
    parseStringBody (escape cs ++ '"' :: rest) = some (cs, rest) := by
  induction cs with
  | nil => simp [escape, parseStringBody_cons]
  | cons c cs ih =>
    unfold escape escapeChar
    by_cases h₁ : c = '"'
    · subst h₁
      simp [parseStringBody_cons, simpleEscape, ih]
    by_cases h₂ : c = '\\'
    · subst h₂
      simp [parseStringBody_cons, simpleEscape, ih]
    by_cases h₃ : c = Char.ofNat 8
    · subst h₃
      simp [parseStringBody_cons, simpleEscape, ih]
    by_cases h₄ : c = Char.ofNat 12
    · subst h₄
      simp [parseStringBody_cons, simpleEscape, ih]
    by_cases h₅ : c = '\n'
    · subst h₅
      simp [parseStringBody_cons, simpleEscape, ih]
    by_cases h₆ : c = '\r'
    · subst h₆
      simp [parseStringBody_cons, simpleEscape, ih]
    by_cases h₇ : c = '\t'
    · subst h₇
      simp [parseStringBody_cons, simpleEscape, ih]
    by_cases h₈ : c.toNat < 32
    · have hx := hex4_hexDigit c.toNat h₈
      simp only [h₁, h₂, h₃, h₄, h₅, h₆, h₇, h₈, if_false, if_true, List.cons_append,
        List.nil_append]
      rw [parseStringBody_cons]
      simp [hx, ih]
    · simp only [h₁, h₂, h₃, h₄, h₅, h₆, h₇, h₈, if_false, List.cons_append, List.nil_append]
      rw [parseStringBody_cons]
      simp [h₁, h₂, h₈, ih]

theorem skipWs_cons_of_not_ws (c : Char) (cs : List Char) (h : isWs c = false) :
    skipWs (c :: cs) = c :: cs := by
  rw [skipWs, h]
  rfl

theorem parseValue_bool (fuel : ℕ) (b : Bool) (rest : List Char) :
    parseValue (fuel + 1) (stringifyChars (bool b) ++ rest) = some (bool b, rest) := by
  cases b
  · rw [parseValue.eq_def]
    simp [stringifyChars, skipWs_cons_of_not_ws, isWs]
  · rw [parseValue.eq_def]
    simp [stringifyChars, skipWs_cons_of_not_ws, isWs]

theorem parseMembers_quote (value : List Char → Option (JSON × List Char)) (fuel : ℕ)
    (k : String) (rest : List Char) :
    parseMembers value (fuel + 1) (quote k ++ ':' :: rest) =
      match value rest with
      | none => none
      | some (v, rest₃) =>
        match skipWs rest₃ with
        | ',' :: rest₄ =>
          match parseMembers value fuel rest₄ with
          | some (ms, r) => some ((k, v) :: ms, r)
          | none => none
        | '}' :: rest₄ => some ([(k, v)], rest₄)
        | _ => none := by
  rw [parseMembers.eq_def]
  simp only [quote, List.cons_append, List.append_assoc, List.singleton_append]
  rw [skipWs_cons_of_not_ws _ _ (by decide)]
  simp only [parseStringBody_escape, List.nil_append]
  rw [skipWs_cons_of_not_ws _ _ (by decide)]
  rfl

/-- The members loop reads back the members of a map of flags. -/
theorem parseMembers_flags (value : List Char → Option (JSON × List Char))
    (hvalue : ∀ b rest, value (stringifyChars (bool b) ++ rest) = some (bool b, rest))
    (m : List (String × Bool)) :
    ∀ (kv : String × Bool) (fuel : ℕ) (rest : List Char), m.length < fuel →
      parseMembers value fuel
          (stringifyMembers ((kv :: m).map fun kv => (kv.1, bool kv.2)) ++ '}' :: rest) =
        some ((kv :: m).map (fun kv => (kv.1, bool kv.2)), rest) := by
  induction m with
  | nil =>
    intro kv fuel rest hfuel
    obtain ⟨fuel, rfl⟩ : ∃ f, fuel = f + 1 := ⟨fuel - 1, by omega⟩
    simp only [List.map_cons, List.map_nil, stringifyMembers, List.append_assoc,
      List.cons_append]
    rw [parseMembers_quote, hvalue]
    simp only []
    rw [skipWs_cons_of_not_ws _ _ (by decide)]
    rfl
  | cons kv' m ih =>
    intro kv fuel rest hfuel
    obtain ⟨fuel, rfl⟩ : ∃ f, fuel = f + 1 := ⟨fuel - 1, by omega⟩
    have h := ih kv' fuel rest (by simpa using hfuel)
    simp only [List.map_cons, stringifyMembers, List.append_assoc, List.cons_append] at h ⊢
    rw [parseMembers_quote, hvalue]
    simp only []
    rw [skipWs_cons_of_not_ws _ _ (by decide)]
    simp only [h]

theorem foldl_setMember (ms : List (String × JSON)) :
    ∀ acc : List (String × JSON), ((acc ++ ms).map fun m => m.1).Nodup →
      ms.foldl (fun acc m => setMember acc m.1 m.2) acc = acc ++ ms := by
  induction ms with
  | nil => intro acc _; simp
  | cons m ms ih =>
    intro acc hnd
    have hnot : acc.any (fun x => decide (x.1 = m.1)) = false := by
      rw [List.any_eq_false]
      intro x hx
      simp only [decide_eq_true_eq]
      intro hxm
      rw [List.map_append, List.nodup_append] at hnd
      exact hnd.2.2 (List.mem_map_of_mem (fun m => m.1) hx)
        (by rw [hxm]; exact List.mem_map_of_mem (fun m => m.1) (List.mem_cons_self m ms))
    rw [List.foldl_cons, setMember, hnot]
    simp only [Bool.false_eq_true, if_false]
    rw [ih (acc ++ [m]) (by simpa using hnd)]
    simp

theorem mkObject_of_nodup (ms : List (String × JSON)) (h : (ms.map fun m => m.1).Nodup) :
    mkObject ms = obj ms := by
  unfold mkObject
  rw [foldl_setMember ms [] (by simpa using h)]
  rfl

theorem length_le_stringifyMembers (ms : List (String × JSON)) :
    ms.length ≤ (stringifyMembers ms).length := by
  induction ms with
  | nil => simp
  | cons m ms ih =>
    obtain ⟨k, v⟩ := m
    cases ms with
    | nil => simp [stringifyMembers, quote]
    | cons m' ms =>
      simp only [stringifyMembers, List.length_append, List.length_cons] at ih ⊢
      omega

theorem parseValue_object (fuel : ℕ) (tail : List Char) :
    parseValue (fuel + 1) ('{' :: '"' :: tail) =
      match parseMembers (parseValue fuel) fuel ('"' :: tail) with
      | some (ms, r) => some (mkObject ms, r)
      | none => none := by
  rw [parseValue.eq_def]
  simp only []
  rw [skipWs_cons_of_not_ws _ _ (by decide)]
  simp only []
  rw [skipWs_cons_of_not_ws _ _ (by decide)]
  rfl

/-- The text written for a map of flags with distinct keys is read back as
the same object. -/
theorem parse_stringify_ofFlags (m : List (String × Bool))
    (h : (m.map fun kv => kv.1).Nodup) :
    parse (stringify (ofFlags m)) = some (ofFlags m) := by
  cases m with
  | nil => decide
  | cons kv m =>
    have hlen := length_le_stringifyMembers ((kv :: m).map fun kv => (kv.1, bool kv.2))
    have hnd : (((kv :: m).map fun kv => (kv.1, bool kv.2)).map fun m => m.1).Nodup := by
      simpa [List.map_map, Function.comp] using h
    have hhead : ∃ tail, stringifyMembers ((kv :: m).map fun kv => (kv.1, bool kv.2)) =
        '"' :: tail := by
      cases m <;> exact ⟨_, rfl⟩
    obtain ⟨tail, htail⟩ := hhead
    have hchars : stringifyChars (ofFlags (kv :: m)) = '{' :: '"' :: (tail ++ ['}']) := by
      unfold ofFlags
      rw [stringifyChars, htail]
      rfl
    have hloop := parseMembers_flags (parseValue (tail.length + 1 + 1 + 1))
      (fun b rest => parseValue_bool _ b rest) m kv (tail.length + 1 + 1 + 1) []
      (by
        rw [htail] at hlen
        simp only [List.length_map, List.length_cons] at hlen
        omega)
    rw [htail] at hloop
    unfold parse stringify
    simp only [String.toList, hchars, List.length_cons, List.length_append, List.length_nil]
    rw [parseValue_object]
    simp only [List.cons_append] at hloop
    simp only [Nat.zero_add, hloop, mkObject_of_nodup _ hnd]
    rfl

theorem stringify_ofFlags_ne_empty (m : List (String × Bool)) :
    stringify (ofFlags m) ≠ "" := by
  intro h
  have h' := congrArg String.toList h
  simp [stringify, ofFlags, stringifyChars, String.toList] at h'

end JSON

/-! ## Claims on the streak record, the month progress and the reset -/

/-- C11: after `checkDailyStreak` the new `longestStreak` is the maximum of the
old `longestStreak` and the new `currentStreak`; hence it is at least the
current streak after every run, and it never decreases. -/
theorem longest_streak_is_running_max (today : ℤ) (t : Progress.ProgressTracker) :
    (Progress.checkDailyStreak today t).statistics.longestStreak =
        max t.statistics.longestStreak
          (Progress.checkDailyStreak today t).statistics.currentStreak ∧
      (Progress.checkDailyStreak today t).statistics.currentStreak ≤
        (Progress.checkDailyStreak today t).statistics.longestStreak ∧
      t.statistics.longestStreak ≤
        (Progress.checkDailyStreak today t).statistics.longestStreak := by
  have hne : ¬ today = today - 1 := by omega
  unfold Progress.checkDailyStreak
  cases hl : t.statistics.lastActive with
  | none =>
    by_cases h : (1 : ℤ) > t.statistics.longestStreak
    · simp only [h, if_true]
      refine ⟨?_, ?_, ?_⟩ <;> omega
    · simp only [h, if_false]
      refine ⟨?_, ?_, ?_⟩ <;> omega
  | some d =>
    by_cases hy : d = today - 1
    · by_cases h : t.statistics.currentStreak + 1 > t.statistics.longestStreak
      · simp only [hy, h, if_true]
        refine ⟨?_, ?_, ?_⟩ <;> omega
      · simp only [hy, h, if_true, if_false]
        refine ⟨?_, ?_, ?_⟩ <;> omega
    · by_cases ht : d = today
      · by_cases h : t.statistics.currentStreak > t.statistics.longestStreak
        · simp only [hne, hy, ht, h, if_true, if_false, ne_eq, not_true_eq_false]
          refine ⟨?_, ?_, ?_⟩ <;> omega
        · simp only [hne, hy, ht, h, if_false, ne_eq, not_true_eq_false]
          refine ⟨?_, ?_, ?_⟩ <;> omega
      · by_cases h : (0 : ℤ) > t.statistics.longestStreak
        · simp only [hy, ht, h, if_true, if_false, ne_eq, not_false_eq_true]
          refine ⟨?_, ?_, ?_⟩ <;> omega
        · simp only [hy, ht, h, if_true, if_false, ne_eq, not_false_eq_true]
          refine ⟨?_, ?_, ?_⟩ <;> omega

/-- Witness of C11: a streak of 5 equal to the record, continued from
yesterday, lifts the record to 6. -/
theorem longest_streak_is_running_max_witness :
    (Progress.checkDailyStreak 12
      { Progress.ProgressTracker.new with
        statistics :=
          { Progress.ProgressTracker.new.statistics with
            currentStreak := 5, longestStreak := 5, lastActive := some 11 } }
      ).statistics.longestStreak = 6 := by
  rw [(longest_streak_is_running_max 12 _).1]
  decide

theorem completedCount_unchecked (checkboxes : Checkboxes) :
    completedCount (checkboxes.map fun cb => (cb.1, false)) = 0 := by
  unfold completedCount
  rw [List.length_eq_zero, List.filter_eq_nil_iff]
  intro cb hcb
  obtain ⟨cb', -, rfl⟩ := List.mem_map.mp hcb
  simp

theorem filter_range_four (f : ℕ → Bool) (a : ℕ) :
    ((List.range' a 4).filter f).length =
      ((Finset.Icc a (a + 3)).filter fun w => f w = true).card := by
  have hset : Finset.Icc a (a + 3) = (List.range' a 4).toFinset := by
    ext w
    simp only [Finset.mem_Icc, List.mem_toFinset, List.mem_range'_1]
    omega
  rw [hset, ← List.toFinset_filter, List.toFinset_card_of_nodup]
  exact (List.nodup_range' a 4).filter _

/-- C15: `calculateMonthProgress` returns exactly four entries in month order;
entry `p` is `round(k / 4 * 100)` for the number `k` of checked weeks among
weeks `4p - 3 .. 4p`, and is one of 0, 25, 50, 75, 100. -/
theorem month_progress_entries (checkboxes : Checkboxes) :
    (Progress.calculateMonthProgress checkboxes).length = 4 ∧
      ∀ p : ℕ, 1 ≤ p → p ≤ 4 →
        (Progress.calculateMonthProgress checkboxes).get? (p - 1) =
            some ((Math_round
              ((((Finset.Icc (4 * p - 3) (4 * p)).filter fun w =>
                getElementById checkboxes ("week" ++ toString w) = some true).card : ℚ)
                / 4 * 100) : ℤ) : ℚ) ∧
          (Math_round
              ((((Finset.Icc (4 * p - 3) (4 * p)).filter fun w =>
                getElementById checkboxes ("week" ++ toString w) = some true).card : ℚ)
                / 4 * 100)) ∈ ({0, 25, 50, 75, 100} : Finset ℤ) := by
  have hround : ∀ k : ℕ, k ≤ 4 →
      ((Math_round ((k : ℚ) / 4 * 100) : ℤ) : ℚ) = (k : ℚ) / 4 * 100 ∧
        Math_round ((k : ℚ) / 4 * 100) ∈ ({0, 25, 50, 75, 100} : Finset ℤ) := by
    intro k hk
    have h25 : Math_round ((k : ℚ) / 4 * 100) = 25 * (k : ℤ) := by
      rw [Math_round_eq_iff]
      push_cast
      constructor <;> linarith
    rw [h25]
    interval_cases k <;> norm_num
  have hcount : ∀ a : ℕ,
      ((List.range' a 4).filter fun week =>
        decide (getElementById checkboxes ("week" ++ toString week) = some true)).length =
      ((Finset.Icc a (a + 3)).filter fun w =>
        getElementById checkboxes ("week" ++ toString w) = some true).card := by
    intro a
    rw [filter_range_four]
    congr 1
    ext w
    simp
  have hle : ∀ a : ℕ, ((Finset.Icc a (a + 3)).filter fun w =>
      getElementById checkboxes ("week" ++ toString w) = some true).card ≤ 4 := by
    intro a
    calc _ ≤ (Finset.Icc a (a + 3)).card := Finset.card_filter_le _ _
      _ = 4 := by simp only [Nat.card_Icc]; omega
  refine ⟨by simp [Progress.calculateMonthProgress], ?_⟩
  intro p hp₁ hp₄
  have hlist : Progress.calculateMonthProgress checkboxes =
      [(((Finset.Icc 1 (1 + 3)).filter fun w =>
          getElementById checkboxes ("week" ++ toString w) = some true).card : ℚ) / 4 * 100,
        (((Finset.Icc 5 (5 + 3)).filter fun w =>
          getElementById checkboxes ("week" ++ toString w) = some true).card : ℚ) / 4 * 100,
        (((Finset.Icc 9 (9 + 3)).filter fun w =>
          getElementById checkboxes ("week" ++ toString w) = some true).card : ℚ) / 4 * 100,
        (((Finset.Icc 13 (13 + 3)).filter fun w =>
          getElementById checkboxes ("week" ++ toString w) = some true).card : ℚ) / 4 * 100] := by
    simp only [← hcount]
    rfl
  rw [hlist]
  interval_cases p
  · exact ⟨by rw [(hround _ (hle 1)).1]; rfl, (hround _ (hle 1)).2⟩
  · exact ⟨by rw [(hround _ (hle 5)).1]; rfl, (hround _ (hle 5)).2⟩
  · exact ⟨by rw [(hround _ (hle 9)).1]; rfl, (hround _ (hle 9)).2⟩
  · exact ⟨by rw [(hround _ (hle 13)).1]; rfl, (hround _ (hle 13)).2⟩

/-- Witness of C15: weeks 1, 2, 5 and 16 checked, week 13 present and
unchecked. -/
theorem month_progress_entries_witness :
    (Progress.calculateMonthProgress
        [("week1", true), ("week2", true), ("week5", true), ("week13", false),
          ("week16", true)]).length = 4 :=
  (month_progress_entries _).1

/-! ## Loading and saving the progress map -/

theorem getItem_setItem (storage : Storage) (key value : String) :
    (storage.setItem key value).getItem key = some value := by
  obtain ⟨items⟩ := storage
  unfold Storage.setItem Storage.getItem
  by_cases h : items.any (fun kv => decide (kv.1 = key)) = true
  · simp only [h, if_true]
    induction items with
    | nil => simp at h
    | cons kv items ih =>
      by_cases hk : kv.1 = key
      · simp [List.find?, hk]
      · have h' : items.any (fun kv => decide (kv.1 = key)) = true := by
          simpa [List.any_cons, hk] using h
        have := ih h'
        simp only [List.map_cons, hk, if_false, List.find?, decide_False]
        exact this
  · simp only [h, Bool.false_eq_true, if_false]
    have hnone : items.find? (fun kv => decide (kv.1 = key)) = none := by
      rw [List.find?_eq_none]
      intro kv hkv hk
      exact h (List.any_eq_true.mpr ⟨kv, hkv, hk⟩)
    simp [List.find?_append, hnone]

namespace Main

theorem checkAchievements_body_progress (completedWeeks : ℕ) (s : AppState) (a : Achievement) :
    (checkAchievements.body completedWeeks s a).progress = s.progress := by
  rw [checkAchievements_body_eq]
  split_ifs <;> rfl

theorem checkAchievements_progress (completedWeeks : ℕ) (s : AppState) :
    (checkAchievements completedWeeks s).progress = s.progress := by
  unfold checkAchievements
  generalize checkAchievements.achievements = L
  induction L generalizing s with
  | nil => rfl
  | cons a L ih => rw [List.foldl_cons, ih, checkAchievements_body_progress]

theorem calculateStreak_progress (today : ℤ) (s : AppState) :
    (calculateStreak today s).progress = s.progress := by
  unfold calculateStreak
  split_ifs <;> rfl

theorem saveProgress_progress (env : Env) (p : Page) :
    (saveProgress env p).appState.progress = p.appState.progress := by
  unfold saveProgress
  split_ifs <;> rfl

/-- On an object the recording loop assigns one property per checkbox. -/
theorem record_obj (checkboxes : Checkboxes) :
    ∀ members : List (String × JSON),
      updateProgress.record checkboxes (JSON.obj members) =
        Except.ok (JSON.obj (checkboxes.foldl
          (fun acc cb => JSON.assign acc cb.1 (JSON.bool cb.2)) members)) := by
  induction checkboxes with
  | nil => intro members; rfl
  | cons cb rest ih =>
    intro members
    rw [updateProgress.record, JSON.set]
    exact ih _

/-- An assignment under a key other than `__proto__`, or under a key the
object has, defines the member. -/
theorem assign_eq_setMember (members : List (String × JSON)) (key : String) (v : JSON)
    (h : key ≠ "__proto__" ∨ members.any (fun m => decide (m.1 = key)) = true) :
    JSON.assign members key v = JSON.setMember members key v := by
  unfold JSON.assign
  rw [if_neg]
  rintro ⟨h₁, h₂⟩
  rcases h with h | h
  · exact h h₁
  · exact h₂ h

theorem foldl_assign_eq_setMember (checkboxes : Checkboxes)
    (h : ∀ cb ∈ checkboxes, cb.1 ≠ "__proto__") :
    ∀ members : List (String × JSON),
      checkboxes.foldl (fun acc cb => JSON.assign acc cb.1 (JSON.bool cb.2)) members =
        checkboxes.foldl (fun acc cb => JSON.setMember acc cb.1 (JSON.bool cb.2)) members := by
  induction checkboxes with
  | nil => intro members; rfl
  | cons cb rest ih =>
    intro members
    rw [List.foldl_cons, List.foldl_cons,
      assign_eq_setMember _ _ _ (Or.inl (h cb (List.mem_cons_self _ _)))]
    exact ih (fun cb' hcb' => h cb' (List.mem_cons_of_mem _ hcb')) _

/-- The progress value `updateProgress` ends with, when the recording loop
succeeds. -/
theorem updateProgress_of_record (env : Env) (p : Page) (progress : JSON)
    (h : updateProgress.record p.checkboxes p.appState.progress = Except.ok progress) :
    ∃ p', updateProgress env p = Except.ok p' ∧ p'.appState.progress = progress := by
  unfold updateProgress
  rw [h]
  refine ⟨_, rfl, ?_⟩
  simp only [calculateStreak_progress, checkAchievements_progress, saveProgress_progress]

theorem setMember_ne_nil (members : List (String × JSON)) (key : String) (v : JSON) :
    JSON.setMember members key v ≠ [] := by
  unfold JSON.setMember
  split_ifs with h
  · obtain ⟨m, hm, -⟩ := List.any_eq_true.mp h
    intro hnil
    rw [List.map_eq_nil_iff] at hnil
    rw [hnil] at hm
    cases hm
  · simp

theorem foldl_setMember_ne_nil (checkboxes : Checkboxes) :
    ∀ members : List (String × JSON), members ≠ [] →
      checkboxes.foldl (fun acc cb => JSON.setMember acc cb.1 (JSON.bool cb.2)) members
        ≠ [] := by
  induction checkboxes with
  | nil => intro members h; exact h
  | cons cb rest ih =>
    intro members _
    rw [List.foldl_cons]
    exact ih _ (setMember_ne_nil _ _ _)

theorem assign_ne_nil (members : List (String × JSON)) (key : String) (v : JSON)
    (h : members ≠ []) : JSON.assign members key v ≠ [] := by
  unfold JSON.assign
  split_ifs
  · exact h
  · exact setMember_ne_nil _ _ _

theorem foldl_assign_ne_nil (checkboxes : Checkboxes) :
    ∀ members : List (String × JSON), members ≠ [] →
      checkboxes.foldl (fun acc cb => JSON.assign acc cb.1 (JSON.bool cb.2)) members ≠ [] := by
  induction checkboxes with
  | nil => intro members h; exact h
  | cons cb rest ih =>
    intro members h
    rw [List.foldl_cons]
    exact ih _ (assign_ne_nil _ _ _ h)

/-- The recording loop leaves the empty object empty exactly when every
checkbox has the id `__proto__`. -/
theorem foldl_assign_nil_iff (checkboxes : Checkboxes) :
    checkboxes.foldl (fun acc cb => JSON.assign acc cb.1 (JSON.bool cb.2)) [] = [] ↔
      ∀ cb ∈ checkboxes, cb.1 = "__proto__" := by
  induction checkboxes with
  | nil => simp
  | cons cb rest ih =>
    rw [List.foldl_cons]
    by_cases h : cb.1 = "__proto__"
    · have hstep : JSON.assign [] cb.1 (JSON.bool cb.2) = [] := by
        simp [JSON.assign, h]
      rw [hstep, ih]
      simp [h]
    · have hstep : JSON.assign [] cb.1 (JSON.bool cb.2) ≠ [] := by
        rw [assign_eq_setMember _ _ _ (Or.inl h)]
        exact setMember_ne_nil _ _ _
      constructor
      · intro hnil
        exact absurd hnil (foldl_assign_ne_nil rest _ hstep)
      · intro hall
        exact absurd (hall cb (List.mem_cons_self _ _)) h

end Main

/-- C18, as found: with the stored text `not json` and one checked week
checkbox on the page, `loadProgress` returns without exception, and
`appState.progress` is not the empty map: it holds the entry of the
checkbox. -/
theorem loadProgress_corrupt_text_not_empty :
    JSON.parse "not json" = none ∧
      ∃ p', Main.loadProgress { now := 0, today := 0, quotaExceeded := false }
          { appState := Main.appState
            checkboxes := [("week1", true)]
            localStorage := { items := [("quantumProgress", "not json")] }
            notifications := [] } = Except.ok p' ∧
        p'.appState.progress = JSON.obj [("week1", JSON.bool true)] ∧
        p'.appState.progress ≠ JSON.obj [] :=
  ⟨by decide, _, rfl, by decide, by decide⟩

/-- C18, amended: for a stored progress text that is not empty and not valid
JSON, the `catch` block of `loadProgress` sets `appState.progress` to the
empty map and no exception propagates; the `updateProgress` run that ends
`loadProgress` then records one entry per week checkbox, so at return the
progress is the empty map exactly when the page has no week checkbox, a
checkbox with the id `__proto__`, whose assignment an object ignores, not
counting as one. -/
theorem loadProgress_corrupt_text (env : Main.Env) (p : Main.Page) (saved : String)
    (hsaved : p.localStorage.getItem Main.CONFIG.STORAGE_KEY = some saved)
    (hne : saved ≠ "") (hbad : JSON.parse saved = none) :
    (Main.loadProgress.read p).appState.progress = JSON.obj [] ∧
      ∃ p', Main.loadProgress env p = Except.ok p' ∧
        ((∀ cb ∈ p.checkboxes, cb.1 ≠ "__proto__") →
          p'.appState.progress =
            JSON.mkObject (p.checkboxes.map fun cb => (cb.1, JSON.bool cb.2))) ∧
        ((∀ cb ∈ p.checkboxes, cb.1 ≠ "__proto__") →
          (p'.appState.progress = JSON.obj [] ↔ p.checkboxes = [])) ∧
        (p'.appState.progress = JSON.obj [] ↔ ∀ cb ∈ p.checkboxes, cb.1 = "__proto__") := by
  have hread : Main.loadProgress.read p =
      { p with appState := { p.appState with progress := JSON.obj [] } } := by
    simp only [Main.loadProgress.read, hsaved, hne, ne_eq, not_false_eq_true, if_true, hbad]
  refine ⟨by rw [hread], ?_⟩
  unfold Main.loadProgress Main.applyProgressToUI
  rw [hread]
  simp only [JSON.keys, List.map_nil, Main.applyProgressToUI.check, List.foldl_nil]
  obtain ⟨p', hp', hprog⟩ := Main.updateProgress_of_record env
    { p with appState := { p.appState with progress := JSON.obj [] } } _
    (Main.record_obj p.checkboxes [])
  have hiff : p'.appState.progress = JSON.obj [] ↔ ∀ cb ∈ p.checkboxes, cb.1 = "__proto__" := by
    rw [hprog, ← Main.foldl_assign_nil_iff]
    constructor
    · intro h
      injection h
    · intro h
      rw [h]
  refine ⟨p', hp', ?_, ?_, hiff⟩
  · intro hids
    rw [hprog, Main.foldl_assign_eq_setMember _ hids, JSON.mkObject, List.foldl_map]
  · intro hids
    rw [hiff]
    constructor
    · intro h
      cases hcb : p.checkboxes with
      | nil => rfl
      | cons cb rest =>
        exfalso
        rw [hcb] at h hids
        exact hids cb (List.mem_cons_self _ _) (h cb (List.mem_cons_self _ _))
    · intro h
      rw [h]
      intro cb hcb
      cases hcb

/-- Witness of C18 amended: the text `not json` on a page without week
checkboxes. -/
theorem loadProgress_corrupt_text_witness :
    (Main.loadProgress.read
      { appState := { Main.appState with progress := JSON.ofFlags [("week1", true)] }
        checkboxes := []
        localStorage := { items := [("quantumProgress", "not json")] }
        notifications := [] }).appState.progress = JSON.obj [] :=
  (loadProgress_corrupt_text { now := 0, today := 0, quotaExceeded := false } _ "not json"
    (by decide) (by decide) (by decide)).1

/-- C19, the code at the failing input: for a stored progress text that is not
empty and not valid JSON, `JSON.parse` throws inside `loadData`, which has no
`try`, and the `SyntaxError` reaches the caller. -/
theorem loadData_corrupt_text_throws (now : ℤ) (p : Progress.Page) (savedProgress : String)
    (hsaved : p.localStorage.quantumProgressData = some savedProgress)
    (hne : savedProgress ≠ "") (hbad : JSON.parse savedProgress = none) :
    Progress.loadData now p = Except.error Abort.SyntaxError := by
  have hstep : Progress.loadData.progress p = Except.error Abort.SyntaxError := by
    simp only [Progress.loadData.progress, hsaved, hne, ne_eq, not_false_eq_true, if_true, hbad]
  unfold Progress.loadData
  rw [hstep]

/-- Witness of C19: the stored text `not json`. -/
theorem loadData_corrupt_text_throws_witness :
    Progress.loadData 0
      { tracker := Progress.ProgressTracker.new
        checkboxes := []
        localStorage :=
          { quantumProgressData := some "not json"
            quantumAchievements := none
            quantumStatistics := none } } = Except.error Abort.SyntaxError :=
  loadData_corrupt_text_throws 0 _ "not json" rfl (by decide) (by decide)

/-- C20, as found: stored values that are valid JSON of another shape are
taken over, not replaced by the empty map.  In main.js the stored number `5`
is the progress after `loadProgress`; in progress.js the stored array `[1]`
and the stored object with the string value `yes` are the progress after
`loadData`. -/
theorem load_keeps_malformed_shape :
    (∃ p', Main.loadProgress { now := 0, today := 0, quotaExceeded := false }
        { appState := Main.appState
          checkboxes := [("week1", false)]
          localStorage := { items := [("quantumProgress", "5")] }
          notifications := [] } = Except.ok p' ∧
      p'.appState.progress = JSON.num 5 0 ∧ p'.appState.progress ≠ JSON.obj []) ∧
    (∃ p', Progress.loadData 0
        { tracker := Progress.ProgressTracker.new
          checkboxes := []
          localStorage :=
            { quantumProgressData := some "[1]"
              quantumAchievements := none
              quantumStatistics := none } } = Except.ok p' ∧
      p'.tracker.progress = JSON.arr [JSON.num 1 0] ∧ p'.tracker.progress ≠ JSON.obj []) ∧
    (∃ p', Progress.loadData 0
        { tracker := Progress.ProgressTracker.new
          checkboxes := []
          localStorage :=
            { quantumProgressData := some "\x7b\"week1\":\"yes\"\x7d"
              quantumAchievements := none
              quantumStatistics := none } } = Except.ok p' ∧
      p'.tracker.progress = JSON.obj [("week1", JSON.str "yes")] ∧
      p'.tracker.progress ≠ JSON.obj []) :=
  ⟨⟨_, rfl, by decide, by decide⟩, ⟨_, rfl, by decide, by decide⟩,
    ⟨_, rfl, by decide, by decide⟩⟩

/-- C20, amended: loading checks no shape.  For every stored progress text
that is not empty and is valid JSON, of whatever shape, the value
`JSON.parse` returns becomes the progress: `appState.progress` in
`loadProgress`, and the progress of the tracker at the end of `loadData`. -/
theorem load_takes_any_shape (value : JSON) (saved : String) (hne : saved ≠ "")
    (hparse : JSON.parse saved = some value) :
    (∀ p : Main.Page, p.localStorage.getItem Main.CONFIG.STORAGE_KEY = some saved →
        (Main.loadProgress.read p).appState.progress = value) ∧
      (∀ (now : ℤ) (p : Progress.Page), p.localStorage.quantumProgressData = some saved →
        ∃ p', Progress.loadData now p = Except.ok p' ∧ p'.tracker.progress = value) := by
  constructor
  · intro p hsaved
    simp only [Main.loadProgress.read, hsaved, hne, ne_eq, not_false_eq_true, if_true, hparse]
  · intro now p hsaved
    have hstep : Progress.loadData.progress p = Except.ok value := by
      simp only [Progress.loadData.progress, hsaved, hne, ne_eq, not_false_eq_true, if_true,
        hparse]
    unfold Progress.loadData
    rw [hstep]
    simp only
    split_ifs
    · exact ⟨_, rfl, rfl⟩
    · exact ⟨_, rfl, rfl⟩

/-- Witness of C20 amended: a stored array. -/
theorem load_takes_any_shape_witness :
    (Main.loadProgress.read
      { appState := Main.appState
        checkboxes := []
        localStorage := { items := [("quantumProgress", "[true, 2]")] }
        notifications := [] }).appState.progress =
      JSON.arr [JSON.bool true, JSON.num 2 0] :=
  (load_takes_any_shape (JSON.arr [JSON.bool true, JSON.num 2 0]) "[true, 2]" (by decide)
    (by decide)).1 _ (by decide)

/-! ## Double arithmetic -/

theorem roundHalfEven_eq_of_abs_lt (y : ℚ) (m : ℤ) (h : |y - m| < 1 / 2) :
    roundHalfEven y = m := by
  rw [abs_lt] at h
  obtain ⟨h₁, h₂⟩ := h
  unfold roundHalfEven
  by_cases hy : (m : ℚ) ≤ y
  · have hfloor : ⌊y⌋ = m := by
      rw [Int.floor_eq_iff]
      exact ⟨hy, by linarith⟩
    rw [hfloor, if_pos (by linarith)]
  · have hfloor : ⌊y⌋ = m - 1 := by
      rw [Int.floor_eq_iff]
      push_cast
      exact ⟨by linarith, by linarith⟩
    rw [hfloor]
    push_cast
    rw [if_neg (by linarith), if_pos (by linarith)]
    ring

theorem roundHalfEven_intCast (n : ℤ) : roundHalfEven (n : ℚ) = n :=
  roundHalfEven_eq_of_abs_lt _ n (by simp)

theorem roundHalfEven_abs_sub_le (y : ℚ) : |(roundHalfEven y : ℚ) - y| ≤ 1 / 2 := by
  have h₁ := Int.floor_le y
  have h₂ := Int.lt_floor_add_one y
  unfold roundHalfEven
  split_ifs with ha hb hc
  · rw [abs_le]; constructor <;> linarith
  · push_cast; rw [abs_le]; constructor <;> linarith
  · rw [abs_le]; constructor <;> linarith
  · push_cast; rw [abs_le]; constructor <;> linarith

theorem toDouble_zero : toDouble 0 = 0 := by
  simp [toDouble]

/-- Rounding to a double changes a value by at most `2 ^ (-53)` of it. -/
theorem toDouble_abs_sub_le (x : ℚ) : |toDouble x - x| ≤ |x| / 2 ^ 53 := by
  by_cases hx : x = 0
  · subst hx
    simp [toDouble_zero]
  · have habs : 0 < |x| := abs_pos.mpr hx
    have hlog : (2 : ℚ) ^ Int.log 2 |x| ≤ |x| := Int.zpow_log_le_self (by norm_num) habs
    have hs : (0 : ℚ) < 2 ^ (Int.log 2 |x| - 52) := zpow_pos (by norm_num) _
    have hround := roundHalfEven_abs_sub_le (x / 2 ^ (Int.log 2 |x| - 52))
    have hsplit : (2 : ℚ) ^ Int.log 2 |x| = 2 ^ (Int.log 2 |x| - 52) * 2 ^ (52 : ℕ) := by
      rw [← zpow_natCast, ← zpow_add₀ (by norm_num : (2 : ℚ) ≠ 0)]
      congr 1
      omega
    have hdiff : toDouble x - x =
        ((roundHalfEven (x / 2 ^ (Int.log 2 |x| - 52)) : ℚ) - x / 2 ^ (Int.log 2 |x| - 52)) *
          2 ^ (Int.log 2 |x| - 52) := by
      rw [toDouble, if_neg hx]
      field_simp
    rw [hdiff, abs_mul, abs_of_pos hs]
    have hbound : (2 : ℚ) ^ (Int.log 2 |x| - 52) * 2 ^ (52 : ℕ) ≤ |x| := by
      rw [← hsplit]
      exact hlog
    calc |(roundHalfEven (x / 2 ^ (Int.log 2 |x| - 52)) : ℚ) - x / 2 ^ (Int.log 2 |x| - 52)| *
          2 ^ (Int.log 2 |x| - 52)
        ≤ 1 / 2 * 2 ^ (Int.log 2 |x| - 52) := by
          exact mul_le_mul_of_nonneg_right hround hs.le
      _ = 2 ^ (Int.log 2 |x| - 52) * 2 ^ (52 : ℕ) / 2 ^ 53 := by
          norm_num
          ring
      _ ≤ |x| / 2 ^ 53 := by
          exact div_le_div_of_nonneg_right hbound (by positivity)

theorem toDouble_pos (x : ℚ) (hx : 0 < x) : 0 < toDouble x := by
  have h := toDouble_abs_sub_le x
  rw [abs_of_pos hx, abs_le] at h
  have : x / 2 ^ 53 < x := by
    rw [div_lt_iff₀ (by positivity)]
    nlinarith
  linarith [h.1]

theorem toDouble_neg (x : ℚ) (hx : x < 0) : toDouble x < 0 := by
  have h := toDouble_abs_sub_le x
  rw [abs_of_neg hx, abs_le] at h
  have : -x / 2 ^ 53 < -x := by
    rw [div_lt_iff₀ (by positivity)]
    nlinarith
  linarith [h.2]

/-- A value with a significand of at most 53 bits is a double. -/
theorem toDouble_exact (m k : ℤ) (hm : |m| < 2 ^ 53) :
    toDouble ((m : ℚ) * 2 ^ k) = (m : ℚ) * 2 ^ k := by
  by_cases hm0 : m = 0
  · subst hm0
    simp [toDouble_zero]
  · have h2 : (2 : ℚ) ≠ 0 := by norm_num
    have hx : (m : ℚ) * 2 ^ k ≠ 0 :=
      mul_ne_zero (by exact_mod_cast hm0) (zpow_ne_zero _ h2)
    have habs : 0 < |(m : ℚ) * 2 ^ k| := abs_pos.mpr hx
    have hlt : |(m : ℚ) * 2 ^ k| < (2 : ℚ) ^ (53 + k) := by
      rw [abs_mul, abs_of_pos (zpow_pos (by norm_num : (0 : ℚ) < 2) k), zpow_add₀ h2]
      apply mul_lt_mul_of_pos_right _ (zpow_pos (by norm_num) k)
      rw [← Int.cast_abs]
      exact_mod_cast hm
    have hlog : Int.log 2 |(m : ℚ) * 2 ^ k| < 53 + k :=
      (Int.lt_zpow_iff_log_lt (by norm_num) habs).mp (by exact_mod_cast hlt)
    obtain ⟨n, hn⟩ : ∃ n : ℕ, (n : ℤ) = k - (Int.log 2 |(m : ℚ) * 2 ^ k| - 52) :=
      ⟨(k - (Int.log 2 |(m : ℚ) * 2 ^ k| - 52)).toNat, by omega⟩
    have hquot : (m : ℚ) * 2 ^ k / 2 ^ (Int.log 2 |(m : ℚ) * 2 ^ k| - 52) =
        ((m * 2 ^ n : ℤ) : ℚ) := by
      rw [mul_div_assoc, ← zpow_sub₀ h2, ← hn]
      push_cast
      rw [zpow_natCast]
    rw [toDouble, if_neg hx, hquot, roundHalfEven_intCast]
    push_cast
    rw [mul_assoc, ← zpow_natCast, hn, ← zpow_add₀ h2]
    congr 2
    omega

theorem toDouble_intCast (n : ℤ) (hn : |n| < 2 ^ 53) : toDouble (n : ℚ) = n := by
  have h := toDouble_exact n 0 hn
  simpa using h

/-- The double of a positive value, from its binade and its nearest
significand. -/
theorem toDouble_eq_of_nearest (x : ℚ) (m k : ℤ) (hlo : (2 : ℚ) ^ (k + 52) ≤ x)
    (hhi : x < (2 : ℚ) ^ (k + 53)) (hm : |x / 2 ^ k - m| < 1 / 2) :
    toDouble x = (m : ℚ) * 2 ^ k := by
  have hpos : 0 < x := lt_of_lt_of_le (zpow_pos (by norm_num) _) hlo
  have habs : |x| = x := abs_of_pos hpos
  have hlog : Int.log 2 |x| = k + 52 := by
    rw [habs]
    apply le_antisymm
    · have := (Int.lt_zpow_iff_log_lt (b := 2) (by norm_num) hpos).mp
        (by exact_mod_cast hhi : x < ((2 : ℕ) : ℚ) ^ (k + 53))
      omega
    · exact (Int.zpow_le_iff_le_log (b := 2) (by norm_num) hpos).mp (by exact_mod_cast hlo)
  rw [toDouble, if_neg hpos.ne', hlog]
  have hk : k + 52 - 52 = k := by omega
  rw [hk, roundHalfEven_eq_of_abs_lt _ m hm]

/-- For integers below `2 ^ 53` the floor of the double quotient is the floor
of the exact quotient. -/
theorem floor_toDouble_div (diff D : ℤ) (hD : 0 < D) (hdiff : |diff| < 2 ^ 53) :
    ⌊toDouble ((diff : ℚ) / D)⌋ = diff / D := by
  have hDq : (0 : ℚ) < D := by exact_mod_cast hD
  have hsplit : D * (diff / D) + diff % D = diff := Int.ediv_add_emod diff D
  have hr₀ : 0 ≤ diff % D := Int.emod_nonneg _ hD.ne'
  have hr₁ : diff % D < D := Int.emod_lt_of_pos _ hD
  have hx : (diff : ℚ) / D = ((diff / D : ℤ) : ℚ) + ((diff % D : ℤ) : ℚ) / D := by
    have : (diff : ℚ) = D * ((diff / D : ℤ) : ℚ) + ((diff % D : ℤ) : ℚ) := by
      exact_mod_cast hsplit.symm
    field_simp
    linarith
  by_cases hr : diff % D = 0
  · have hn : |diff / D| < 2 ^ 53 := by
      have hmul : diff = D * (diff / D) := by omega
      have habs : |diff| = D * |diff / D| := by
        conv_lhs => rw [hmul]
        rw [abs_mul, abs_of_pos hD]
      have : |diff / D| ≤ D * |diff / D| := by
        have h0 : 0 ≤ |diff / D| := abs_nonneg _
        nlinarith
      omega
    rw [hx, hr]
    simp only [Int.cast_zero, zero_div, add_zero]
    rw [toDouble_intCast _ hn, Int.floor_intCast]
  · have hr₀' : (1 : ℚ) ≤ ((diff % D : ℤ) : ℚ) := by
      have : 1 ≤ diff % D := by omega
      exact_mod_cast this
    have hr₁' : ((diff % D : ℤ) : ℚ) ≤ (D : ℚ) - 1 := by
      have : diff % D ≤ D - 1 := by omega
      exact_mod_cast this
    have herr := toDouble_abs_sub_le ((diff : ℚ) / D)
    have hsmall : |(diff : ℚ) / D| / 2 ^ 53 < 1 / D := by
      rw [abs_div, abs_of_pos hDq, div_div, div_lt_div_iff₀ (by positivity) hDq]
      have : |(diff : ℚ)| < 2 ^ 53 := by
        rw [← Int.cast_abs]
        exact_mod_cast hdiff
      nlinarith
    rw [abs_le] at herr
    have hfrac₀ : (1 : ℚ) / D ≤ ((diff % D : ℤ) : ℚ) / D :=
      div_le_div_of_nonneg_right hr₀' hDq.le
    have hfrac₁ : ((diff % D : ℤ) : ℚ) / D ≤ 1 - 1 / D := by
      rw [div_le_iff₀ hDq]
      field_simp
      linarith
    rw [Int.floor_eq_iff]
    constructor
    · linarith [herr.1]
    · linarith [herr.2]

/-- C13, as found: with a `startDate` one millisecond after `now`,
`getDaysSinceStart` returns -1, where `max(0, floor(...))` is 0. -/
theorem getDaysSinceStart_negative :
    Progress.getDaysSinceStart 1700000000000
        { Progress.ProgressTracker.new with
          statistics :=
            { Progress.ProgressTracker.new.statistics with
              startDate := some 1700000000001 } }
        = -1 ∧
      max 0 ⌊((1700000000000 - 1700000000001 : ℤ) : ℚ) / 86400000⌋ = 0 := by
  constructor
  · have h := floor_toDouble_div (1700000000000 - 1700000000001) (1000 * 60 * 60 * 24)
      (by norm_num) (by norm_num)
    simp only [Progress.getDaysSinceStart, Math_floor, Double.div]
    rw [h]
    decide
  · have : ⌊((1700000000000 - 1700000000001 : ℤ) : ℚ) / 86400000⌋ = -1 := by
      rw [Int.floor_eq_iff]
      norm_num
    rw [this]
    decide

/-- C13, amended: `getDaysSinceStart` returns `floor((now - startDate) /
86400000)` without a lower bound of 0: the result is 0 when no `startDate` is
set, at least 0 when `startDate` is not later than `now`, and negative when
`startDate` is later than `now`. -/
theorem getDaysSinceStart_floor (now : ℤ) (t : Progress.ProgressTracker) :
    (t.statistics.startDate = none → Progress.getDaysSinceStart now t = 0) ∧
      ∀ start : ℤ, t.statistics.startDate = some start → |now - start| < 2 ^ 53 →
        Progress.getDaysSinceStart now t = ⌊((now - start : ℤ) : ℚ) / 86400000⌋ ∧
          (start ≤ now → 0 ≤ Progress.getDaysSinceStart now t) ∧
          (now < start → Progress.getDaysSinceStart now t < 0) := by
  constructor
  · intro h
    simp only [Progress.getDaysSinceStart, h]
  · intro start h hrange
    have hval : Progress.getDaysSinceStart now t = (now - start) / 86400000 := by
      have h' := floor_toDouble_div (now - start) (1000 * 60 * 60 * 24) (by norm_num) hrange
      simp only [Progress.getDaysSinceStart, h, Math_floor, Double.div]
      rw [h']
      norm_num
    have hfloor : ⌊((now - start : ℤ) : ℚ) / 86400000⌋ = (now - start) / 86400000 := by
      have := Rat.floor_intCast_div_natCast (now - start) 86400000
      simpa using this
    refine ⟨by rw [hval, hfloor], ?_, ?_⟩
    · intro hle
      rw [hval]
      omega
    · intro hlt
      rw [hval]
      omega

/-- Witness of C13 amended: three days and five milliseconds after the
start. -/
theorem getDaysSinceStart_floor_witness :
    Progress.getDaysSinceStart (86400000 * 3 + 6)
        { Progress.ProgressTracker.new with
          statistics := { Progress.ProgressTracker.new.statistics with startDate := some 1 } }
        = 3 := by
  have h := ((getDaysSinceStart_floor (86400000 * 3 + 6)
    { Progress.ProgressTracker.new with
      statistics := { Progress.ProgressTracker.new.statistics with startDate := some 1 } }).2
    1 rfl (by norm_num)).1
  rw [h, Int.floor_eq_iff]
  norm_num

theorem quotient_bounds (a r x y rem u : ℚ) (ha : 0 < a) (hy : 0 ≤ y)
    (hyr : y * r = rem) (hxa : x * a = rem) (hr₁ : (1 - u) * a ≤ r)
    (hr₂ : r ≤ (1 + u) * a) : (1 - u) * y ≤ x ∧ x ≤ (1 + u) * y := by
  constructor
  · apply le_of_mul_le_mul_right _ ha
    have := mul_le_mul_of_nonneg_left hr₁ hy
    linarith
  · apply le_of_mul_le_mul_right _ ha
    have := mul_le_mul_of_nonneg_left hr₂ hy
    linarith

/-- The double quotient `rem / (c / d)` of `updatePredictions` lies within
about `2 ^ (-52)` of the exact value `rem * d / c`, relative to that value. -/
theorem double_quotient_near (rem c d : ℚ) (hrem : 0 ≤ rem) (hc : 0 < c) (hd : 0 < d) :
    (1 - 1 / 2 ^ 53) * Double.div rem (Double.div c d) ≤
        (1 + 1 / 2 ^ 53) * (rem * d / c) ∧
      (1 - 1 / 2 ^ 53) * (rem * d / c) ≤
        (1 + 1 / 2 ^ 53) * Double.div rem (Double.div c d) := by
  have ha : 0 < c / d := div_pos hc hd
  have hr := toDouble_abs_sub_le (c / d)
  rw [abs_of_pos ha, abs_le] at hr
  have hrpos : 0 < toDouble (c / d) := toDouble_pos _ ha
  have hy : 0 ≤ rem / toDouble (c / d) := div_nonneg hrem hrpos.le
  have hq := toDouble_abs_sub_le (rem / toDouble (c / d))
  rw [abs_of_nonneg hy, abs_le] at hq
  have hyr : rem / toDouble (c / d) * toDouble (c / d) = rem := div_mul_cancel₀ _ hrpos.ne'
  have hxa : rem * d / c * (c / d) = rem := by
    field_simp
  obtain ⟨h₁, h₂⟩ := quotient_bounds (c / d) (toDouble (c / d)) (rem * d / c)
    (rem / toDouble (c / d)) rem (1 / 2 ^ 53) ha hy hyr hxa (by linarith [hr.1])
    (by linarith [hr.2])
  unfold Double.div
  constructor
  · have h₃ : toDouble (rem / toDouble (c / d)) ≤
        (1 + 1 / 2 ^ 53) * (rem / toDouble (c / d)) := by linarith [hq.2]
    have := mul_le_mul_of_nonneg_left h₃ (by norm_num : (0 : ℚ) ≤ 1 - 1 / 2 ^ 53)
    have := mul_le_mul_of_nonneg_left h₁ (by norm_num : (0 : ℚ) ≤ 1 + 1 / 2 ^ 53)
    linarith
  · have h₃ : (1 - 1 / 2 ^ 53) * (rem / toDouble (c / d)) ≤
        toDouble (rem / toDouble (c / d)) := by linarith [hq.1]
    have := mul_le_mul_of_nonneg_left h₃ (by norm_num : (0 : ℚ) ≤ 1 + 1 / 2 ^ 53)
    have := mul_le_mul_of_nonneg_left h₂ (by norm_num : (0 : ℚ) ≤ 1 - 1 / 2 ^ 53)
    linarith

/-- For a completed count from 1 to 16 and fewer than `2 ^ 31` days, the double
quotient is within a sixteenth of the exact value. -/
theorem daysToComplete_near (c : ℕ) (d : ℤ) (hc₀ : 0 < c) (hc : c ≤ 16) (hd₀ : 0 < d)
    (hd : d < 2 ^ 31) :
    Progress.updatePredictions.daysToComplete c d =
        Double.div (((16 - c : ℤ)) : ℚ) (Double.div (c : ℚ) (d : ℚ)) ∧
      |Progress.updatePredictions.daysToComplete c d - ((16 - c : ℤ) : ℚ) * d / c| < 1 / 16 := by
  have hcq : (0 : ℚ) < c := by exact_mod_cast hc₀
  have hcq₁ : (1 : ℚ) ≤ c := by exact_mod_cast hc₀
  have hdq : (0 : ℚ) < d := by exact_mod_cast hd₀
  have hdq' : (d : ℚ) < 2 ^ 31 := by exact_mod_cast hd
  have hrem : (0 : ℚ) ≤ ((16 - c : ℤ) : ℚ) := by
    have : (0 : ℤ) ≤ 16 - c := by omega
    exact_mod_cast this
  have hrem' : ((16 - c : ℤ) : ℚ) ≤ 16 := by
    have : (16 - c : ℤ) ≤ 16 := by omega
    exact_mod_cast this
  have havg : Progress.updatePredictions.averageWeeksPerDay c d = Double.div (c : ℚ) (d : ℚ) := by
    rw [Progress.updatePredictions.averageWeeksPerDay, if_pos hd₀]
  have hpos : 0 < Double.div (c : ℚ) (d : ℚ) := toDouble_pos _ (div_pos hcq hdq)
  have hval : Progress.updatePredictions.daysToComplete c d =
      Double.div (((16 - c : ℤ)) : ℚ) (Double.div (c : ℚ) (d : ℚ)) := by
    simp only [Progress.updatePredictions.daysToComplete, havg, hpos, if_true,
      Progress.PROGRESS_CONFIG.TOTAL_WEEKS]
    norm_num
  refine ⟨hval, ?_⟩
  rw [hval]
  obtain ⟨h₁, h₂⟩ := double_quotient_near _ _ _ hrem hcq hdq
  have hx₀ : 0 ≤ ((16 - c : ℤ) : ℚ) * d / c := by positivity
  have hx₁ : ((16 - c : ℤ) : ℚ) * d / c ≤ 2 ^ 35 := by
    rw [div_le_iff₀ hcq]
    nlinarith
  rw [abs_lt]
  constructor
  · norm_num at h₁ h₂ hx₁ ⊢
    linarith
  · norm_num at h₁ h₂ hx₁ ⊢
    linarith

/-- C12, as found: with 8 weeks completed after 49 days the double quotient
`8 / (8 / 49)` is `49 + 2 ^ (-47)`, so `updatePredictions` adds 50 days,
while `ceil((16 - 8) * 49 / 8)` is 49. -/
theorem daysAdded_not_exact_ceiling :
    Progress.updatePredictions.daysAdded 8 49 = 50 ∧
      ⌈((16 - 8 : ℚ) * 49 / 8)⌉ = 49 := by
  have h₁ : toDouble (8 / 49) = 5882252574524729 / 36028797018963968 := by
    have h := toDouble_eq_of_nearest (8 / 49) 5882252574524729 (-55)
      (by norm_num [zpow_neg]) (by norm_num [zpow_neg])
      (by rw [abs_lt]; norm_num [zpow_neg])
    rw [h]
    norm_num [zpow_neg]
  have h₂ : toDouble (288230376151711744 / 5882252574524729) =
      6896136929411073 / 140737488355328 := by
    have h := toDouble_eq_of_nearest (288230376151711744 / 5882252574524729)
      6896136929411073 (-47)
      (by norm_num [zpow_neg]) (by norm_num [zpow_neg])
      (by rw [abs_lt]; norm_num [zpow_neg])
    rw [h]
    norm_num [zpow_neg]
  constructor
  · have havg : Progress.updatePredictions.averageWeeksPerDay 8 49 =
        5882252574524729 / 36028797018963968 := by
      rw [Progress.updatePredictions.averageWeeksPerDay, if_pos (by norm_num), Double.div]
      norm_num only [Nat.cast_ofNat, Int.cast_ofNat]
      rw [h₁]
    have hval : Progress.updatePredictions.daysToComplete 8 49 =
        6896136929411073 / 140737488355328 := by
      rw [Progress.updatePredictions.daysToComplete]
      simp only [havg, Progress.PROGRESS_CONFIG.TOTAL_WEEKS]
      rw [if_pos (by norm_num), Double.div]
      norm_num only [Nat.cast_ofNat, Int.cast_ofNat, Int.cast_sub]
      rw [← h₂]
    rw [Progress.updatePredictions.daysAdded, hval, Math_ceil, Int.ceil_eq_iff]
    norm_num
  · rw [Int.ceil_eq_iff]
    norm_num

/-- The ceiling of a value within a sixteenth of a fraction `N / c` with
`0 < c ≤ 16`. -/
theorem ceil_near_fraction (X q : ℚ) (N c : ℤ) (hc₀ : 0 < c) (hc : c ≤ 16)
    (hX : X * c = N) (hlo : -(1 / 16) < q - X) (hhi : q - X < 1 / 16) :
    ⌈X⌉ ≤ ⌈q⌉ ∧ ⌈q⌉ ≤ ⌈X⌉ + 1 ∧ (¬ c ∣ N → ⌈q⌉ = ⌈X⌉) := by
  have hcq : (0 : ℚ) < c := by exact_mod_cast hc₀
  have hc16 : (c : ℚ) ≤ 16 := by exact_mod_cast hc
  have hceil₁ := Int.le_ceil X
  have hceil₂ := Int.ceil_lt_add_one X
  generalize ⌈X⌉ = n at hceil₁ hceil₂ ⊢
  have hbelow : (n : ℚ) - 1 + 1 / 16 ≤ X := by
    have hlt : (n - 1) * c < N := by
      have : (((n - 1) * c : ℤ) : ℚ) < (N : ℚ) := by
        rw [← hX]
        push_cast
        nlinarith
      exact_mod_cast this
    have hle : (n - 1) * c + 1 ≤ N := by omega
    have hleq : (((n - 1) * c + 1 : ℤ) : ℚ) ≤ (N : ℚ) := by exact_mod_cast hle
    rw [← hX] at hleq
    push_cast at hleq
    nlinarith
  have hlower : n ≤ ⌈q⌉ := by
    have : n - 1 < ⌈q⌉ := by
      rw [Int.lt_ceil]
      push_cast
      linarith
    omega
  refine ⟨hlower, ?_, ?_⟩
  · rw [Int.ceil_le]
    push_cast
    linarith
  · intro hndvd
    have habove : X ≤ (n : ℚ) - 1 / 16 := by
      have hle : N ≤ n * c := by
        have : (N : ℚ) ≤ ((n * c : ℤ) : ℚ) := by
          rw [← hX]
          push_cast
          nlinarith
        exact_mod_cast this
      have hne : N ≠ n * c := by
        intro heq
        exact hndvd ⟨n, by rw [heq]; ring⟩
      have hlt : N + 1 ≤ n * c := by omega
      have hltq : ((N + 1 : ℤ) : ℚ) ≤ ((n * c : ℤ) : ℚ) := by exact_mod_cast hlt
      rw [Int.cast_add, ← hX] at hltq
      push_cast at hltq
      nlinarith
    apply le_antisymm
    · rw [Int.ceil_le]
      linarith
    · exact hlower

/-- C12, amended: the number of days `updatePredictions` adds is `(16 - c) * 7`
when `d ≤ 0` or `c = 0`; otherwise it is the ceiling of the double quotient
`(16 - c) / (c / d)`, which is `ceil((16 - c) * d / c)` when `c` does not
divide `(16 - c) * d` and is that number or one more when it does (for fewer
than `2 ^ 31` days); it is 0 when `c = 16` and `d > 0`. -/
theorem days_added_by_prediction (c : ℕ) (d : ℤ) (hc : c ≤ 16) :
    ((d ≤ 0 ∨ c = 0) → Progress.updatePredictions.daysAdded c d = (16 - (c : ℤ)) * 7) ∧
      (0 < c → 0 < d → d < 2 ^ 31 →
        Progress.updatePredictions.daysAdded c d =
            Math_ceil (Double.div (((16 - c : ℤ)) : ℚ) (Double.div (c : ℚ) (d : ℚ))) ∧
          ⌈((16 - c : ℤ) : ℚ) * d / c⌉ ≤ Progress.updatePredictions.daysAdded c d ∧
          Progress.updatePredictions.daysAdded c d ≤ ⌈((16 - c : ℤ) : ℚ) * d / c⌉ + 1 ∧
          (¬ (c : ℤ) ∣ (16 - c) * d →
            Progress.updatePredictions.daysAdded c d = ⌈((16 - c : ℤ) : ℚ) * d / c⌉)) ∧
      (c = 16 → 0 < d → Progress.updatePredictions.daysAdded c d = 0) := by
  refine ⟨?_, ?_, ?_⟩
  · intro h
    have havg : Progress.updatePredictions.averageWeeksPerDay c d = 0 := by
      rw [Progress.updatePredictions.averageWeeksPerDay]
      rcases h with h | h
      · rw [if_neg (by omega)]
      · subst h
        split_ifs
        · simp [Double.div, toDouble_zero]
        · rfl
    simp only [Progress.updatePredictions.daysAdded, Progress.updatePredictions.daysToComplete,
      havg, lt_self_iff_false, gt_iff_lt, if_false, Math_ceil, Int.ceil_intCast,
      Progress.PROGRESS_CONFIG.TOTAL_WEEKS]
    norm_num
  · intro hc₀ hd₀ hd
    obtain ⟨hval, hnear⟩ := daysToComplete_near c d hc₀ hc hd₀ hd
    rw [abs_lt] at hnear
    have hcq : (0 : ℚ) < c := by exact_mod_cast hc₀
    have hxc : ((16 - c : ℤ) : ℚ) * d / c * ((c : ℤ) : ℚ) = (((16 - c) * d : ℤ) : ℚ) := by
      push_cast
      field_simp
    obtain ⟨h₁, h₂, h₃⟩ := ceil_near_fraction (((16 - c : ℤ) : ℚ) * d / c)
      (Progress.updatePredictions.daysToComplete c d) ((16 - c) * d) (c : ℤ)
      (by exact_mod_cast hc₀) (by exact_mod_cast hc) hxc hnear.1 hnear.2
    refine ⟨by rw [Progress.updatePredictions.daysAdded, hval], h₁, h₂, h₃⟩
  · intro h16 hd₀
    subst h16
    have havg : Progress.updatePredictions.averageWeeksPerDay 16 d =
        Double.div ((16 : ℕ) : ℚ) (d : ℚ) := by
      rw [Progress.updatePredictions.averageWeeksPerDay, if_pos hd₀]
    have hdq : (0 : ℚ) < d := by exact_mod_cast hd₀
    have hpos : 0 < Double.div ((16 : ℕ) : ℚ) (d : ℚ) :=
      toDouble_pos _ (div_pos (by norm_num) hdq)
    simp only [Progress.updatePredictions.daysAdded, Progress.updatePredictions.daysToComplete,
      havg, hpos, if_true, Progress.PROGRESS_CONFIG.TOTAL_WEEKS]
    norm_num [Double.div, toDouble_zero, Math_ceil]

/-- Witness of C12 amended: 3 weeks completed after 7 days, where `13 * 7 / 3`
is no integer and 31 days are added. -/
theorem days_added_by_prediction_witness :
    Progress.updatePredictions.daysAdded 3 7 = 31 := by
  have h := ((days_added_by_prediction 3 7 (by norm_num)).2.1 (by norm_num) (by norm_num)
    (by norm_num)).2.2.2 (by norm_num)
  rw [h, Int.ceil_eq_iff]
  norm_num

/-- The value `actualProgress` is exact: `c / 16 * 100 = 25 * c / 4`. -/
theorem actualProgress_exact (c : ℕ) (hc : c ≤ 16) :
    Progress.updatePredictions.actualProgress c = 25 * (c : ℚ) / 4 := by
  have h₁ : toDouble ((c : ℚ) / 16) = (c : ℚ) / 16 := by
    have h := toDouble_exact (c : ℤ) (-4) (by
      rw [abs_of_nonneg (by positivity)]
      have : (c : ℤ) ≤ 16 := by exact_mod_cast hc
      omega)
    have he : ((c : ℤ) : ℚ) * 2 ^ (-4 : ℤ) = (c : ℚ) / 16 := by
      norm_num [zpow_neg]
      ring
    rw [he] at h
    exact h
  have h₂ : toDouble ((c : ℚ) / 16 * 100) = 25 * (c : ℚ) / 4 := by
    have h := toDouble_exact (25 * (c : ℤ)) (-2) (by
      rw [abs_of_nonneg (by positivity)]
      have : (c : ℤ) ≤ 16 := by exact_mod_cast hc
      omega)
    have he : ((25 * (c : ℤ) : ℤ) : ℚ) * 2 ^ (-2 : ℤ) = (c : ℚ) / 16 * 100 := by
      norm_num [zpow_neg]
      ring
    rw [he] at h
    rw [h]
    ring
  simp only [Progress.updatePredictions.actualProgress, Double.mul, Double.div,
    Progress.PROGRESS_CONFIG.TOTAL_WEEKS]
  norm_num only [Nat.cast_ofNat]
  rw [h₁, h₂]

theorem expectedProgress_sign (d : ℤ) :
    (0 < d → 0 < Progress.updatePredictions.expectedProgress d) ∧
      (d ≤ 0 → Progress.updatePredictions.expectedProgress d ≤ 0) := by
  simp only [Progress.updatePredictions.expectedProgress, Double.mul, Double.div,
    Progress.PROGRESS_CONFIG.TOTAL_WEEKS]
  constructor
  · intro hd
    have hdq : (0 : ℚ) < d := by exact_mod_cast hd
    apply toDouble_pos
    apply mul_pos _ (by norm_num)
    apply toDouble_pos
    apply div_pos hdq
    norm_num
  · intro hd
    rcases lt_or_eq_of_le hd with hlt | heq
    · have hdq : (d : ℚ) < 0 := by exact_mod_cast hlt
      apply le_of_lt
      apply toDouble_neg
      apply mul_neg_of_neg_of_pos _ (by norm_num)
      apply toDouble_neg
      apply div_neg_of_neg_of_pos hdq
      norm_num
    · subst heq
      simp [toDouble_zero]

/-- C14, as found: with a start date in the future (`d = -1`) the expected
progress is negative, not 0, and `actualProgress / expectedProgress * 100` is
negative, yet the efficiency is 0. -/
theorem efficiency_zero_for_negative_days :
    Progress.updatePredictions.expectedProgress (-1) ≠ 0 ∧
      Progress.updatePredictions.efficiencyValue 1 (-1) < 0 ∧
      Progress.updatePredictions.efficiency 1 (-1) = 0 := by
  have hneg : Progress.updatePredictions.expectedProgress (-1) < 0 := by
    simp only [Progress.updatePredictions.expectedProgress, Double.mul, Double.div,
      Progress.PROGRESS_CONFIG.TOTAL_WEEKS]
    apply toDouble_neg
    apply mul_neg_of_neg_of_pos _ (by norm_num)
    apply toDouble_neg
    norm_num
  refine ⟨hneg.ne, ?_, ?_⟩
  · have hact := actualProgress_exact 1 (by norm_num)
    simp only [Progress.updatePredictions.efficiencyValue, Double.mul, Double.div, hact]
    apply toDouble_neg
    apply mul_neg_of_neg_of_pos _ (by norm_num)
    apply toDouble_neg
    apply div_neg_of_pos_of_neg (by norm_num) hneg
  · rw [Progress.updatePredictions.efficiency, if_neg (by linarith)]

/-- For `d > 0` the double `actualProgress / expectedProgress * 100` is within
`2 ^ (-50)` of `700 * c / d`, relative to that value. -/
theorem efficiencyValue_near (c : ℕ) (d : ℤ) (hc : c ≤ 16) (hd : 0 < d) :
    |Progress.updatePredictions.efficiencyValue c d - 700 * (c : ℚ) / d| ≤
      700 * (c : ℚ) / d / 2 ^ 50 := by
  have hdq : (0 : ℚ) < d := by exact_mod_cast hd
  have hcq : (0 : ℚ) ≤ c := by positivity
  have hact := actualProgress_exact c hc
  have hEpos := (expectedProgress_sign d).1 hd
  -- the expected progress, two roundings away from `100 * d / 112`
  have hE₁ := toDouble_abs_sub_le ((d : ℚ) / 112)
  rw [abs_of_pos (show (0 : ℚ) < (d : ℚ) / 112 by positivity), abs_le] at hE₁
  have hE₁pos : 0 < toDouble ((d : ℚ) / 112) := toDouble_pos _ (by positivity)
  have hE₂ := toDouble_abs_sub_le (toDouble ((d : ℚ) / 112) * 100)
  rw [abs_of_pos (mul_pos hE₁pos (by norm_num)), abs_le] at hE₂
  have hE : Progress.updatePredictions.expectedProgress d =
      toDouble (toDouble ((d : ℚ) / 112) * 100) := by
    simp only [Progress.updatePredictions.expectedProgress, Double.mul, Double.div,
      Progress.PROGRESS_CONFIG.TOTAL_WEEKS]
    norm_num
  rw [hE] at hEpos
  have hy : 0 ≤ 25 * (c : ℚ) / 4 / toDouble (toDouble ((d : ℚ) / 112) * 100) :=
    div_nonneg (by positivity) hEpos.le
  obtain ⟨hq₁, hq₂⟩ := quotient_bounds (100 * (d : ℚ) / 112)
    (toDouble (toDouble ((d : ℚ) / 112) * 100)) (25 * (c : ℚ) / 4 / (100 * (d : ℚ) / 112))
    (25 * (c : ℚ) / 4 / toDouble (toDouble ((d : ℚ) / 112) * 100)) (25 * (c : ℚ) / 4)
    (3 / 2 ^ 53) (by positivity) hy (div_mul_cancel₀ _ hEpos.ne')
    (div_mul_cancel₀ _ (by positivity))
    (by norm_num at hE₁ hE₂ ⊢; linarith [hE₁.1, hE₂.1])
    (by norm_num at hE₁ hE₂ ⊢; linarith [hE₁.2, hE₂.2])
  -- the quotient and the product by 100, one rounding each
  have hR₁ := toDouble_abs_sub_le
    (25 * (c : ℚ) / 4 / toDouble (toDouble ((d : ℚ) / 112) * 100))
  rw [abs_of_nonneg hy, abs_le] at hR₁
  have hR₁nn : 0 ≤ toDouble (25 * (c : ℚ) / 4 / toDouble (toDouble ((d : ℚ) / 112) * 100)) := by
    have : 25 * (c : ℚ) / 4 / toDouble (toDouble ((d : ℚ) / 112) * 100) / 2 ^ 53 ≤
        25 * (c : ℚ) / 4 / toDouble (toDouble ((d : ℚ) / 112) * 100) := by
      apply div_le_self hy
      norm_num
    linarith [hR₁.1]
  have hR₂ := toDouble_abs_sub_le
    (toDouble (25 * (c : ℚ) / 4 / toDouble (toDouble ((d : ℚ) / 112) * 100)) * 100)
  rw [abs_of_nonneg (mul_nonneg hR₁nn (by norm_num)), abs_le] at hR₂
  have hval : Progress.updatePredictions.efficiencyValue c d =
      toDouble (toDouble (25 * (c : ℚ) / 4 / toDouble (toDouble ((d : ℚ) / 112) * 100)) * 100) := by
    simp only [Progress.updatePredictions.efficiencyValue, Double.mul, Double.div, hact, hE]
  have hX : 25 * (c : ℚ) / 4 / (100 * (d : ℚ) / 112) * 100 = 700 * (c : ℚ) / d := by
    field_simp
    ring
  have hXnn : 0 ≤ 700 * (c : ℚ) / d := by positivity
  rw [hval, ← hX] at *
  rw [abs_le]
  constructor
  · norm_num at hq₁ hq₂ hR₁ hR₂ hXnn ⊢
    linarith [hR₁.1, hR₁.2, hR₂.1, hR₂.2]
  · norm_num at hq₁ hq₂ hR₁ hR₂ hXnn ⊢
    linarith [hR₁.1, hR₁.2, hR₂.1, hR₂.2]

/-- C14, amended: for a completed count up to 16 the efficiency is 0 when the
expected progress is not positive, that is for `d ≤ 0`; for `d > 0` the
expected progress is positive, so no division is by zero, and the efficiency
is `actualProgress / expectedProgress * 100` in double arithmetic shown to one
decimal, where `actualProgress` is exactly `c / 16 * 100` and the quotient is
`700 * c / d` up to a relative rounding error of `2 ^ (-50)`. -/
theorem efficiency_guarded (c : ℕ) (d : ℤ) (hc : c ≤ 16) :
    (d ≤ 0 → Progress.updatePredictions.expectedProgress d ≤ 0 ∧
        Progress.updatePredictions.efficiency c d = 0) ∧
      (0 < d → 0 < Progress.updatePredictions.expectedProgress d ∧
        Progress.updatePredictions.efficiency c d =
          toFixed1 (Progress.updatePredictions.efficiencyValue c d) ∧
        Progress.updatePredictions.actualProgress c = (c : ℚ) / 16 * 100 ∧
        |Progress.updatePredictions.efficiencyValue c d - 700 * (c : ℚ) / d| ≤
          700 * (c : ℚ) / d / 2 ^ 50) := by
  constructor
  · intro hd
    have h := (expectedProgress_sign d).2 hd
    exact ⟨h, by rw [Progress.updatePredictions.efficiency, if_neg (by linarith)]⟩
  · intro hd
    have h := (expectedProgress_sign d).1 hd
    refine ⟨h, by rw [Progress.updatePredictions.efficiency, if_pos h], ?_,
      efficiencyValue_near c d hc hd⟩
    rw [actualProgress_exact c hc]
    ring

/-- Witness of C14 amended: 4 weeks completed, evaluated on the day of the
start (`d = 0`). -/
theorem efficiency_guarded_witness : Progress.updatePredictions.efficiency 4 0 = 0 :=
  ((efficiency_guarded 4 0 (by norm_num)).1 (by norm_num)).2

/-! ## The whole of `loadProgress` on a saved progress map -/

namespace Main

theorem setChecked_eq_map (checkboxes : Checkboxes) (id : String) (value : Bool)
    (hnd : (checkboxes.map fun cb => cb.1).Nodup) :
    setChecked checkboxes id value =
      checkboxes.map fun cb => if cb.1 = id then (cb.1, value) else cb := by
  induction checkboxes with
  | nil => rfl
  | cons cb rest ih =>
    rw [List.map_cons, List.nodup_cons] at hnd
    rw [setChecked]
    by_cases h : cb.1 = id
    · rw [if_pos h, List.map_cons, if_pos h]
      congr 1
      have hrest : ∀ cb' ∈ rest, (if cb'.1 = id then (cb'.1, value) else cb') = cb' := by
        intro cb' hcb'
        rw [if_neg]
        intro h'
        exact hnd.1 (by rw [h, ← h']; exact List.mem_map_of_mem (fun cb => cb.1) hcb')
      conv_lhs => rw [← List.map_id rest]
      exact List.map_congr_left fun cb' hcb' => (hrest cb' hcb').symm
    · rw [if_neg h, List.map_cons, if_neg h, ih hnd.2]

/-- The loop of `applyProgressToUI` gives every checkbox whose id is a key, and
not empty, the value under that key. -/
theorem check_eq_map (progress : JSON) (ids : List String) :
    ∀ checkboxes : Checkboxes, (checkboxes.map fun cb => cb.1).Nodup →
      applyProgressToUI.check progress ids checkboxes =
        checkboxes.map fun cb =>
          if cb.1 ∈ ids ∧ cb.1 ≠ "" then (cb.1, JSON.truthy (JSON.get progress cb.1))
          else cb := by
  induction ids with
  | nil =>
    intro checkboxes _
    simp [applyProgressToUI.check]
  | cons id ids ih =>
    intro checkboxes hnd
    have hstep : (match getElementById checkboxes id with
        | some _ => setChecked checkboxes id (JSON.truthy (JSON.get progress id))
        | none => checkboxes) =
        checkboxes.map fun cb =>
          if cb.1 = id ∧ cb.1 ≠ "" then (cb.1, JSON.truthy (JSON.get progress id))
          else cb := by
      cases hget : getElementById checkboxes id with
      | some b =>
        have hid : id ≠ "" := by
          intro hid
          rw [getElementById, if_pos hid] at hget
          cases hget
        simp only
        rw [setChecked_eq_map _ _ _ hnd]
        apply List.map_congr_left
        intro cb _
        by_cases h : cb.1 = id
        · rw [if_pos h, if_pos ⟨h, by rw [h]; exact hid⟩]
        · rw [if_neg h, if_neg (fun h' => h h'.1)]
      | none =>
        simp only
        have hnone : ∀ cb ∈ checkboxes, ¬ (cb.1 = id ∧ cb.1 ≠ "") := by
          rintro cb hcb ⟨h, hne⟩
          have hid : ¬ id = "" := by rw [← h]; exact hne
          rw [getElementById, if_neg hid] at hget
          cases hfind : checkboxes.find? (fun cb => decide (cb.1 = id)) with
          | some cb' => rw [hfind] at hget; cases hget
          | none =>
            rw [List.find?_eq_none] at hfind
            exact hfind cb hcb (by simpa using h)
        conv_lhs => rw [← List.map_id checkboxes]
        exact List.map_congr_left fun cb hcb => by rw [if_neg (hnone cb hcb)]; rfl
    have hids : ((checkboxes.map fun cb =>
        if cb.1 = id ∧ cb.1 ≠ "" then (cb.1, JSON.truthy (JSON.get progress id)) else cb).map
        fun cb => cb.1) = checkboxes.map fun cb => cb.1 := by
      rw [List.map_map]
      apply List.map_congr_left
      intro cb _
      simp only [Function.comp]
      split_ifs <;> rfl
    unfold applyProgressToUI.check at ih ⊢
    rw [List.foldl_cons, hstep, ih _ (by rw [hids]; exact hnd), List.map_map]
    apply List.map_congr_left
    intro cb _
    simp only [Function.comp, List.mem_cons]
    by_cases h₀ : cb.1 = ""
    · simp [h₀]
    · by_cases h₁ : cb.1 = id
      · subst h₁
        simp [h₀]
      · by_cases h₂ : cb.1 ∈ ids
        · simp [h₀, h₁, h₂]
        · simp [h₀, h₁, h₂]

theorem setMember_of_mem (members : List (String × JSON)) (key : String) (v : JSON)
    (hnd : (members.map fun m => m.1).Nodup) (hmem : (key, v) ∈ members) :
    JSON.setMember members key v = members := by
  have hany : members.any (fun m => decide (m.1 = key)) = true :=
    List.any_eq_true.mpr ⟨(key, v), hmem, by simp⟩
  rw [JSON.setMember, if_pos hany]
  conv_rhs => rw [← List.map_id members]
  apply List.map_congr_left
  intro m hm
  split_ifs with h
  · -- the member with this key is `(key, v)`
    have := List.inj_on_of_nodup_map hnd hm hmem (by simpa using h)
    rw [this]
    rfl
  · rfl

theorem foldl_setMember_of_mem (members : List (String × JSON))
    (hnd : (members.map fun m => m.1).Nodup) (checkboxes : Checkboxes)
    (h : ∀ cb ∈ checkboxes, (cb.1, JSON.bool cb.2) ∈ members) :
    checkboxes.foldl (fun acc cb => JSON.setMember acc cb.1 (JSON.bool cb.2)) members =
      members := by
  induction checkboxes with
  | nil => rfl
  | cons cb rest ih =>
    rw [List.foldl_cons, setMember_of_mem members _ _ hnd (h cb (List.mem_cons_self _ _))]
    exact ih fun cb' hcb' => h cb' (List.mem_cons_of_mem _ hcb')

theorem foldl_assign_of_mem (members : List (String × JSON))
    (hnd : (members.map fun m => m.1).Nodup) (checkboxes : Checkboxes)
    (h : ∀ cb ∈ checkboxes, (cb.1, JSON.bool cb.2) ∈ members) :
    checkboxes.foldl (fun acc cb => JSON.assign acc cb.1 (JSON.bool cb.2)) members =
      members := by
  induction checkboxes with
  | nil => rfl
  | cons cb rest ih =>
    have hmem := h cb (List.mem_cons_self _ _)
    have hany : members.any (fun m => decide (m.1 = cb.1)) = true :=
      List.any_eq_true.mpr ⟨(cb.1, JSON.bool cb.2), hmem, by simp⟩
    rw [List.foldl_cons, assign_eq_setMember _ _ _ (Or.inr hany),
      setMember_of_mem members _ _ hnd hmem]
    exact ih fun cb' hcb' => h cb' (List.mem_cons_of_mem _ hcb')

/-- The value under a key of a map of flags, as a member. -/
theorem ofFlags_member (m : List (String × Bool)) (key : String)
    (hkey : key ∈ m.map fun kv => kv.1) :
    (key, JSON.bool (JSON.truthy (JSON.get (JSON.ofFlags m) key))) ∈
      m.map fun kv => (kv.1, JSON.bool kv.2) := by
  induction m with
  | nil => cases hkey
  | cons kv m ih =>
    by_cases h : kv.1 = key
    · have hget : JSON.get (JSON.ofFlags (kv :: m)) key = some (JSON.bool kv.2) := by
        simp [JSON.ofFlags, JSON.get, List.find?, h]
      rw [hget, JSON.truthy, ← h]
      exact List.mem_cons_self _ _
    · have hkey' : key ∈ m.map fun kv => kv.1 := by
        rcases List.mem_cons.mp hkey with h' | h'
        · exact absurd h'.symm h
        · exact h'
      have hget : JSON.get (JSON.ofFlags (kv :: m)) key = JSON.get (JSON.ofFlags m) key := by
        simp [JSON.ofFlags, JSON.get, List.find?, h]
      rw [hget]
      exact List.mem_cons_of_mem _ (ih hkey')

/-- On a page whose week checkboxes have distinct ids, none empty, that are all
keys of the map, `applyProgressToUI` ends with the map of flags it started
from. -/
theorem applyProgressToUI_ofFlags (env : Env) (p : Page) (m : List (String × Bool))
    (hm : (m.map fun kv => kv.1).Nodup) (hp : p.appState.progress = JSON.ofFlags m)
    (hnd : (p.checkboxes.map fun cb => cb.1).Nodup)
    (hkeys : ∀ cb ∈ p.checkboxes, cb.1 ∈ m.map fun kv => kv.1)
    (hids : ∀ cb ∈ p.checkboxes, cb.1 ≠ "") :
    ∃ p', applyProgressToUI env p = Except.ok p' ∧ p'.appState.progress = JSON.ofFlags m := by
  have hkeysJ : JSON.keys (JSON.ofFlags m) = some (m.map fun kv => kv.1) := by
    simp [JSON.ofFlags, JSON.keys, List.map_map, Function.comp]
  have hmnd : ((m.map fun kv => (kv.1, JSON.bool kv.2)).map fun m => m.1).Nodup := by
    simpa [List.map_map, Function.comp] using hm
  unfold applyProgressToUI
  rw [hp, hkeysJ]
  simp only
  rw [check_eq_map _ _ _ hnd]
  apply updateProgress_of_record
  simp only [hp]
  rw [JSON.ofFlags, record_obj]
  congr 2
  apply foldl_assign_of_mem _ hmnd
  intro cb hcb
  obtain ⟨cb₀, hcb₀, rfl⟩ := List.mem_map.mp hcb
  rw [if_pos ⟨hkeys cb₀ hcb₀, hids cb₀ hcb₀⟩]
  exact ofFlags_member m cb₀.1 (hkeys cb₀ hcb₀)

end Main

/-! ## Round trip of the progress map -/

/-- C17: round trip of the progress map.  For a map from week ids to booleans
(distinct keys) the text `JSON.stringify` writes is read back by `JSON.parse`
as the same map; `loadData` after `saveData` ends with it as the progress of
the tracker, and in `loadProgress` after a `saveProgress` whose write
succeeded the value `JSON.parse` assigns to `appState.progress` is that
map; it is still the progress when `loadProgress` returns, on a page whose
week checkboxes have distinct ids, none empty, that are keys of the map. -/
theorem progress_map_round_trip (m : List (String × Bool))
    (hm : (m.map fun kv => kv.1).Nodup) :
    JSON.parse (JSON.stringify (JSON.ofFlags m)) = some (JSON.ofFlags m) ∧
      (∀ (now : ℤ) (p : Progress.Page) (t₀ : Progress.ProgressTracker),
        p.tracker.progress = JSON.ofFlags m →
          ∃ p', Progress.loadData now { Progress.saveData p with tracker := t₀ } =
              Except.ok p' ∧
            p'.tracker.progress = JSON.ofFlags m) ∧
      (∀ (env : Main.Env) (p : Main.Page) (s₀ : Main.AppState),
        env.quotaExceeded = false → p.appState.progress = JSON.ofFlags m →
          (Main.loadProgress.read
            { Main.saveProgress env p with appState := s₀ }).appState.progress =
            JSON.ofFlags m) ∧
      (∀ (env env' : Main.Env) (p : Main.Page) (s₀ : Main.AppState),
        env.quotaExceeded = false → p.appState.progress = JSON.ofFlags m →
          (p.checkboxes.map fun cb => cb.1).Nodup →
          (∀ cb ∈ p.checkboxes, cb.1 ∈ m.map fun kv => kv.1) →
          (∀ cb ∈ p.checkboxes, cb.1 ≠ "") →
          ∃ p', Main.loadProgress env'
              { Main.saveProgress env p with appState := s₀ } = Except.ok p' ∧
            p'.appState.progress = JSON.ofFlags m) := by
  have hparse := JSON.parse_stringify_ofFlags m hm
  have hne := JSON.stringify_ofFlags_ne_empty m
  have hread : ∀ (env : Main.Env) (p : Main.Page) (s₀ : Main.AppState),
      env.quotaExceeded = false → p.appState.progress = JSON.ofFlags m →
        Main.loadProgress.read { Main.saveProgress env p with appState := s₀ } =
          { Main.saveProgress env p with
            appState := { s₀ with progress := JSON.ofFlags m } } := by
    intro env p s₀ henv hp
    simp only [Main.loadProgress.read, Main.saveProgress, henv, Bool.false_eq_true, if_false,
      getItem_setItem, hp, hne, ne_eq, not_false_eq_true, if_true, hparse]
  refine ⟨hparse, ?_, ?_, ?_⟩
  · intro now p t₀ hp
    have hstep : Progress.loadData.progress { Progress.saveData p with tracker := t₀ } =
        Except.ok (JSON.ofFlags m) := by
      simp only [Progress.loadData.progress, Progress.saveData, Progress.saveStatistics, hp,
        hne, ne_eq, not_false_eq_true, if_true, hparse]
    unfold Progress.loadData
    rw [hstep]
    simp only
    split_ifs
    · exact ⟨_, rfl, rfl⟩
    · exact ⟨_, rfl, rfl⟩
  · intro env p s₀ henv hp
    rw [hread env p s₀ henv hp]
  · intro env env' p s₀ henv hp hnd hkeys hids
    unfold Main.loadProgress
    rw [hread env p s₀ henv hp]
    apply Main.applyProgressToUI_ofFlags env' _ m hm rfl
    · simpa [Main.saveProgress, henv] using hnd
    · simpa [Main.saveProgress, henv] using hkeys
    · simpa [Main.saveProgress, henv] using hids

/-- Witness of C17: a progress map with three weeks. -/
theorem progress_map_round_trip_witness :
    JSON.parse "\x7b\"week1\":true,\"week2\":false,\"week10\":true\x7d" =
      some (JSON.ofFlags [("week1", true), ("week2", false), ("week10", true)]) :=
  (progress_map_round_trip [("week1", true), ("week2", false), ("week10", true)]
    (by decide)).1

/-! ## Claims on the start date, the failed write and the streak of `main.js` -/

namespace Progress

/-- The statistics `loadData` works on: the stored ones, else those of the
tracker. -/
theorem loadData_startDate (now : ℤ) (p : Page) (progress : JSON)
    (hprogress : loadData.progress p = Except.ok progress) :
    ∃ p', loadData now p = Except.ok p' ∧
      p'.tracker.statistics.startDate =
        match (match p.localStorage.quantumStatistics with
            | some savedStats => savedStats
            | none => p.tracker.statistics).startDate with
        | some start => some start
        | none => some now := by
  unfold loadData
  rw [hprogress]
  simp only
  cases hst : (match p.localStorage.quantumStatistics with
      | some savedStats => savedStats
      | none => p.tracker.statistics).startDate with
  | none =>
    rw [if_pos rfl]
    exact ⟨_, rfl, rfl⟩
  | some start =>
    rw [if_neg (by simp)]
    exact ⟨_, rfl, hst⟩

end Progress

/-- C24: when the storage write inside `saveProgress` fails, `saveProgress`
returns normally, reports the error notification, and leaves `appState`
(with `progress` and `lastUpdate`) and the storage as they were. -/
theorem saveProgress_write_failure (env : Main.Env) (p : Main.Page)
    (hfail : env.quotaExceeded = true) :
    (Main.saveProgress env p).appState = p.appState ∧
      (Main.saveProgress env p).appState.progress = p.appState.progress ∧
      (Main.saveProgress env p).appState.lastUpdate = p.appState.lastUpdate ∧
      (Main.saveProgress env p).localStorage = p.localStorage ∧
      (Main.saveProgress env p).notifications =
        p.notifications ++ [("Error al guardar progreso", "error")] := by
  simp only [Main.saveProgress, hfail, if_true, and_self]

/-- Witness of C24: a failed write on the initial page. -/
theorem saveProgress_write_failure_witness :
    (Main.saveProgress { now := 5, today := 0, quotaExceeded := true }
      { appState := Main.appState
        checkboxes := []
        localStorage := { items := [] }
        notifications := [] }).notifications = [("Error al guardar progreso", "error")] :=
  (saveProgress_write_failure _ _ rfl).2.2.2.2

/-- C26, the code at the failing input: whenever `lastActivity` is a day other
than today, also two or more days back, `calculateStreak` returns the
previous streak plus 1; for `lastActivity` equal to today it returns the
streak unchanged. -/
theorem calculateStreak_continues_after_gap (today lastDay streak : ℤ) (s : Main.AppState)
    (hlast : s.lastActivity = some lastDay) (hstreak : s.streak = some streak) :
    (lastDay + 2 ≤ today → Main.calculateStreak.value today s = streak + 1) ∧
      (lastDay = today → Main.calculateStreak.value today s = streak ∧
        Main.calculateStreak today s = s) := by
  constructor
  · intro hgap
    have hne : ¬ lastDay = today := by omega
    simp [Main.calculateStreak.value, Main.calculateStreak, hlast, hstreak, hne]
  · intro heq
    simp [Main.calculateStreak.value, Main.calculateStreak, hlast, hstreak, heq]

/-- Witness of C26: a streak of 5 last counted on day 10, evaluated on day 14,
becomes 6. -/
theorem calculateStreak_continues_after_gap_witness :
    Main.calculateStreak.value 14
      { Main.appState with streak := some 5, lastActivity := some 10 } = 6 :=
  (calculateStreak_continues_after_gap 14 10 5 _ rfl rfl).1 (by decide)

/-! ## Claims on the levels and on the `perfectionist` entry -/

namespace Progress

theorem pointsOf_eq_zero (id : String) (h : id ∉ ACHIEVEMENTS.map fun a => a.id) :
    pointsOf id = 0 := by
  unfold pointsOf
  rw [List.filter_eq_nil_iff.mpr]
  · rfl
  · intro a ha
    simp only [decide_eq_true_eq]
    intro haid
    exact h (by rw [← haid]; exact List.mem_map_of_mem (fun a => a.id) ha)

theorem sum_pointsOf_filter (ids : List String) :
    (ids.map pointsOf).sum =
      ((ids.filter fun id => decide (id ∈ ACHIEVEMENTS.map fun a => a.id)).map pointsOf).sum := by
  induction ids with
  | nil => rfl
  | cons id ids ih =>
    by_cases h : id ∈ ACHIEVEMENTS.map fun a => a.id
    · rw [List.filter_cons_of_pos (by simpa using h), List.map_cons, List.map_cons,
        List.sum_cons, List.sum_cons, ih]
    · rw [List.filter_cons_of_neg (by simpa using h), List.map_cons, List.sum_cons,
        pointsOf_eq_zero id h, Nat.zero_add, ih]

theorem sum_pointsOf_subperm (l₁ l₂ : List String) (h : l₁.Subperm l₂) :
    (l₁.map pointsOf).sum ≤ (l₂.map pointsOf).sum := by
  obtain ⟨l, hperm, hsub⟩ := h
  rw [← (hperm.map pointsOf).sum_eq]
  exact (hsub.map pointsOf).sum_le_sum fun a _ => Nat.zero_le a

theorem sum_pointsOf_catalog : ((ACHIEVEMENTS.map fun a => a.id).map pointsOf).sum = 450 := by
  decide

theorem sum_pointsOf_le (ids : List String) (hnd : ids.Nodup) :
    (ids.map pointsOf).sum ≤ 450 := by
  rw [sum_pointsOf_filter, ← sum_pointsOf_catalog]
  apply sum_pointsOf_subperm
  apply List.subperm_of_subset (hnd.filter _)
  intro id hid
  simpa using (List.mem_filter.mp hid).2

theorem getPlayerLevel_le (points : ℕ) (h : points ≤ 450) :
    getPlayerLevel points ≠ "Nivel Diamante" := by
  unfold getPlayerLevel
  rw [if_neg (by omega)]
  split_ifs <;> decide

theorem percentage_values (c : ℕ) (hc : c ≤ 16) :
    updateStatistics.percentage c =
      [0, 6, 13, 19, 25, 31, 38, 44, 50, 56, 63, 69, 75, 81, 88, 94, 100].getD c 0 := by
  unfold updateStatistics.percentage
  interval_cases c <;>
    simp only [List.getD_cons_zero, List.getD_cons_succ, Math_round_eq_iff] <;>
    norm_num [PROGRESS_CONFIG.TOTAL_WEEKS]

end Progress

namespace Progress

theorem getProgressLevel_percentage (c : ℕ) (hc : c ≤ 16) :
    getProgressLevel (updateStatistics.percentage c) =
      if c ≤ 3 then "Principiante"
      else if c ≤ 7 then "Intermedio"
      else if c ≤ 11 then "Avanzado"
      else if c ≤ 15 then "Experto"
      else "Maestro Cuántico" := by
  rw [percentage_values c hc]
  interval_cases c <;> decide

end Progress

/-- C27: with an unlock list without repetition, as `unlockAchievement` keeps
it, the total of `calculateTotalPoints` and of `updateTotalPoints` is at most
450, the sum of the points of the nine catalog entries, so `getPlayerLevel`
never answers "Nivel Diamante"; with every catalog id unlocked the total is
450 and the level is "Nivel Platino". -/
theorem diamond_out_of_reach (t : Progress.ProgressTracker) (hnd : t.achievements.Nodup) :
    Progress.calculateTotalPoints t ≤ 450 ∧
      (Progress.updateTotalPoints t).1 ≤ 450 ∧
      Progress.getPlayerLevel (Progress.calculateTotalPoints t) ≠ "Nivel Diamante" ∧
      (Progress.updateTotalPoints t).2 ≠ "Nivel Diamante" ∧
      (Progress.ACHIEVEMENTS.map fun a => a.points).sum = 450 ∧
      Progress.ACHIEVEMENTS.length = 9 ∧
      ((∀ a ∈ Progress.ACHIEVEMENTS, a.id ∈ t.achievements) →
        Progress.calculateTotalPoints t = 450 ∧
          Progress.getPlayerLevel (Progress.calculateTotalPoints t) = "Nivel Platino") := by
  have htotal : Progress.calculateTotalPoints t = (t.achievements.map Progress.pointsOf).sum := by
    unfold Progress.calculateTotalPoints
    rw [Progress.foldl_pointsReducer, Nat.zero_add]
  have hle : Progress.calculateTotalPoints t ≤ 450 := by
    rw [htotal]
    exact Progress.sum_pointsOf_le _ hnd
  refine ⟨hle, hle, Progress.getPlayerLevel_le _ hle, Progress.getPlayerLevel_le _ hle,
    by decide, rfl, ?_⟩
  intro hall
  have hge : 450 ≤ Progress.calculateTotalPoints t := by
    rw [htotal, ← Progress.sum_pointsOf_catalog]
    apply Progress.sum_pointsOf_subperm
    apply List.subperm_of_subset Progress.ACHIEVEMENTS_nodup
    intro id hid
    obtain ⟨a, ha, rfl⟩ := List.mem_map.mp hid
    exact hall a ha
  have heq : Progress.calculateTotalPoints t = 450 := le_antisymm hle hge
  rw [heq]
  exact ⟨rfl, by decide⟩

/-- Witness of C27: the tracker with all nine ids unlocked has 450 points and
the level "Nivel Platino". -/
theorem diamond_out_of_reach_witness :
    Progress.calculateTotalPoints
        { Progress.ProgressTracker.new with
          achievements := Progress.ACHIEVEMENTS.map fun a => a.id } = 450 ∧
      Progress.getPlayerLevel (Progress.calculateTotalPoints
        { Progress.ProgressTracker.new with
          achievements := Progress.ACHIEVEMENTS.map fun a => a.id }) = "Nivel Platino" :=
  (diamond_out_of_reach
    { Progress.ProgressTracker.new with
      achievements := Progress.ACHIEVEMENTS.map fun a => a.id }
    Progress.ACHIEVEMENTS_nodup).2.2.2.2.2.2
    fun _ ha => List.mem_map_of_mem (fun a => a.id) ha

/-- C28: for a completed count `c` from 0 to 16 the level name that
`getProgressLevel` gives for `Math.round(c / 16 * 100)` is "Principiante" for
0 to 3, "Intermedio" for 4 to 7, "Avanzado" for 8 to 11, "Experto" for 12 to 15
and "Maestro Cuántico" for 16; the percentage and the level never go down
when `c` goes up. -/
theorem progress_level_by_count (c : ℕ) (hc : c ≤ 16) :
    Progress.getProgressLevel (Progress.updateStatistics.percentage c) =
        (if c ≤ 3 then "Principiante"
        else if c ≤ 7 then "Intermedio"
        else if c ≤ 11 then "Avanzado"
        else if c ≤ 15 then "Experto"
        else "Maestro Cuántico") ∧
      ∀ c' : ℕ, c ≤ c' → c' ≤ 16 →
        Progress.updateStatistics.percentage c ≤ Progress.updateStatistics.percentage c' ∧
          List.indexOf (Progress.getProgressLevel (Progress.updateStatistics.percentage c))
              ["Principiante", "Intermedio", "Avanzado", "Experto", "Maestro Cuántico"] ≤
            List.indexOf (Progress.getProgressLevel (Progress.updateStatistics.percentage c'))
              ["Principiante", "Intermedio", "Avanzado", "Experto", "Maestro Cuántico"] := by
  refine ⟨Progress.getProgressLevel_percentage c hc, ?_⟩
  intro c' hcc hc'
  constructor
  · unfold Progress.updateStatistics.percentage Math_round
    apply Int.floor_le_floor
    have h : (c : ℚ) ≤ (c' : ℚ) := by exact_mod_cast hcc
    have h16 : (0 : ℚ) < (Progress.PROGRESS_CONFIG.TOTAL_WEEKS : ℚ) := by
      norm_num [Progress.PROGRESS_CONFIG.TOTAL_WEEKS]
    gcongr
  · rw [Progress.getProgressLevel_percentage c hc, Progress.getProgressLevel_percentage c' hc']
    split_ifs <;> first | omega | decide

/-- Witness of C28: three completed weeks round to 19 percent and stay in the
first level. -/
theorem progress_level_by_count_witness :
    Progress.getProgressLevel (Progress.updateStatistics.percentage 3) = "Principiante" :=
  (progress_level_by_count 3 (by decide)).1

/-! ## The progress map after `updateProgress` -/

namespace Main

/-- After `value[key] = v` on an object, `value[key]` is `v`. -/
theorem get_setMember_self (members : List (String × JSON)) (key : String) (v : JSON) :
    JSON.get (JSON.obj (JSON.setMember members key v)) key = some v := by
  have hfind : (JSON.setMember members key v).find? (fun m => decide (m.1 = key)) =
      some (key, v) := by
    unfold JSON.setMember
    split_ifs with hany
    · induction members with
      | nil => simp at hany
      | cons m members ih =>
        by_cases h : m.1 = key
        · simp [List.find?, h]
        · have hany' : members.any (fun m => decide (m.1 = key)) = true := by
            simpa [List.any_cons, h] using hany
          simpa [List.find?, h] using ih hany'
    · have hnone : members.find? (fun m => decide (m.1 = key)) = none := by
        rw [List.find?_eq_none]
        intro m hm hkey
        exact hany (List.any_eq_true.mpr ⟨m, hm, hkey⟩)
      simp [List.find?_append, hnone, List.find?]
  simp only [JSON.get, hfind]

/-- After `value[key] = v` on an object, the other properties are as before. -/
theorem get_setMember_other (members : List (String × JSON)) (key other : String) (v : JSON)
    (hne : other ≠ key) :
    JSON.get (JSON.obj (JSON.setMember members key v)) other =
      JSON.get (JSON.obj members) other := by
  have hne' : ¬ key = other := fun h => hne h.symm
  have hfind : (JSON.setMember members key v).find? (fun m => decide (m.1 = other)) =
      members.find? (fun m => decide (m.1 = other)) := by
    unfold JSON.setMember
    split_ifs with hany
    · clear hany
      induction members with
      | nil => rfl
      | cons m members ih =>
        by_cases h : m.1 = key
        · have h' : ¬ m.1 = other := by rw [h]; exact hne'
          simpa [List.find?, h, h', hne'] using ih
        · by_cases h' : m.1 = other
          · rw [List.map_cons, if_neg h, List.find?_cons_of_pos _ (by simpa using h'),
              List.find?_cons_of_pos _ (by simpa using h')]
          · simpa [List.find?, h, h'] using ih
    · rw [List.find?_append]
      cases members.find? (fun m => decide (m.1 = other)) with
      | some m => rfl
      | none => simp [List.find?, hne']
  simp only [JSON.get, hfind]

/-- The keys of an object after `value[key] = v`. -/
theorem keys_setMember (members : List (String × JSON)) (key : String) (v : JSON) :
    (JSON.setMember members key v).map (fun m => m.1) =
      if key ∈ members.map (fun m => m.1) then members.map (fun m => m.1)
      else members.map (fun m => m.1) ++ [key] := by
  have hiff : members.any (fun m => decide (m.1 = key)) = true ↔
      key ∈ members.map (fun m => m.1) := by
    rw [List.any_eq_true, List.mem_map]
    constructor
    · rintro ⟨m, hm, h⟩
      exact ⟨m, hm, by simpa using h⟩
    · rintro ⟨m, hm, h⟩
      exact ⟨m, hm, by simpa using h⟩
  unfold JSON.setMember
  by_cases hany : members.any (fun m => decide (m.1 = key)) = true
  · rw [if_pos hany, if_pos (hiff.mp hany), List.map_map]
    apply List.map_congr_left
    intro m _
    simp only [Function.comp]
    split_ifs with h
    · exact h.symm
    · rfl
  · rw [if_neg hany, if_neg (fun h => hany (hiff.mpr h)), List.map_append]
    rfl

theorem keys_setMember_nodup (members : List (String × JSON)) (key : String) (v : JSON)
    (hnd : (members.map fun m => m.1).Nodup) :
    ((JSON.setMember members key v).map fun m => m.1).Nodup := by
  rw [keys_setMember]
  split_ifs with h
  · exact hnd
  · exact List.Nodup.append hnd (List.nodup_singleton key)
      (by
        intro k hk hk'
        rw [List.mem_singleton] at hk'
        exact h (hk' ▸ hk))

theorem mem_keys_setMember (members : List (String × JSON)) (key : String) (v : JSON)
    (k : String) :
    k ∈ (JSON.setMember members key v).map (fun m => m.1) ↔
      k ∈ members.map (fun m => m.1) ∨ k = key := by
  rw [keys_setMember]
  split_ifs with h
  · constructor
    · exact Or.inl
    · rintro (h' | h')
      · exact h'
      · rw [h']; exact h
  · rw [List.mem_append, List.mem_singleton]

end Main

namespace Main

theorem get_foldl_setMember_other (other : String) (checkboxes : Checkboxes)
    (hother : other ∉ checkboxes.map fun cb => cb.1) :
    ∀ members : List (String × JSON),
      JSON.get (JSON.obj (checkboxes.foldl
          (fun acc cb => JSON.setMember acc cb.1 (JSON.bool cb.2)) members)) other =
        JSON.get (JSON.obj members) other := by
  induction checkboxes with
  | nil => intro members; rfl
  | cons cb rest ih =>
    intro members
    rw [List.map_cons, List.mem_cons, not_or] at hother
    rw [List.foldl_cons, ih hother.2, get_setMember_other _ _ _ _ hother.1]

/-- The recording loop of `updateProgress` leaves under the id of every
checkbox its `checked`. -/
theorem get_foldl_setMember (checkboxes : Checkboxes)
    (hnd : (checkboxes.map fun cb => cb.1).Nodup) :
    ∀ members : List (String × JSON), ∀ cb ∈ checkboxes,
      JSON.get (JSON.obj (checkboxes.foldl
          (fun acc cb => JSON.setMember acc cb.1 (JSON.bool cb.2)) members)) cb.1 =
        some (JSON.bool cb.2) := by
  induction checkboxes with
  | nil => intro members cb hcb; cases hcb
  | cons cb₀ rest ih =>
    intro members cb hcb
    rw [List.map_cons, List.nodup_cons] at hnd
    rw [List.foldl_cons]
    rcases List.mem_cons.mp hcb with h | h
    · rw [h, get_foldl_setMember_other _ _ hnd.1, get_setMember_self]
    · exact ih hnd.2 _ cb h

theorem keys_foldl_setMember_nodup (checkboxes : Checkboxes) :
    ∀ members : List (String × JSON), (members.map fun m => m.1).Nodup →
      ((checkboxes.foldl
        (fun acc cb => JSON.setMember acc cb.1 (JSON.bool cb.2)) members).map
          fun m => m.1).Nodup := by
  induction checkboxes with
  | nil => intro members h; exact h
  | cons cb rest ih =>
    intro members h
    rw [List.foldl_cons]
    exact ih _ (keys_setMember_nodup _ _ _ h)

theorem mem_keys_foldl_setMember (k : String) (checkboxes : Checkboxes) :
    ∀ members : List (String × JSON),
      k ∈ (checkboxes.foldl
          (fun acc cb => JSON.setMember acc cb.1 (JSON.bool cb.2)) members).map (fun m => m.1) ↔
        k ∈ members.map (fun m => m.1) ∨ k ∈ checkboxes.map (fun cb => cb.1) := by
  induction checkboxes with
  | nil => intro members; simp
  | cons cb rest ih =>
    intro members
    rw [List.foldl_cons, ih, mem_keys_setMember, List.map_cons, List.mem_cons]
    tauto

/-- In an object without repeated keys, the property with the key of a member
is the value of that member. -/
theorem get_of_mem (members : List (String × JSON))
    (hnd : (members.map fun m => m.1).Nodup) (m : String × JSON) (hm : m ∈ members) :
    JSON.get (JSON.obj members) m.1 = some m.2 := by
  have hfind : members.find? (fun m' => decide (m'.1 = m.1)) = some m := by
    induction members with
    | nil => cases hm
    | cons m₀ rest ih =>
      rw [List.map_cons, List.nodup_cons] at hnd
      rcases List.mem_cons.mp hm with h | h
      · rw [h]
        simp [List.find?]
      · have hne : ¬ m₀.1 = m.1 := by
          intro heq
          exact hnd.1 (by rw [heq]; exact List.mem_map_of_mem (fun m => m.1) h)
        rw [List.find?_cons_of_neg _ (by simpa using hne)]
        exact ih hnd.2 h
  simp only [JSON.get, hfind]

/-- When the keys of the map are the ids of the checkboxes and every checkbox
has its `checked` under its id, the truthy values of the map are as many as
the checked checkboxes. -/
theorem count_truthy_eq_completedCount (members : List (String × JSON))
    (checkboxes : Checkboxes) (hmembers : (members.map fun m => m.1).Nodup)
    (hnd : (checkboxes.map fun cb => cb.1).Nodup)
    (hkeys : ∀ k, k ∈ members.map (fun m => m.1) ↔ k ∈ checkboxes.map (fun cb => cb.1))
    (hvalue : ∀ cb ∈ checkboxes, JSON.get (JSON.obj members) cb.1 = some (JSON.bool cb.2)) :
    (members.filter fun m => JSON.truthy (some m.2)).length = completedCount checkboxes := by
  have hperm : (members.map fun m => m.1).Perm (checkboxes.map fun cb => cb.1) :=
    (List.perm_ext_iff_of_nodup hmembers hnd).mpr hkeys
  have h₁ : (members.filter fun m => JSON.truthy (some m.2)).length =
      (members.map fun m => m.1).countP
        fun k => JSON.truthy (JSON.get (JSON.obj members) k) := by
    rw [← List.countP_eq_length_filter, List.countP_map]
    apply List.countP_congr
    intro m hm
    simp only [Function.comp, get_of_mem members hmembers m hm]
  have h₂ : completedCount checkboxes =
      (checkboxes.map fun cb => cb.1).countP
        fun k => JSON.truthy (JSON.get (JSON.obj members) k) := by
    rw [completedCount, ← List.countP_eq_length_filter, List.countP_map]
    apply List.countP_congr
    intro cb hcb
    simp only [Function.comp, hvalue cb hcb, JSON.truthy]
  rw [h₁, h₂]
  exact hperm.countP_eq _

theorem saveProgress_checkboxes (env : Env) (p : Page) :
    (saveProgress env p).checkboxes = p.checkboxes := by
  unfold saveProgress
  split_ifs <;> rfl

/-- On a progress object `updateProgress` returns, leaves the checkboxes as
they are and ends with the object the recording loop built. -/
theorem updateProgress_obj (env : Env) (p : Page) (members : List (String × JSON))
    (hobj : p.appState.progress = JSON.obj members) :
    ∃ p', updateProgress env p = Except.ok p' ∧
      p'.appState.progress = JSON.obj (p.checkboxes.foldl
        (fun acc cb => JSON.assign acc cb.1 (JSON.bool cb.2)) members) ∧
      p'.checkboxes = p.checkboxes := by
  unfold updateProgress
  rw [hobj, record_obj]
  refine ⟨_, rfl, ?_, ?_⟩
  · simp only [calculateStreak_progress, checkAchievements_progress, saveProgress_progress]
  · simp only [saveProgress_checkboxes]

theorem setChecked_ids (checkboxes : Checkboxes) (id : String) (value : Bool) :
    (setChecked checkboxes id value).map (fun cb => cb.1) = checkboxes.map (fun cb => cb.1) := by
  induction checkboxes with
  | nil => rfl
  | cons cb rest ih =>
    rw [setChecked]
    split_ifs with h
    · rfl
    · rw [List.map_cons, List.map_cons, ih]

end Main

namespace Main

theorem ids_ne_of_map_eq (checkboxes checkboxes' : Checkboxes)
    (hids : checkboxes'.map (fun cb => cb.1) = checkboxes.map (fun cb => cb.1))
    (h : ∀ cb ∈ checkboxes, cb.1 ≠ "__proto__") : ∀ cb ∈ checkboxes', cb.1 ≠ "__proto__" := by
  intro cb hcb
  have hmem : cb.1 ∈ checkboxes'.map (fun cb => cb.1) := List.mem_map_of_mem _ hcb
  rw [hids] at hmem
  obtain ⟨cb₀, h₀, heq⟩ := List.mem_map.mp hmem
  rw [← heq]
  exact h cb₀ h₀

/-- One checkbox change on a progress object, no checkbox having the id
`__proto__`: the run returns, the ids of the checkboxes stay, every checkbox
has its `checked` under its id, and the keys of the object are those before
together with the ids. -/
theorem changeCheckbox_obj (env : Env) (id : String) (checked : Bool) (p : Page)
    (members : List (String × JSON)) (hobj : p.appState.progress = JSON.obj members)
    (hnd : (p.checkboxes.map fun cb => cb.1).Nodup)
    (hproto : ∀ cb ∈ p.checkboxes, cb.1 ≠ "__proto__") :
    ∃ p' members', changeCheckbox env id checked p = Except.ok p' ∧
      p'.appState.progress = JSON.obj members' ∧
      p'.checkboxes.map (fun cb => cb.1) = p.checkboxes.map (fun cb => cb.1) ∧
      (∀ cb ∈ p'.checkboxes, JSON.get (JSON.obj members') cb.1 = some (JSON.bool cb.2)) ∧
      ((members.map fun m => m.1).Nodup → (members'.map fun m => m.1).Nodup) ∧
      (∀ k, k ∈ members'.map (fun m => m.1) ↔
        k ∈ members.map (fun m => m.1) ∨ k ∈ p.checkboxes.map (fun cb => cb.1)) := by
  obtain ⟨p', hrun, hprogress, hboxes⟩ :=
    updateProgress_obj env { p with checkboxes := setChecked p.checkboxes id checked }
      members hobj
  have hids := setChecked_ids p.checkboxes id checked
  rw [foldl_assign_eq_setMember _ (ids_ne_of_map_eq _ _ hids hproto)] at hprogress
  refine ⟨p', _, hrun, hprogress, ?_, ?_, ?_, ?_⟩
  · rw [hboxes]
    exact hids
  · rw [hboxes]
    exact get_foldl_setMember _ (by rw [hids]; exact hnd) members
  · exact keys_foldl_setMember_nodup _ members
  · intro k
    rw [mem_keys_foldl_setMember]
    simp only [hids]

theorem changeCheckboxes_append (first second : List (Env × String × Bool)) :
    ∀ p : Page, changeCheckboxes (first ++ second) p =
      match changeCheckboxes first p with
      | Except.ok p₁ => changeCheckboxes second p₁
      | Except.error e => Except.error e := by
  induction first with
  | nil => intro p; rfl
  | cons change rest ih =>
    intro p
    obtain ⟨env, id, checked⟩ := change
    rw [List.cons_append, changeCheckboxes, changeCheckboxes]
    cases changeCheckbox env id checked p with
    | ok p₁ => exact ih p₁
    | error e => rfl

/-- A sequence of checkbox changes on a progress object returns and keeps the
shape of the page: an object, the same checkbox ids, no keys but those before
and the ids. -/
theorem changeCheckboxes_obj (changes : List (Env × String × Bool)) :
    ∀ (p : Page) (members : List (String × JSON)), p.appState.progress = JSON.obj members →
      (p.checkboxes.map fun cb => cb.1).Nodup →
      (∀ cb ∈ p.checkboxes, cb.1 ≠ "__proto__") →
      ∃ p' members', changeCheckboxes changes p = Except.ok p' ∧
        p'.appState.progress = JSON.obj members' ∧
        p'.checkboxes.map (fun cb => cb.1) = p.checkboxes.map (fun cb => cb.1) ∧
        ((members.map fun m => m.1).Nodup → (members'.map fun m => m.1).Nodup) ∧
        (∀ k, k ∈ members'.map (fun m => m.1) →
          k ∈ members.map (fun m => m.1) ∨ k ∈ p.checkboxes.map (fun cb => cb.1)) := by
  induction changes with
  | nil =>
    intro p members hobj _ _
    exact ⟨p, members, rfl, hobj, rfl, id, fun k hk => Or.inl hk⟩
  | cons change rest ih =>
    intro p members hobj hnd hproto
    obtain ⟨env, id, checked⟩ := change
    obtain ⟨p₁, members₁, hrun₁, hobj₁, hids₁, -, hnd₁, hkeys₁⟩ :=
      changeCheckbox_obj env id checked p members hobj hnd hproto
    obtain ⟨p', members', hrun, hobj', hids, hnd', hkeys⟩ :=
      ih p₁ members₁ hobj₁ (by rw [hids₁]; exact hnd) (ids_ne_of_map_eq _ _ hids₁ hproto)
    refine ⟨p', members', ?_, hobj', by rw [hids, hids₁], fun h => hnd' (hnd₁ h), ?_⟩
    · rw [changeCheckboxes, hrun₁]
      exact hrun
    · intro k hk
      rcases hkeys k hk with h | h
      · exact (hkeys₁ k).mp h
      · right
        rw [← hids₁]
        exact h

theorem calculateStatistics_obj (s : AppState) (members : List (String × JSON))
    (hobj : s.progress = JSON.obj members) :
    calculateStatistics.completed s =
        some (members.filter fun m => JSON.truthy (some m.2)).length ∧
      calculateStatistics s = Except.ok
        { weeksCompleted := (members.filter fun m => JSON.truthy (some m.2)).length
          totalWeeks := CONFIG.TOTAL_WEEKS
          percentageComplete :=
            Math_round ((((members.filter fun m => JSON.truthy (some m.2)).length : ℚ) /
              (CONFIG.TOTAL_WEEKS : ℚ)) * 100)
          hoursStudied :=
            (members.filter fun m => JSON.truthy (some m.2)).length * CONFIG.HOURS_PER_WEEK } := by
  have hcompleted : calculateStatistics.completed s =
      some (members.filter fun m => JSON.truthy (some m.2)).length := by
    unfold calculateStatistics.completed
    rw [hobj]
    simp only [JSON.values]
    rw [← List.countP_eq_length_filter, ← List.countP_eq_length_filter, List.countP_map]
    rfl
  refine ⟨hcompleted, ?_⟩
  unfold calculateStatistics
  rw [hcompleted]

end Main

/-! ## Claims on the statistics of `main.js` and on the import -/

/-- C21, as found: importing a file whose progress map has the sixteen weeks
and one more key, all `true`, on the page with the sixteen week checkboxes
leaves a map for which `calculateStatistics` returns 17 completed weeks and
106 percent: the entry under the other key is counted. -/
theorem statistics_count_foreign_key :
    ∃ p' st, Main.importProgress { now := 0, today := 0, quotaExceeded := false }
        ("\x7b\"progress\":\x7b\"week1\":true,\"week2\":true,\"week3\":true,\"week4\":true,\"week5\":true," ++
          "\"week6\":true,\"week7\":true,\"week8\":true,\"week9\":true,\"week10\":true," ++
          "\"week11\":true,\"week12\":true,\"week13\":true,\"week14\":true," ++
          "\"week15\":true,\"week16\":true,\"extra\":true\x7d\x7d")
        { appState := Main.appState
          checkboxes :=
            [
              ("week1", false), ("week2", false), ("week3", false), ("week4", false),
              ("week5", false), ("week6", false), ("week7", false), ("week8", false),
              ("week9", false), ("week10", false), ("week11", false), ("week12", false),
              ("week13", false), ("week14", false), ("week15", false), ("week16", false)]
          localStorage := { items := [] }
          notifications := [] } = Except.ok p' ∧
      Main.calculateStatistics p'.appState = Except.ok st ∧
      st.weeksCompleted = 17 ∧ st.percentageComplete = 106 := by
  have himport : ∃ p', Main.importProgress { now := 0, today := 0, quotaExceeded := false }
        ("\x7b\"progress\":\x7b\"week1\":true,\"week2\":true,\"week3\":true,\"week4\":true,\"week5\":true," ++
          "\"week6\":true,\"week7\":true,\"week8\":true,\"week9\":true,\"week10\":true," ++
          "\"week11\":true,\"week12\":true,\"week13\":true,\"week14\":true," ++
          "\"week15\":true,\"week16\":true,\"extra\":true\x7d\x7d")
        { appState := Main.appState
          checkboxes :=
            [
              ("week1", false), ("week2", false), ("week3", false), ("week4", false),
              ("week5", false), ("week6", false), ("week7", false), ("week8", false),
              ("week9", false), ("week10", false), ("week11", false), ("week12", false),
              ("week13", false), ("week14", false), ("week15", false), ("week16", false)]
          localStorage := { items := [] }
          notifications := [] } = Except.ok p' ∧
      p'.appState.progress = JSON.obj [
          ("week1", JSON.bool true), ("week2", JSON.bool true), ("week3", JSON.bool true),
          ("week4", JSON.bool true), ("week5", JSON.bool true), ("week6", JSON.bool true),
          ("week7", JSON.bool true), ("week8", JSON.bool true), ("week9", JSON.bool true),
          ("week10", JSON.bool true), ("week11", JSON.bool true), ("week12", JSON.bool true),
          ("week13", JSON.bool true), ("week14", JSON.bool true), ("week15", JSON.bool true),
          ("week16", JSON.bool true), ("extra", JSON.bool true)] := by
    set_option maxRecDepth 100000 in
    exact ⟨_, rfl, rfl⟩
  obtain ⟨p', hrun, hprogress⟩ := himport
  have hcount : (List.filter (fun m : String × JSON => JSON.truthy (some m.2)) [
          ("week1", JSON.bool true), ("week2", JSON.bool true), ("week3", JSON.bool true),
          ("week4", JSON.bool true), ("week5", JSON.bool true), ("week6", JSON.bool true),
          ("week7", JSON.bool true), ("week8", JSON.bool true), ("week9", JSON.bool true),
          ("week10", JSON.bool true), ("week11", JSON.bool true), ("week12", JSON.bool true),
          ("week13", JSON.bool true), ("week14", JSON.bool true), ("week15", JSON.bool true),
          ("week16", JSON.bool true), ("extra", JSON.bool true)]).length = 17 := by
    decide
  refine ⟨p', _, hrun, (Main.calculateStatistics_obj p'.appState _ hprogress).2, hcount, ?_⟩
  simp only [hcount]
  rw [Math_round_eq_iff]
  norm_num [Main.CONFIG.TOTAL_WEEKS]

/-- C21, amended: on a progress object `calculateStatistics` returns as
`weeksCompleted` the number of truthy values, whatever their keys, and as
`percentageComplete` the rounded share of 16 of that number, which is at
least 0, at most 100 when the number is at most 16, and more than 100
otherwise; the number is at most 16 when the keys of the object are distinct
and among sixteen week ids. -/
theorem statistics_count_truthy_values (s : Main.AppState) (members : List (String × JSON))
    (hobj : s.progress = JSON.obj members) :
    ∃ st, Main.calculateStatistics s = Except.ok st ∧
      st.weeksCompleted = (members.filter fun m => JSON.truthy (some m.2)).length ∧
      st.percentageComplete = Math_round (((st.weeksCompleted : ℚ) / 16) * 100) ∧
      0 ≤ st.percentageComplete ∧
      (st.weeksCompleted ≤ 16 → st.percentageComplete ≤ 100) ∧
      (16 < st.weeksCompleted → 100 < st.percentageComplete) ∧
      ∀ weekIds : List String, weekIds.length = 16 → (members.map fun m => m.1).Nodup →
        (∀ m ∈ members, m.1 ∈ weekIds) →
          st.weeksCompleted ≤ 16 ∧ st.percentageComplete ≤ 100 := by
  have hupper : ∀ c : ℕ, c ≤ 16 → Math_round (((c : ℚ) / 16) * 100) ≤ 100 := by
    intro c hc
    have hc' : (c : ℚ) ≤ 16 := by exact_mod_cast hc
    have hlt : Math_round (((c : ℚ) / 16) * 100) < 101 := by
      unfold Math_round
      rw [Int.floor_lt]
      push_cast
      linarith
    omega
  refine ⟨_, (Main.calculateStatistics_obj s members hobj).2, rfl, ?_, ?_, ?_, ?_, ?_⟩
  · simp only [Main.CONFIG.TOTAL_WEEKS]
    norm_num
  · simp only [Main.CONFIG.TOTAL_WEEKS]
    unfold Math_round
    apply Int.floor_nonneg.mpr
    positivity
  · intro hc
    simp only [Main.CONFIG.TOTAL_WEEKS]
    have := hupper _ hc
    norm_num at this ⊢
    exact this
  · intro hc
    simp only [Main.CONFIG.TOTAL_WEEKS]
    have hc' : (17 : ℚ) ≤ ((members.filter fun m => JSON.truthy (some m.2)).length : ℚ) := by
      exact_mod_cast hc
    have hle : (101 : ℤ) ≤ Math_round
        ((((members.filter fun m => JSON.truthy (some m.2)).length : ℚ) / ((16 : ℕ) : ℚ)) *
          100) := by
      unfold Math_round
      rw [Int.le_floor]
      push_cast
      linarith
    omega
  · intro weekIds hlen hnd hsubset
    have hkeys : (members.map fun m => m.1).length ≤ weekIds.length :=
      (List.subperm_of_subset hnd (by
        intro k hk
        obtain ⟨m, hm, rfl⟩ := List.mem_map.mp hk
        exact hsubset m hm)).length_le
    rw [List.length_map, hlen] at hkeys
    have hc : (members.filter fun m => JSON.truthy (some m.2)).length ≤ 16 :=
      le_trans (List.length_filter_le _ _) hkeys
    refine ⟨hc, ?_⟩
    simp only [Main.CONFIG.TOTAL_WEEKS]
    have := hupper _ hc
    norm_num at this ⊢
    exact this

/-- Witness of C21: a map with one completed week and a note. -/
theorem statistics_count_truthy_values_witness :
    ∃ st, Main.calculateStatistics
        { Main.appState with
          progress := JSON.obj [("week1", JSON.bool true), ("note", JSON.str "x")] } =
          Except.ok st ∧
      st.weeksCompleted = 2 := by
  obtain ⟨st, hrun, hcount, -⟩ := statistics_count_truthy_values
    { Main.appState with
      progress := JSON.obj [("week1", JSON.bool true), ("note", JSON.str "x")] }
    [("week1", JSON.bool true), ("note", JSON.str "x")] rfl
  exact ⟨st, hrun, by rw [hcount]; decide⟩

/-! ## The import of a progress file -/

namespace Main

/-- The test `data.progress` of `importProgress` for a document other than
`null`. -/
theorem importProgress_field_eq (text : String) (data : JSON)
    (hparse : JSON.parse text = some data) (hdata : data ≠ JSON.null) :
    importProgress.field text =
      if JSON.truthy (JSON.get data "progress") then Except.ok (JSON.get data "progress")
      else Except.ok none := by
  unfold importProgress.field
  rw [hparse]
  cases data <;> first | exact absurd rfl hdata | rfl

theorem importProgress_of_apply (env : Env) (text : String) (p p₂ : Page) (progress : JSON)
    (hfield : importProgress.field text = Except.ok (some progress))
    (happly : applyProgressToUI env
      { p with appState := { p.appState with progress := progress } } = Except.ok p₂) :
    importProgress env text p = Except.ok
      { saveProgress env p₂ with
        notifications := (saveProgress env p₂).notifications ++
          [("Progreso importado correctamente", "success")] } := by
  unfold importProgress
  rw [hfield]
  simp only [happly]

/-- On a progress object `applyProgressToUI` returns: the checkboxes are those
the loop over the keys sets, and the progress is the object with one entry
per checkbox recorded on top. -/
theorem applyProgressToUI_obj (env : Env) (p : Page) (members : List (String × JSON))
    (hobj : p.appState.progress = JSON.obj members) :
    ∃ p', applyProgressToUI env p = Except.ok p' ∧
      p'.checkboxes =
        applyProgressToUI.check (JSON.obj members) (members.map fun m => m.1) p.checkboxes ∧
      p'.appState.progress = JSON.obj (p'.checkboxes.foldl
        (fun acc cb => JSON.assign acc cb.1 (JSON.bool cb.2)) members) := by
  unfold applyProgressToUI
  rw [hobj]
  simp only [JSON.keys]
  obtain ⟨p', hrun, hprogress, hboxes⟩ := updateProgress_obj env
    { p with
      checkboxes :=
        applyProgressToUI.check (JSON.obj members) (members.map fun m => m.1) p.checkboxes }
    members hobj
  refine ⟨p', hrun, hboxes, ?_⟩
  rw [hprogress, hboxes]

end Main

/-! ## The calls of `progress.js` that lose `this` -/

namespace Progress

/-- The plain call `unlockAchievement(achievement)`, whose `this` is `window`:
a `TypeError` without `window.achievements`; nothing for an id in that list;
else the id is pushed on that list, the pop-up shown, and `this.saveData()`
throws. -/
theorem unlockAchievement_window (a : Achievement) (w : World) :
    unlockAchievement a Receiver.window w =
      match w.window.achievements with
      | none => Run.typeError w
      | some unlocked =>
        if a.id ∈ unlocked then Run.returned w
        else
          Run.typeError
            { w with
              window := { w.window with achievements := some (unlocked ++ [a.id]) }
              shown := w.shown ++ [a.id] } := by
  unfold unlockAchievement
  simp only [World.achievements]
  cases w.window.achievements with
  | none => rfl
  | some unlocked =>
    simp only
    by_cases h : a.id ∈ unlocked
    · rw [if_neg (not_not.mpr h), if_pos h]
    · rw [if_pos h, if_neg h]
      rfl

/-- The three ways a call of the `forEach` callback ends: it returns or throws
with the state as it was, or it throws after pushing the id of the entry on
the list of `window`. -/
theorem body_outcome (this : Receiver) (completed : ℕ) (a : Achievement) (w : World) :
    updateAchievements.body this completed a w = Run.returned w ∨
      updateAchievements.body this completed a w = Run.typeError w ∨
      ∃ unlocked, w.window.achievements = some unlocked ∧ a.id ∉ unlocked ∧
        updateAchievements.body this completed a w =
          Run.typeError
            { w with
              window := { w.window with achievements := some (unlocked ++ [a.id]) }
              shown := w.shown ++ [a.id] } := by
  have hunlock : unlockAchievement a Receiver.window w = Run.returned w ∨
      unlockAchievement a Receiver.window w = Run.typeError w ∨
      ∃ unlocked, w.window.achievements = some unlocked ∧ a.id ∉ unlocked ∧
        unlockAchievement a Receiver.window w =
          Run.typeError
            { w with
              window := { w.window with achievements := some (unlocked ++ [a.id]) }
              shown := w.shown ++ [a.id] } := by
    rw [unlockAchievement_window]
    cases hlist : w.window.achievements with
    | none => exact Or.inr (Or.inl rfl)
    | some unlocked =>
      simp only
      by_cases h : a.id ∈ unlocked
      · rw [if_pos h]
        exact Or.inl rfl
      · rw [if_neg h]
        exact Or.inr (Or.inr ⟨unlocked, rfl, h, rfl⟩)
  unfold updateAchievements.body
  split_ifs
  · cases w.statistics this with
    | none => exact Or.inr (Or.inl rfl)
    | some statistics =>
      simp only
      split_ifs
      · exact hunlock
      · exact Or.inl rfl
  · exact hunlock
  · exact Or.inl rfl

theorem forEach_outcome (this : Receiver) (completed : ℕ) (L : List Achievement) (w : World) :
    forEach (updateAchievements.body this completed) L w = Run.returned w ∨
      forEach (updateAchievements.body this completed) L w = Run.typeError w ∨
      ∃ a ∈ L, ∃ unlocked, w.window.achievements = some unlocked ∧ a.id ∉ unlocked ∧
        forEach (updateAchievements.body this completed) L w =
          Run.typeError
            { w with
              window := { w.window with achievements := some (unlocked ++ [a.id]) }
              shown := w.shown ++ [a.id] } := by
  induction L with
  | nil => exact Or.inl rfl
  | cons a L ih =>
    rw [forEach]
    rcases body_outcome this completed a w with h | h | ⟨unlocked, h₁, h₂, h⟩
    · rw [h]
      rcases ih with h' | h' | ⟨b, hb, unlocked, h₁, h₂, h'⟩
      · exact Or.inl h'
      · exact Or.inr (Or.inl h')
      · exact Or.inr (Or.inr ⟨b, List.mem_cons_of_mem _ hb, unlocked, h₁, h₂, h'⟩)
    · rw [h]
      exact Or.inr (Or.inl rfl)
    · rw [h]
      exact Or.inr (Or.inr ⟨a, List.mem_cons_self _ _, unlocked, h₁, h₂, rfl⟩)

/-- The two plain calls that end `updateAchievements` throw exactly when
`window` has no list `achievements`; they change nothing. -/
theorem display_and_points (w : World) :
    (updateAchievementDisplay Receiver.window w).andThen
        (fun w₂ => updateTotalPoints.run Receiver.window w₂) =
      match w.window.achievements with
      | none => Run.typeError w
      | some _ => Run.returned w := by
  cases hlist : w.window.achievements with
  | none =>
    cases hcontainer : w.achievementsContainer <;>
      simp [updateAchievementDisplay, updateTotalPoints.run, World.achievements, Run.andThen,
        Run.returned, Run.typeError, hlist, hcontainer]
  | some unlocked =>
    cases hcontainer : w.achievementsContainer <;>
      simp [updateAchievementDisplay, updateTotalPoints.run, World.achievements, Run.andThen,
        Run.returned, Run.typeError, hlist, hcontainer]

/-- The three ways `updateAchievements` ends, for every receiver: it returns
or throws with the state as it was, or it throws after one id of the catalog
was pushed on the list of `window`. -/
theorem updateAchievements_outcome (this : Receiver) (w : World) :
    updateAchievements this w = Run.returned w ∨
      updateAchievements this w = Run.typeError w ∨
      ∃ a ∈ ACHIEVEMENTS, ∃ unlocked, w.window.achievements = some unlocked ∧
        a.id ∉ unlocked ∧
        updateAchievements this w =
          Run.typeError
            { w with
              window := { w.window with achievements := some (unlocked ++ [a.id]) }
              shown := w.shown ++ [a.id] } := by
  unfold updateAchievements
  simp only
  rcases forEach_outcome this (completedCount w.page.checkboxes) ACHIEVEMENTS w with
    h | h | ⟨a, ha, unlocked, h₁, h₂, h⟩
  · rw [h]
    have hrest := display_and_points w
    cases hlist : w.window.achievements with
    | none =>
      rw [hlist] at hrest
      exact Or.inr (Or.inl hrest)
    | some unlocked =>
      rw [hlist] at hrest
      exact Or.inl hrest
  · rw [h]
    exact Or.inr (Or.inl rfl)
  · rw [h]
    exact Or.inr (Or.inr ⟨a, ha, unlocked, h₁, h₂, rfl⟩)

/-- Without a list `achievements` on `window`, which the script never defines
there, `updateAchievements` ends in a `TypeError` and changes nothing, for
every receiver. -/
theorem updateAchievements_undefined (this : Receiver) (w : World)
    (h : w.window.achievements = none) : updateAchievements this w = Run.typeError w := by
  unfold updateAchievements
  simp only
  rcases forEach_outcome this (completedCount w.page.checkboxes) ACHIEVEMENTS w with
    h' | h' | ⟨a, ha, unlocked, h₁, h₂, h'⟩
  · rw [h']
    have hrest := display_and_points w
    rw [h] at hrest
    exact hrest
  · rw [h']
    rfl
  · rw [h] at h₁
    cases h₁

/-- With one week or more completed and `first_step` not in the list of
`window`, `updateAchievements` pushes `first_step` there and throws. -/
theorem updateAchievements_first_step (this : Receiver) (w : World) (unlocked : List String)
    (hlist : w.window.achievements = some unlocked)
    (hcompleted : 1 ≤ completedCount w.page.checkboxes) (hnot : "first_step" ∉ unlocked) :
    updateAchievements this w =
      Run.typeError
        { w with
          window := { w.window with achievements := some (unlocked ++ ["first_step"]) }
          shown := w.shown ++ ["first_step"] } := by
  have hbody : updateAchievements.body this (completedCount w.page.checkboxes)
      { id := "first_step", name := "🎯 Primer Paso",
        description := "Completa tu primera semana",
        threshold := 1, points := 10, type := none } w =
      Run.typeError
        { w with
          window := { w.window with achievements := some (unlocked ++ ["first_step"]) }
          shown := w.shown ++ ["first_step"] } := by
    unfold updateAchievements.body
    rw [if_neg (by decide), if_pos hcompleted, unlockAchievement_window, hlist]
    simp only
    rw [if_neg hnot]
  unfold updateAchievements
  simp only [ACHIEVEMENTS, forEach, hbody]
  rfl

end Progress

namespace Progress

theorem andThen_returned (w : World) (next : World → Run) :
    (Run.returned w).andThen next = next w := rfl

theorem andThen_typeError (w : World) (next : World → Run) :
    (Run.typeError w).andThen next = Run.typeError w := rfl

/-- With four weeks or more completed, `first_step` already in the list of
`window` and `month_1` not, `updateAchievements` pushes `month_1` there and
throws. -/
theorem updateAchievements_month_1 (this : Receiver) (w : World) (unlocked : List String)
    (hlist : w.window.achievements = some unlocked)
    (hcompleted : 4 ≤ completedCount w.page.checkboxes) (hfirst : "first_step" ∈ unlocked)
    (hnot : "month_1" ∉ unlocked) :
    updateAchievements this w =
      Run.typeError
        { w with
          window := { w.window with achievements := some (unlocked ++ ["month_1"]) }
          shown := w.shown ++ ["month_1"] } := by
  have hone : 1 ≤ completedCount w.page.checkboxes := by omega
  have hbody₁ : updateAchievements.body this (completedCount w.page.checkboxes)
      { id := "first_step", name := "🎯 Primer Paso",
        description := "Completa tu primera semana",
        threshold := 1, points := 10, type := none } w = Run.returned w := by
    unfold updateAchievements.body
    rw [if_neg (by decide), if_pos hone, unlockAchievement_window, hlist]
    simp only
    rw [if_pos hfirst]
  have hbody₂ : updateAchievements.body this (completedCount w.page.checkboxes)
      { id := "month_1", name := "⚡ Fundamentos Sólidos",
        description := "Completa el Mes 1",
        threshold := 4, points := 25, type := none } w =
      Run.typeError
        { w with
          window := { w.window with achievements := some (unlocked ++ ["month_1"]) }
          shown := w.shown ++ ["month_1"] } := by
    unfold updateAchievements.body
    rw [if_neg (by decide), if_pos hcompleted, unlockAchievement_window, hlist]
    simp only
    rw [if_neg hnot]
  unfold updateAchievements
  simp only [ACHIEVEMENTS, forEach, hbody₁, andThen_returned, hbody₂, andThen_typeError]

/-- Function `updateAllDisplays` never gets past its first call: `updateStatistics()`
throws, at `this.statistics` without statistics on `window`, at
`this.saveStatistics()` with them. -/
theorem updateAllDisplays_eq (w : World) :
    updateAllDisplays w = updateStatistics Receiver.window w ∧
      (updateAllDisplays w).thrown = some Abort.TypeError := by
  unfold updateAllDisplays updateStatistics
  simp only [World.statistics]
  cases w.window.statistics with
  | none => exact ⟨rfl, rfl⟩
  | some statistics => exact ⟨rfl, rfl⟩

/-- What `updateStatistics` leaves on `window`. -/
theorem updateStatistics_window (w : World) :
    updateStatistics Receiver.window w =
      match w.window.statistics with
      | none => Run.typeError w
      | some statistics =>
        Run.typeError
          { w with
            window :=
              { w.window with
                statistics :=
                  some (updateStatistics.saved (completedCount w.page.checkboxes) statistics) } } := by
  unfold updateStatistics
  simp only [World.statistics]
  cases w.window.statistics with
  | none => rfl
  | some statistics => rfl

end Progress

/-! ## Claims on the achievement engine of `progress.js` -/

/-- C2, what the code does instead: `updateAchievements` calls
`unlockAchievement(achievement)` as a plain function, so the list it reads is
`window.achievements`.  Without that list, which the script never defines,
the run ends in a `TypeError` and appends nothing, for every receiver,
completed count and streak.  In every case the page with the tracker is left
as it was, and the run either changes nothing or throws after pushing one id
on the list of `window`: with one week completed that id is `first_step`,
and no second due id follows it. -/
theorem updateAchievements_loses_this (this : Progress.Receiver) (w : Progress.World) :
    (w.window.achievements = none →
        Progress.updateAchievements this w = Progress.Run.typeError w) ∧
      (Progress.updateAchievements this w).world.page = w.page ∧
      (Progress.updateAchievements this w = Progress.Run.returned w ∨
        Progress.updateAchievements this w = Progress.Run.typeError w ∨
        ∃ a ∈ Progress.ACHIEVEMENTS, ∃ unlocked, w.window.achievements = some unlocked ∧
          a.id ∉ unlocked ∧
          Progress.updateAchievements this w =
            Progress.Run.typeError
              { w with
                window := { w.window with achievements := some (unlocked ++ [a.id]) }
                shown := w.shown ++ [a.id] }) ∧
      (∀ unlocked, w.window.achievements = some unlocked →
        1 ≤ completedCount w.page.checkboxes → "first_step" ∉ unlocked →
        Progress.updateAchievements this w =
          Progress.Run.typeError
            { w with
              window := { w.window with achievements := some (unlocked ++ ["first_step"]) }
              shown := w.shown ++ ["first_step"] }) := by
  refine ⟨Progress.updateAchievements_undefined this w, ?_,
    Progress.updateAchievements_outcome this w,
    fun unlocked h₁ h₂ h₃ => Progress.updateAchievements_first_step this w unlocked h₁ h₂ h₃⟩
  rcases Progress.updateAchievements_outcome this w with h | h | ⟨a, -, unlocked, -, -, h⟩ <;>
    rw [h] <;> rfl

/-- Witness of C2: on the page with four checked weeks and a fresh tracker,
`updateAchievements` run on the tracker throws and leaves its list empty. -/
theorem updateAchievements_loses_this_witness :
    Progress.updateAchievements Progress.Receiver.tracker
        { page :=
            { tracker := Progress.ProgressTracker.new
              checkboxes := [("week1", true), ("week2", true), ("week3", true), ("week4", true)]
              localStorage :=
                { quantumProgressData := none
                  quantumAchievements := none
                  quantumStatistics := none } }
          window := { progress := none, achievements := none, statistics := none }
          api := { progress := none, achievements := none, statistics := none }
          achievementsContainer := true
          shown := []
          notifications := [] } =
      Progress.Run.typeError
        { page :=
            { tracker := Progress.ProgressTracker.new
              checkboxes := [("week1", true), ("week2", true), ("week3", true), ("week4", true)]
              localStorage :=
                { quantumProgressData := none
                  quantumAchievements := none
                  quantumStatistics := none } }
          window := { progress := none, achievements := none, statistics := none }
          api := { progress := none, achievements := none, statistics := none }
          achievementsContainer := true
          shown := []
          notifications := [] } :=
  (updateAchievements_loses_this Progress.Receiver.tracker _).1 rfl

/-- C3, the code at the failing input.  In main.js a second `checkAchievements`
with the same completed count changes nothing and keeps the list free of
repetitions.  In progress.js an evaluation stops at the `TypeError` of the
first unlock: with four weeks completed and neither `first_step` nor
`month_1` in the list of `window`, the first `updateAchievements` pushes
`first_step` and the second one, with the same count and streak, pushes
`month_1`, so the second evaluation does unlock and the list after it is not
the list after the first.  No evaluation repeats an id or touches the page
with the tracker. -/
theorem second_evaluation_unlocks_again (completed : ℕ) (s : Main.AppState)
    (this : Progress.Receiver) (w : Progress.World) :
    Main.checkAchievements completed (Main.checkAchievements completed s) =
        Main.checkAchievements completed s ∧
      Main.newlyUnlocked completed (Main.checkAchievements completed s).unlocked = [] ∧
      (s.unlocked.Nodup → (Main.checkAchievements completed s).unlocked.Nodup) ∧
      (∀ unlocked, w.window.achievements = some unlocked →
        4 ≤ completedCount w.page.checkboxes → "first_step" ∉ unlocked →
        "month_1" ∉ unlocked →
        (Progress.updateAchievements this w).world.window.achievements =
            some (unlocked ++ ["first_step"]) ∧
          (Progress.updateAchievements this
            (Progress.updateAchievements this w).world).world.window.achievements =
            some (unlocked ++ ["first_step"] ++ ["month_1"]) ∧
          (Progress.updateAchievements this
            (Progress.updateAchievements this w).world).world.window.achievements ≠
            (Progress.updateAchievements this w).world.window.achievements) ∧
      (∀ unlocked, w.window.achievements = some unlocked → unlocked.Nodup →
        ∃ unlocked', (Progress.updateAchievements this w).world.window.achievements =
            some unlocked' ∧ unlocked'.Nodup) ∧
      (Progress.updateAchievements this
        (Progress.updateAchievements this w).world).world.page = w.page := by
  have hpage : ∀ w' : Progress.World, (Progress.updateAchievements this w').world.page =
      w'.page := by
    intro w'
    rcases Progress.updateAchievements_outcome this w' with h | h | ⟨a, -, unlocked, -, -, h⟩ <;>
      rw [h] <;> rfl
  refine ⟨Main.checkAchievements_idem completed s, ?_,
    Main.checkAchievements_nodup completed s, ?_, ?_, ?_⟩
  · have h := (Main.checkAchievements_spec completed
      (Main.checkAchievements completed s)).1
    rw [Main.checkAchievements_idem] at h
    exact List.append_right_eq_self.mp h.symm
  · intro unlocked hlist hcompleted hfirst hmonth
    have h₁ := Progress.updateAchievements_first_step this w unlocked hlist (by omega) hfirst
    have hmonth' : "month_1" ∉ unlocked ++ ["first_step"] := by
      intro h
      rcases List.mem_append.mp h with h | h
      · exact hmonth h
      · exact absurd (List.mem_singleton.mp h) (by decide)
    have h₂ := Progress.updateAchievements_month_1 this
      (Progress.updateAchievements this w).world (unlocked ++ ["first_step"])
      (by rw [h₁]; rfl) (by rw [hpage]; exact hcompleted)
      (List.mem_append_right _ (List.mem_singleton_self _)) hmonth'
    have h₁' : (Progress.updateAchievements this w).world.window.achievements =
        some (unlocked ++ ["first_step"]) := by rw [h₁]; rfl
    have h₂' : (Progress.updateAchievements this
        (Progress.updateAchievements this w).world).world.window.achievements =
        some (unlocked ++ ["first_step"] ++ ["month_1"]) := by rw [h₂]; rfl
    refine ⟨h₁', h₂', ?_⟩
    rw [h₂', h₁']
    intro h
    have hlen := congrArg (fun l => (l.getD []).length) h
    simp at hlen
  · intro unlocked hlist hnd
    rcases Progress.updateAchievements_outcome this w with h | h | ⟨a, -, unlocked', h₁, h₂, h⟩
    · exact ⟨unlocked, by rw [h]; exact hlist, hnd⟩
    · exact ⟨unlocked, by rw [h]; exact hlist, hnd⟩
    · rw [hlist] at h₁
      cases h₁
      refine ⟨unlocked ++ [a.id], by rw [h]; rfl, ?_⟩
      exact List.Nodup.append hnd (List.nodup_singleton _)
        (by
          intro id h₃ h₄
          rw [List.mem_singleton] at h₄
          exact h₂ (h₄ ▸ h₃))
  · rw [hpage, hpage]

/-- Witness of C3: four checked weeks and an empty list on `window`. -/
theorem second_evaluation_unlocks_again_witness :
    (Progress.updateAchievements Progress.Receiver.window
        (Progress.updateAchievements Progress.Receiver.window
          { page :=
              { tracker := Progress.ProgressTracker.new
                checkboxes :=
                  [("week1", true), ("week2", true), ("week3", true), ("week4", true)]
                localStorage :=
                  { quantumProgressData := none
                    quantumAchievements := none
                    quantumStatistics := none } }
            window := { progress := none, achievements := some [], statistics := none }
            api := { progress := none, achievements := none, statistics := none }
            achievementsContainer := true
            shown := []
            notifications := [] }).world).world.window.achievements =
      some ([] ++ ["first_step"] ++ ["month_1"]) :=
  ((second_evaluation_unlocks_again 0 Main.appState Progress.Receiver.window _).2.2.2.1 []
    rfl (by decide) (by decide) (by decide)).2.1

/-- C4: unlocks are monotonic.  An id that is in an unlock list before an
evaluation is in it afterwards, whatever the completed count and the streak:
for `checkAchievements` in main.js, and in progress.js for the list of every
object (the tracker, `window`, `ProgressAPI`) after `updateAchievements`
with every receiver, whether the run returns or throws. -/
theorem unlocks_monotonic (completed : ℕ) (s : Main.AppState) (this : Progress.Receiver)
    (w : Progress.World) (id : String) :
    (Main.isAchievementUnlocked id s = true →
        Main.isAchievementUnlocked id (Main.checkAchievements completed s) = true) ∧
      (id ∈ w.page.tracker.achievements →
        id ∈ (Progress.updateAchievements this w).world.page.tracker.achievements) ∧
      ∀ (object : Progress.Receiver) (unlocked : List String),
        w.achievements object = some unlocked → id ∈ unlocked →
        ∃ unlocked', (Progress.updateAchievements this w).world.achievements object =
            some unlocked' ∧ id ∈ unlocked' := by
  have hpage : (Progress.updateAchievements this w).world.page = w.page := by
    rcases Progress.updateAchievements_outcome this w with h | h | ⟨a, -, unlocked, -, -, h⟩ <;>
      rw [h] <;> rfl
  refine ⟨?_, ?_, ?_⟩
  · intro h
    rw [Main.isAchievementUnlocked_iff] at h ⊢
    rw [(Main.checkAchievements_spec completed s).1]
    exact List.mem_append_left _ h
  · intro h
    rw [hpage]
    exact h
  · intro object unlocked hlist hid
    rcases Progress.updateAchievements_outcome this w with h | h | ⟨a, -, unlocked', h₁, -, h⟩
    · exact ⟨unlocked, by rw [h]; exact hlist, hid⟩
    · exact ⟨unlocked, by rw [h]; exact hlist, hid⟩
    · rw [h]
      cases object with
      | tracker => exact ⟨unlocked, hlist, hid⟩
      | api => exact ⟨unlocked, hlist, hid⟩
      | window =>
        have hlist' : w.window.achievements = some unlocked := hlist
        rw [hlist'] at h₁
        cases h₁
        exact ⟨unlocked ++ [a.id], rfl, List.mem_append_left _ hid⟩

/-- Witness of C4: `complete` stays in the list of the tracker when no week
is checked and the streak is 0. -/
theorem unlocks_monotonic_witness :
    "complete" ∈ (Progress.updateAchievements Progress.Receiver.tracker
      { page :=
          { tracker := { Progress.ProgressTracker.new with achievements := ["complete"] }
            checkboxes := [("week1", false)]
            localStorage :=
              { quantumProgressData := none
                quantumAchievements := none
                quantumStatistics := none } }
        window := { progress := none, achievements := none, statistics := none }
        api := { progress := none, achievements := none, statistics := none }
        achievementsContainer := false
        shown := []
        notifications := [] }).world.page.tracker.achievements :=
  (unlocks_monotonic 0 Main.appState Progress.Receiver.tracker _ "complete").2.1 (by decide)

/-- C5, the code at the failing input: with 16 weeks, 4 hours per week and 4
weeks completed the hours shown are 16, but one `updateAchievements` does
not unlock `first_step` and `month_1`.  The list of the tracker is left as it
was (empty when it was empty); without a list on `window` the run throws and
changes nothing, and with an empty list on `window` it pushes `first_step`
there and throws, so `month_1` is unlocked nowhere. -/
theorem scenario_four_weeks (this : Progress.Receiver) (w : Progress.World)
    (hcompleted : completedCount w.page.checkboxes = 4) :
    Progress.PROGRESS_CONFIG.TOTAL_WEEKS = 16 ∧
      Progress.PROGRESS_CONFIG.HOURS_PER_WEEK = 4 ∧
      (Progress.updateStatistics.display (completedCount w.page.checkboxes)
        w.page.tracker).hoursStudied = 16 ∧
      (Progress.updateAchievements this w).world.page.tracker.achievements =
        w.page.tracker.achievements ∧
      (w.window.achievements = none →
        Progress.updateAchievements this w = Progress.Run.typeError w) ∧
      (w.window.achievements = some [] →
        (Progress.updateAchievements this w).world.window.achievements =
            some ["first_step"] ∧
          (Progress.updateAchievements this w).thrown = some Abort.TypeError ∧
          (Progress.updateAchievements this w).world.shown = w.shown ++ ["first_step"]) := by
  refine ⟨rfl, rfl, ?_, ?_, Progress.updateAchievements_undefined this w, ?_⟩
  · rw [hcompleted]
    rfl
  · rcases Progress.updateAchievements_outcome this w with h | h | ⟨a, -, unlocked, -, -, h⟩ <;>
      rw [h] <;> rfl
  · intro hlist
    rw [Progress.updateAchievements_first_step this w [] hlist (by omega) (by simp)]
    exact ⟨rfl, rfl, rfl⟩

/-- Witness of C5: the fresh tracker on the page with four checked weeks,
`updateAchievements` run on the tracker. -/
theorem scenario_four_weeks_witness :
    (Progress.updateAchievements Progress.Receiver.tracker
      { page :=
          { tracker := Progress.ProgressTracker.new
            checkboxes := [("week1", true), ("week2", true), ("week3", true), ("week4", true)]
            localStorage :=
              { quantumProgressData := none
                quantumAchievements := none
                quantumStatistics := none } }
        window := { progress := none, achievements := none, statistics := none }
        api := { progress := none, achievements := none, statistics := none }
        achievementsContainer := true
        shown := []
        notifications := [] }).world.page.tracker.achievements = [] :=
  (scenario_four_weeks Progress.Receiver.tracker _ (by decide)).2.2.2.1

/-- C29, the code at the failing input.  The callback of `updateAchievements`
judges `perfectionist` by the completed count alone: on that entry it calls
`unlockAchievement` exactly when 4 weeks or more are completed, whatever the
receiver and its streak.  But with 4 weeks or more completed the run does not
get to that entry unless `first_step` is unlocked already: without a list on
`window` it throws and changes nothing, and with a list on `window` that
lacks `first_step` it pushes `first_step` and throws, so `perfectionist`
is in a list after the run only if it was before. -/
theorem perfectionist_not_reached (this : Progress.Receiver) (w : Progress.World)
    (hcompleted : 4 ≤ completedCount w.page.checkboxes) :
    (∀ a ∈ Progress.ACHIEVEMENTS, a.id = "perfectionist" →
        ∀ (completed : ℕ) (w' : Progress.World),
          Progress.updateAchievements.body this completed a w' =
            if completed ≥ 4 then Progress.unlockAchievement a Progress.Receiver.window w'
            else Progress.Run.returned w') ∧
      (w.window.achievements = none →
        Progress.updateAchievements this w = Progress.Run.typeError w) ∧
      (∀ unlocked, w.window.achievements = some unlocked → "first_step" ∉ unlocked →
        (Progress.updateAchievements this w).world.window.achievements =
            some (unlocked ++ ["first_step"]) ∧
          (Progress.updateAchievements this w).thrown = some Abort.TypeError ∧
          ("perfectionist" ∈ unlocked ++ ["first_step"] ↔ "perfectionist" ∈ unlocked)) ∧
      (Progress.updateAchievements this w).world.page.tracker.achievements =
        w.page.tracker.achievements := by
  refine ⟨?_, Progress.updateAchievements_undefined this w, ?_, ?_⟩
  · intro a ha hid completed w'
    have hentry : a.type = some "special" ∧ a.threshold = 4 := by
      revert a
      decide
    unfold Progress.updateAchievements.body
    rw [if_neg (by rw [hentry.1]; decide), hentry.2]
  · intro unlocked hlist hfirst
    rw [Progress.updateAchievements_first_step this w unlocked hlist (by omega) hfirst]
    refine ⟨rfl, rfl, ?_⟩
    simp
  · rcases Progress.updateAchievements_outcome this w with h | h | ⟨a, -, unlocked, -, -, h⟩ <;>
      rw [h] <;> rfl

/-- Witness of C29: four checked weeks and an empty list on `window`; after the
run the list is `first_step` alone. -/
theorem perfectionist_not_reached_witness :
    (Progress.updateAchievements Progress.Receiver.window
      { page :=
          { tracker := Progress.ProgressTracker.new
            checkboxes := [("week1", true), ("week2", true), ("week3", true), ("week4", true)]
            localStorage :=
              { quantumProgressData := none
                quantumAchievements := none
                quantumStatistics := none } }
        window := { progress := none, achievements := some [], statistics := none }
        api := { progress := none, achievements := none, statistics := none }
        achievementsContainer := true
        shown := []
        notifications := [] }).world.window.achievements = some ([] ++ ["first_step"]) :=
  ((perfectionist_not_reached Progress.Receiver.window _ (by decide)).2.2.1 [] rfl
    (by decide)).1

/-! ## Claims on the reset and on the start date -/

/-- C16, the code at the failing input: a confirmed `resetProgress` never
completes.  Called as `resetProgress()` or as
`window.ProgressAPI.resetProgress()` it assigns the cleared fields on
`window` or on `ProgressAPI`, unchecks the week checkboxes and throws at
`this.saveData()`: the tracker and the storage are as before.  Run on a
tracker it clears the fields of the tracker, saves them, and throws at
`this.updateAllDisplays()`.  In no case is the notification shown. -/
theorem reset_never_completes (this : Progress.Receiver) (now : ℤ) (w : Progress.World) :
    (Progress.resetProgress this true now w).thrown = some Abort.TypeError ∧
      (Progress.resetProgress this true now w).world.notifications = w.notifications ∧
      completedCount (Progress.resetProgress this true now w).world.page.checkboxes = 0 ∧
      (this ≠ Progress.Receiver.tracker →
        (Progress.resetProgress this true now w).world.page.tracker = w.page.tracker ∧
          (Progress.resetProgress this true now w).world.page.localStorage =
            w.page.localStorage) ∧
      (Progress.resetProgress this true now w).world.progress this = some (JSON.obj []) ∧
      (Progress.resetProgress this true now w).world.achievements this = some [] ∧
      (Progress.resetProgress this true now w).world.statistics this =
        some
          { totalTime := 0
            sessionsCompleted := 0
            currentStreak := 0
            longestStreak := 0
            lastActive := none
            startDate := some now } ∧
      (this = Progress.Receiver.tracker →
        (Progress.resetProgress this true now w).world.page.localStorage =
          { quantumProgressData := some (JSON.stringify (JSON.obj []))
            quantumAchievements := some []
            quantumStatistics :=
              some
                { totalTime := 0
                  sessionsCompleted := 0
                  currentStreak := 0
                  longestStreak := 0
                  lastActive := none
                  startDate := some now } }) := by
  have hcount : ∀ checkboxes : Checkboxes,
      completedCount (checkboxes.map fun cb => (cb.1, false)) = 0 :=
    completedCount_unchecked
  cases this with
  | tracker =>
    refine ⟨rfl, rfl, ?_, fun h => absurd rfl h, rfl, rfl, rfl, fun _ => rfl⟩
    exact hcount w.page.checkboxes
  | window =>
    refine ⟨rfl, rfl, ?_, fun _ => ⟨rfl, rfl⟩, rfl, rfl, rfl, fun h => by cases h⟩
    exact hcount w.page.checkboxes
  | api =>
    refine ⟨rfl, rfl, ?_, fun _ => ⟨rfl, rfl⟩, rfl, rfl, rfl, fun h => by cases h⟩
    exact hcount w.page.checkboxes

/-- Witness of C16: the call `window.ProgressAPI.resetProgress()`, confirmed, on
a page whose storage holds week 1: the storage still holds it. -/
theorem reset_never_completes_witness :
    (Progress.resetProgress Progress.Receiver.api true 5000
      { page :=
          { tracker :=
              { Progress.ProgressTracker.new with
                progress := JSON.ofFlags [("week1", true)] }
            checkboxes := [("week1", true)]
            localStorage :=
              { quantumProgressData := some "\x7b\"week1\":true\x7d"
                quantumAchievements := none
                quantumStatistics := none } }
        window := { progress := none, achievements := none, statistics := none }
        api := { progress := none, achievements := none, statistics := none }
        achievementsContainer := true
        shown := []
        notifications := [] }).world.page.localStorage =
      { quantumProgressData := some "\x7b\"week1\":true\x7d"
        quantumAchievements := none
        quantumStatistics := none } :=
  ((reset_never_completes Progress.Receiver.api 5000 _).2.2.2.1 (by decide)).2

/-- C30: a declined `resetProgress` changes nothing, for every receiver: the
call returns, and the tracker, the checkboxes, the storage, the properties of
`window` and of `ProgressAPI` and the notifications are those before the
call. -/
theorem reset_declined (this : Progress.Receiver) (now : ℤ) (w : Progress.World) :
    Progress.resetProgress this false now w = Progress.Run.returned w ∧
      (Progress.resetProgress this false now w).thrown = none ∧
      (Progress.resetProgress this false now w).world = w ∧
      (Progress.resetProgress this false now w).world.page.tracker = w.page.tracker ∧
      (Progress.resetProgress this false now w).world.page.localStorage =
        w.page.localStorage := by
  have h : Progress.resetProgress this false now w = Progress.Run.returned w := by
    simp [Progress.resetProgress]
  rw [h]
  exact ⟨rfl, rfl, rfl, rfl, rfl⟩

/-- C23: `startDate` is immutable once set.  `loadData` of a stored statistics
state whose `startDate` is set keeps it and writes nothing, and assigns the
current time only when the statistics it loaded have none.  `checkDailyStreak`
on a tracker, and `updateStatistics`, `updateAchievements` and
`updateAllDisplays` with every receiver, returning or throwing, leave the
`startDate` of the statistics of every object as it is, and so does a
declined `resetProgress`.  A confirmed `resetProgress` assigns the current
time on its receiver and leaves the other objects alone. -/
theorem startDate_immutable (now : ℤ) (w : Progress.World) :
    (∀ (stored : Progress.Statistics) (start : ℤ) (progress : JSON),
        w.page.localStorage.quantumStatistics = some stored → stored.startDate = some start →
        Progress.loadData.progress w.page = Except.ok progress →
          ∃ p', Progress.loadData now w.page = Except.ok p' ∧
            p'.tracker.statistics.startDate = some start ∧
            p'.localStorage = w.page.localStorage) ∧
      (∀ (stored : Progress.Statistics) (progress : JSON),
        w.page.localStorage.quantumStatistics = some stored → stored.startDate = none →
        Progress.loadData.progress w.page = Except.ok progress →
          ∃ p', Progress.loadData now w.page = Except.ok p' ∧
            p'.tracker.statistics.startDate = some now) ∧
      (∀ progress : JSON, w.page.localStorage.quantumStatistics = none →
        Progress.loadData.progress w.page = Except.ok progress →
          ∃ p', Progress.loadData now w.page = Except.ok p' ∧
            p'.tracker.statistics.startDate =
              match w.page.tracker.statistics.startDate with
              | some start => some start
              | none => some now) ∧
      (∀ today : ℤ, (Progress.checkDailyStreak today w.page.tracker).statistics.startDate =
        w.page.tracker.statistics.startDate) ∧
      (∀ this object : Progress.Receiver,
        ((Progress.updateStatistics this w).world.statistics object).map
            (fun statistics => statistics.startDate) =
          (w.statistics object).map fun statistics => statistics.startDate) ∧
      (∀ this object : Progress.Receiver,
        (Progress.updateAchievements this w).world.statistics object = w.statistics object) ∧
      (∀ object : Progress.Receiver,
        ((Progress.updateAllDisplays w).world.statistics object).map
            (fun statistics => statistics.startDate) =
          (w.statistics object).map fun statistics => statistics.startDate) ∧
      (∀ this : Progress.Receiver, (Progress.resetProgress this false now w).world = w) ∧
      (∀ this object : Progress.Receiver,
        ((Progress.resetProgress this true now w).world.statistics object).map
            (fun statistics => statistics.startDate) =
          if object = this then some (some now)
          else (w.statistics object).map fun statistics => statistics.startDate) := by
  have hstatistics : ∀ this object : Progress.Receiver,
      ((Progress.updateStatistics this w).world.statistics object).map
          (fun statistics => statistics.startDate) =
        (w.statistics object).map fun statistics => statistics.startDate := by
    intro this object
    cases this with
    | tracker => cases object <;> rfl
    | window =>
      unfold Progress.updateStatistics
      simp only [Progress.World.statistics]
      cases hs : w.window.statistics <;> cases object <;>
        simp [Progress.World.statistics, Progress.Run.typeError, Progress.callSaveStatistics,
          Progress.World.setStatistics, Progress.updateStatistics.saved, hs]
    | api =>
      unfold Progress.updateStatistics
      simp only [Progress.World.statistics]
      cases hs : w.api.statistics <;> cases object <;>
        simp [Progress.World.statistics, Progress.Run.typeError, Progress.callSaveStatistics,
          Progress.World.setStatistics, Progress.updateStatistics.saved, hs]
  refine ⟨?_, ?_, ?_, ?_, hstatistics, ?_, ?_, ?_, ?_⟩
  · intro stored start progress hstored hstart hprogress
    unfold Progress.loadData
    rw [hprogress]
    simp only [hstored]
    rw [if_neg (by rw [hstart]; simp)]
    exact ⟨_, rfl, hstart, rfl⟩
  · intro stored progress hstored hstart hprogress
    obtain ⟨p', hp', hdate⟩ := Progress.loadData_startDate now w.page progress hprogress
    refine ⟨p', hp', ?_⟩
    rw [hdate]
    simp only [hstored, hstart]
  · intro progress hstored hprogress
    obtain ⟨p', hp', hdate⟩ := Progress.loadData_startDate now w.page progress hprogress
    refine ⟨p', hp', ?_⟩
    rw [hdate]
    simp only [hstored]
  · intro today
    unfold Progress.checkDailyStreak
    cases w.page.tracker.statistics.lastActive with
    | none => simp only; split_ifs <;> rfl
    | some d => simp only; split_ifs <;> rfl
  · intro this object
    rcases Progress.updateAchievements_outcome this w with h | h | ⟨a, -, unlocked, -, -, h⟩ <;>
      rw [h] <;> cases object <;> rfl
  · intro object
    rw [(Progress.updateAllDisplays_eq w).1]
    exact hstatistics Progress.Receiver.window object
  · intro this
    simp [Progress.resetProgress, Progress.Run.returned]
  · intro this object
    cases this <;> cases object <;> rfl

/-- Witness of C23: a stored start date survives `loadData` at a later time. -/
theorem startDate_immutable_witness :
    ∃ p', Progress.loadData 9000
        { tracker := Progress.ProgressTracker.new
          checkboxes := []
          localStorage :=
            { quantumProgressData := none
              quantumAchievements := none
              quantumStatistics :=
                some { Progress.ProgressTracker.new.statistics with startDate := some 1000 } } }
        = Except.ok p' ∧
      p'.tracker.statistics.startDate = some 1000 := by
  obtain ⟨p', h₁, h₂, -⟩ := (startDate_immutable 9000
    { page :=
        { tracker := Progress.ProgressTracker.new
          checkboxes := []
          localStorage :=
            { quantumProgressData := none
              quantumAchievements := none
              quantumStatistics :=
                some { Progress.ProgressTracker.new.statistics with startDate := some 1000 } } }
      window := { progress := none, achievements := none, statistics := none }
      api := { progress := none, achievements := none, statistics := none }
      achievementsContainer := false
      shown := []
      notifications := [] }).1
    { Progress.ProgressTracker.new.statistics with startDate := some 1000 } 1000
    Progress.ProgressTracker.new.progress rfl rfl rfl
  exact ⟨p', h₁, h₂⟩

/-! ## Claims on the progress map of `main.js` after changes and imports -/

/-- C22, as found: after the import of a file whose `progress` is `true`,
`appState.progress` is the boolean `true`, on which an assignment of a
property does nothing.  Checking week 1 then leaves the checkbox checked and
the completed count 1, but `appState.progress` has no entry for the week and
`calculateStatistics` counts 0 completed weeks. -/
theorem drift_after_import_of_true :
    ∃ p₁ p₂ st,
      Main.importProgress { now := 0, today := 0, quotaExceeded := false }
          "\x7b\"progress\":true\x7d"
          { appState := Main.appState
            checkboxes := [("week1", false)]
            localStorage := { items := [] }
            notifications := [] } = Except.ok p₁ ∧
        Main.changeCheckbox { now := 1, today := 0, quotaExceeded := false } "week1" true p₁ =
          Except.ok p₂ ∧
        p₂.checkboxes = [("week1", true)] ∧
        p₂.appState.progress = JSON.bool true ∧
        JSON.get p₂.appState.progress "week1" = none ∧
        completedCount p₂.checkboxes = 1 ∧
        Main.calculateStatistics p₂.appState = Except.ok st ∧
        st.weeksCompleted = 0 :=
  ⟨_, _, _, rfl, rfl, rfl, rfl, rfl, rfl, rfl, rfl⟩

/-- C22, amended: on a page whose progress is an object and whose week
checkboxes have distinct ids, none of them `__proto__`, every run of
`updateProgress`, alone or after any sequence of checkbox changes, returns
with the checkboxes as they were set and with `appState.progress` holding
under the id of every week checkbox its `checked`; the completed count, the
number of checked checkboxes, is the number of checkboxes whose entry is
`true`; and when the object had distinct keys, all of them checkbox ids,
`calculateStatistics` returns that count as `weeksCompleted`. -/
theorem no_drift (changes : List (Main.Env × String × Bool)) (env : Main.Env) (id : String)
    (checked : Bool) (p : Main.Page) (members : List (String × JSON))
    (hobj : p.appState.progress = JSON.obj members)
    (hnd : (p.checkboxes.map fun cb => cb.1).Nodup)
    (hproto : ∀ cb ∈ p.checkboxes, cb.1 ≠ "__proto__") :
    (∃ p', Main.updateProgress env p = Except.ok p' ∧ p'.checkboxes = p.checkboxes ∧
        ∀ cb ∈ p'.checkboxes, JSON.get p'.appState.progress cb.1 = some (JSON.bool cb.2)) ∧
      ∃ p', Main.changeCheckboxes (changes ++ [(env, id, checked)]) p = Except.ok p' ∧
        p'.checkboxes.map (fun cb => cb.1) = p.checkboxes.map (fun cb => cb.1) ∧
        (∀ cb ∈ p'.checkboxes, JSON.get p'.appState.progress cb.1 = some (JSON.bool cb.2)) ∧
        completedCount p'.checkboxes =
          (p'.checkboxes.filter fun cb =>
            decide (JSON.get p'.appState.progress cb.1 = some (JSON.bool true))).length ∧
        ((members.map fun m => m.1).Nodup →
          (∀ m ∈ members, m.1 ∈ p.checkboxes.map fun cb => cb.1) →
          ∃ st, Main.calculateStatistics p'.appState = Except.ok st ∧
            st.weeksCompleted = completedCount p'.checkboxes) := by
  constructor
  · obtain ⟨p', hrun, hprogress, hboxes⟩ := Main.updateProgress_obj env p members hobj
    refine ⟨p', hrun, hboxes, ?_⟩
    rw [hboxes, hprogress, Main.foldl_assign_eq_setMember _ hproto]
    exact Main.get_foldl_setMember _ hnd members
  · obtain ⟨p₁, members₁, hrun₁, hobj₁, hids₁, hnd₁, hkeys₁⟩ :=
      Main.changeCheckboxes_obj changes p members hobj hnd hproto
    have hnd₁' : (p₁.checkboxes.map fun cb => cb.1).Nodup := by rw [hids₁]; exact hnd
    obtain ⟨p', members', hrun, hobj', hids, hsync, hnd', hkeys⟩ :=
      Main.changeCheckbox_obj env id checked p₁ members₁ hobj₁ hnd₁'
        (Main.ids_ne_of_map_eq _ _ hids₁ hproto)
    have hnd'' : (p'.checkboxes.map fun cb => cb.1).Nodup := by rw [hids]; exact hnd₁'
    refine ⟨p', ?_, by rw [hids, hids₁], ?_, ?_, ?_⟩
    · rw [Main.changeCheckboxes_append, hrun₁]
      simp only [Main.changeCheckboxes, hrun]
    · rw [hobj']
      exact hsync
    · rw [completedCount]
      congr 1
      apply List.filter_congr
      intro cb hcb
      rw [hobj', hsync cb hcb]
      cases cb.2 <;> decide
    · intro hmembers hsubset
      refine ⟨_, (Main.calculateStatistics_obj p'.appState members' hobj').2, ?_⟩
      apply Main.count_truthy_eq_completedCount members' p'.checkboxes
        (hnd' (hnd₁ hmembers)) hnd''
      · intro k
        rw [hkeys, hids, hids₁]
        constructor
        · rintro (h | h)
          · rcases hkeys₁ k h with h' | h'
            · obtain ⟨m, hm, rfl⟩ := List.mem_map.mp h'
              exact hsubset m hm
            · exact h'
          · exact h
        · intro h
          exact Or.inr h
      · exact hsync

/-- Witness of C22 amended: from the initial page with two week checkboxes,
checking both and unchecking the first leaves one completed week in the map
and in `calculateStatistics`. -/
theorem no_drift_witness :
    ∃ p', Main.changeCheckboxes
        ([({ now := 1, today := 0, quotaExceeded := false }, "week1", true),
          ({ now := 2, today := 0, quotaExceeded := false }, "week2", true)] ++
          [({ now := 3, today := 1, quotaExceeded := false }, "week1", false)])
        { appState := Main.appState
          checkboxes := [("week1", false), ("week2", false)]
          localStorage := { items := [] }
          notifications := [] } = Except.ok p' ∧
      (∀ cb ∈ p'.checkboxes, JSON.get p'.appState.progress cb.1 = some (JSON.bool cb.2)) ∧
      ∃ st, Main.calculateStatistics p'.appState = Except.ok st ∧
        st.weeksCompleted = completedCount p'.checkboxes := by
  obtain ⟨p', hrun, -, hsync, -, hstat⟩ :=
    (no_drift
      [({ now := 1, today := 0, quotaExceeded := false }, "week1", true),
        ({ now := 2, today := 0, quotaExceeded := false }, "week2", true)]
      { now := 3, today := 1, quotaExceeded := false } "week1" false
      { appState := Main.appState
        checkboxes := [("week1", false), ("week2", false)]
        localStorage := { items := [] }
        notifications := [] } [] rfl (by decide) (by decide)).2
  exact ⟨p', hrun, hsync, hstat (by decide) (by intro m hm; cases hm)⟩

namespace Main

/-- The state `updateProgress` ends with, when the recording loop succeeds:
that progress value, and the checkboxes as they were. -/
theorem updateProgress_of_record_checkboxes (env : Env) (p : Page) (progress : JSON)
    (h : updateProgress.record p.checkboxes p.appState.progress = Except.ok progress) :
    ∃ p', updateProgress env p = Except.ok p' ∧ p'.appState.progress = progress ∧
      p'.checkboxes = p.checkboxes := by
  unfold updateProgress
  rw [h]
  refine ⟨_, rfl, ?_, ?_⟩
  · simp only [calculateStreak_progress, checkAchievements_progress, saveProgress_progress]
  · simp only [saveProgress_checkboxes]

theorem assignArray_ne_null (length : ℕ) (members : List (String × JSON)) (key : String)
    (checked : Bool) : JSON.assignArray length members key checked ≠ JSON.null := by
  unfold JSON.assignArray
  by_cases hkey : key = "length"
  · rw [if_pos hkey]
    intro h
    cases h
  · rw [if_neg hkey]
    split <;> intro h <;> cases h

/-- An assignment on a value other than `null` returns, with a value other
than `null`. -/
theorem set_ne_null (value : JSON) (key : String) (checked : Bool) (h : value ≠ JSON.null) :
    ∃ value', JSON.set value key checked = Except.ok value' ∧ value' ≠ JSON.null := by
  cases value with
  | null => exact absurd rfl h
  | bool b => exact ⟨_, rfl, h⟩
  | num m e => exact ⟨_, rfl, h⟩
  | str s => exact ⟨_, rfl, h⟩
  | arr elems => exact ⟨_, rfl, assignArray_ne_null _ _ _ _⟩
  | obj members => exact ⟨_, rfl, by intro h'; cases h'⟩
  | array length members => exact ⟨_, rfl, assignArray_ne_null _ _ _ _⟩

/-- On a value other than `null` the recording loop of `updateProgress`
returns. -/
theorem record_ne_null (checkboxes : Checkboxes) :
    ∀ value : JSON, value ≠ JSON.null →
      ∃ value', updateProgress.record checkboxes value = Except.ok value' := by
  induction checkboxes with
  | nil => intro value _; exact ⟨value, rfl⟩
  | cons cb rest ih =>
    intro value h
    obtain ⟨value₁, h₁, hne⟩ := set_ne_null value cb.1 cb.2 h
    obtain ⟨value', h'⟩ := ih value₁ hne
    refine ⟨value', ?_⟩
    rw [updateProgress.record, h₁]
    exact h'

theorem truthy_ne_null (value : JSON) (h : JSON.truthy (some value) = true) :
    value ≠ JSON.null := by
  intro hnull
  rw [hnull] at h
  cases h

/-- With a truthy value as progress, `applyProgressToUI` returns: the
checkboxes are those the loop over the keys of the value sets, and the
progress is what the recording loop makes of the value. -/
theorem applyProgressToUI_truthy (env : Env) (p : Page)
    (h : JSON.truthy (some p.appState.progress) = true) :
    ∃ p' ids, JSON.keys p.appState.progress = some ids ∧
      applyProgressToUI env p = Except.ok p' ∧
      p'.checkboxes = applyProgressToUI.check p.appState.progress ids p.checkboxes ∧
      updateProgress.record p'.checkboxes p.appState.progress =
        Except.ok p'.appState.progress := by
  have hne := truthy_ne_null _ h
  have hkeys : ∃ ids, JSON.keys p.appState.progress = some ids := by
    cases hvalue : p.appState.progress with
    | null => exact absurd hvalue hne
    | bool b => exact ⟨_, rfl⟩
    | num m e => exact ⟨_, rfl⟩
    | str s => exact ⟨_, rfl⟩
    | arr elems => exact ⟨_, rfl⟩
    | obj members => exact ⟨_, rfl⟩
    | array length members => exact ⟨_, rfl⟩
  obtain ⟨ids, hids⟩ := hkeys
  obtain ⟨progress', hrecord⟩ := record_ne_null
    (applyProgressToUI.check p.appState.progress ids p.checkboxes) p.appState.progress hne
  obtain ⟨p', hrun, hprogress, hboxes⟩ := updateProgress_of_record_checkboxes env
    { p with checkboxes := applyProgressToUI.check p.appState.progress ids p.checkboxes }
    progress' hrecord
  refine ⟨p', ids, hids, ?_, hboxes, ?_⟩
  · unfold applyProgressToUI
    rw [hids]
    exact hrun
  · rw [hboxes, hprogress]
    exact hrecord

end Main

/-- C25, as found: the imported field is not what `appState.progress` ends
with.  With week 1 checked on the page, importing a file whose progress field
has only week 2 ends with a map that has both weeks; and a file whose
progress field is `false` is parsed, has the field, and changes nothing. -/
theorem import_merges_with_page :
    (JSON.parse "\x7b\"progress\":\x7b\"week2\":true\x7d\x7d" =
        some (JSON.obj [("progress", JSON.obj [("week2", JSON.bool true)])]) ∧
      ∃ p', Main.importProgress { now := 0, today := 0, quotaExceeded := false }
          "\x7b\"progress\":\x7b\"week2\":true\x7d\x7d"
          { appState :=
              { Main.appState with
                progress := JSON.obj [("week1", JSON.bool true), ("week2", JSON.bool false)] }
            checkboxes := [("week1", true), ("week2", false)]
            localStorage := { items := [] }
            notifications := [] } = Except.ok p' ∧
        p'.appState.progress =
          JSON.obj [("week2", JSON.bool true), ("week1", JSON.bool true)] ∧
        p'.appState.progress ≠ JSON.obj [("week2", JSON.bool true)]) ∧
    (JSON.parse "\x7b\"progress\":false\x7d" =
        some (JSON.obj [("progress", JSON.bool false)]) ∧
      Main.importProgress { now := 0, today := 0, quotaExceeded := false }
          "\x7b\"progress\":false\x7d"
          { appState :=
              { Main.appState with progress := JSON.obj [("week1", JSON.bool true)] }
            checkboxes := [("week1", true)]
            localStorage := { items := [] }
            notifications := [] } =
        Except.ok
          { appState :=
              { Main.appState with progress := JSON.obj [("week1", JSON.bool true)] }
            checkboxes := [("week1", true)]
            localStorage := { items := [] }
            notifications := [] }) :=
  ⟨⟨by decide, _, rfl, rfl, by decide⟩, by decide, rfl⟩

/-- C25, amended: `importProgress` returns for every text; no exception leaves
it.  A text that does not parse only adds the error notification.  A document
whose `progress` is missing or falsy leaves `appState`, the checkboxes and
the storage as they were.  A document whose `progress` is truthy has that
value assigned: the loop of `applyProgressToUI` over its keys sets the
checkboxes, and `appState.progress` ends as what the recording loop of
`updateProgress` over all week checkboxes makes of the value.  When the value
is an object that is the object with one property assigned per checkbox, and
when it is a map of flags with distinct keys that include the distinct,
non-empty ids of all week checkboxes, `appState.progress` ends as that map.
Two documents with the same `progress` give the same result, whatever their
other fields. -/
theorem importProgress_outcomes (env : Main.Env) (text : String) (p : Main.Page) :
    (∃ p', Main.importProgress env text p = Except.ok p') ∧
      (JSON.parse text = none →
        Main.importProgress env text p = Except.ok
          { p with
            notifications := p.notifications ++ [("Error al importar el archivo", "error")] }) ∧
      (∀ data, JSON.parse text = some data → JSON.truthy (JSON.get data "progress") = false →
        ∃ p', Main.importProgress env text p = Except.ok p' ∧ p'.appState = p.appState ∧
          p'.checkboxes = p.checkboxes ∧ p'.localStorage = p.localStorage) ∧
      (∀ data value, JSON.parse text = some data → JSON.get data "progress" = some value →
        JSON.truthy (some value) = true →
        ∃ p' ids, JSON.keys value = some ids ∧
          Main.importProgress env text p = Except.ok p' ∧
          p'.checkboxes = Main.applyProgressToUI.check value ids p.checkboxes ∧
          Main.updateProgress.record p'.checkboxes value = Except.ok p'.appState.progress) ∧
      (∀ data members, JSON.parse text = some data →
        JSON.get data "progress" = some (JSON.obj members) →
        ∃ p', Main.importProgress env text p = Except.ok p' ∧
          p'.checkboxes = Main.applyProgressToUI.check (JSON.obj members)
            (members.map fun m => m.1) p.checkboxes ∧
          p'.appState.progress = JSON.obj (p'.checkboxes.foldl
            (fun acc cb => JSON.assign acc cb.1 (JSON.bool cb.2)) members)) ∧
      (∀ data m, JSON.parse text = some data →
        JSON.get data "progress" = some (JSON.ofFlags m) →
        (m.map fun kv => kv.1).Nodup → (p.checkboxes.map fun cb => cb.1).Nodup →
        (∀ cb ∈ p.checkboxes, cb.1 ∈ m.map fun kv => kv.1) →
        (∀ cb ∈ p.checkboxes, cb.1 ≠ "") →
        ∃ p', Main.importProgress env text p = Except.ok p' ∧
          p'.appState.progress = JSON.ofFlags m) ∧
      (∀ text' data data', JSON.parse text = some data → JSON.parse text' = some data' →
        data ≠ JSON.null → data' ≠ JSON.null →
        JSON.get data' "progress" = JSON.get data "progress" →
        Main.importProgress env text' p = Main.importProgress env text p) := by
  have hnull : ∀ (data : JSON) (v : JSON), JSON.get data "progress" = some v →
      data ≠ JSON.null := by
    intro data v hget hdata
    rw [hdata] at hget
    cases hget
  have hfield : ∀ data value, JSON.parse text = some data →
      JSON.get data "progress" = some value → JSON.truthy (some value) = true →
      Main.importProgress.field text = Except.ok (some value) := by
    intro data value hparse hget htruthy
    rw [Main.importProgress_field_eq text data hparse (hnull data _ hget), hget, htruthy]
    rfl
  refine ⟨?_, ?_, ?_, ?_, ?_, ?_, ?_⟩
  · unfold Main.importProgress
    split
    · exact ⟨_, rfl⟩
    · exact ⟨_, rfl⟩
    · simp only
      split
      · exact ⟨_, rfl⟩
      · exact ⟨_, rfl⟩
  · intro hparse
    unfold Main.importProgress Main.importProgress.field
    rw [hparse]
  · intro data hparse hfalsy
    by_cases hdata : data = JSON.null
    · unfold Main.importProgress Main.importProgress.field
      rw [hparse, hdata]
      exact ⟨_, rfl, rfl, rfl, rfl⟩
    · unfold Main.importProgress
      rw [Main.importProgress_field_eq text data hparse hdata, hfalsy]
      exact ⟨_, rfl, rfl, rfl, rfl⟩
  · intro data value hparse hget htruthy
    obtain ⟨p₂, ids, hids, happly, hboxes, hrecord⟩ := Main.applyProgressToUI_truthy env
      { p with appState := { p.appState with progress := value } } htruthy
    refine ⟨_, ids, hids,
      Main.importProgress_of_apply env text p p₂ _ (hfield data value hparse hget htruthy) happly,
      ?_, ?_⟩
    · simp only [Main.saveProgress_checkboxes, hboxes]
    · simp only [Main.saveProgress_progress, Main.saveProgress_checkboxes]
      exact hrecord
  · intro data members hparse hget
    obtain ⟨p₂, happly, hboxes, hprogress⟩ := Main.applyProgressToUI_obj env
      { p with appState := { p.appState with progress := JSON.obj members } } members rfl
    refine ⟨_, Main.importProgress_of_apply env text p p₂ _
      (hfield data _ hparse hget rfl) happly, ?_, ?_⟩
    · simp only [Main.saveProgress_checkboxes, hboxes]
    · simp only [Main.saveProgress_progress, Main.saveProgress_checkboxes, hprogress]
  · intro data m hparse hget hm hnd hkeys hids
    obtain ⟨p₂, happly, hprogress⟩ := Main.applyProgressToUI_ofFlags env
      { p with appState := { p.appState with progress := JSON.ofFlags m } } m hm rfl hnd hkeys
      hids
    refine ⟨_, Main.importProgress_of_apply env text p p₂ _
      (hfield data _ hparse hget rfl) happly, ?_⟩
    simp only [Main.saveProgress_progress, hprogress]
  · intro text' data data' hparse hparse' hdata hdata' hget
    unfold Main.importProgress
    rw [Main.importProgress_field_eq text data hparse hdata,
      Main.importProgress_field_eq text' data' hparse' hdata', hget]

/-- Witness of C25 amended: a file with the complete map of a page with one
week checkbox and a field the import does not know. -/
theorem importProgress_outcomes_witness :
    ∃ p', Main.importProgress { now := 7, today := 0, quotaExceeded := false }
        "\x7b\"version\":2,\"progress\":\x7b\"week1\":true\x7d\x7d"
        { appState := Main.appState
          checkboxes := [("week1", false)]
          localStorage := { items := [] }
          notifications := [] } = Except.ok p' ∧
      p'.appState.progress = JSON.ofFlags [("week1", true)] :=
  (importProgress_outcomes { now := 7, today := 0, quotaExceeded := false }
    "\x7b\"version\":2,\"progress\":\x7b\"week1\":true\x7d\x7d"
    { appState := Main.appState
      checkboxes := [("week1", false)]
      localStorage := { items := [] }
      notifications := [] }).2.2.2.2.2.1
    (JSON.obj [("version", JSON.num 2 0), ("progress", JSON.obj [("week1", JSON.bool true)])])
    [("week1", true)] (by decide) rfl (by decide) (by decide) (by decide) (by decide)

end Cronograma
